import Mathlib

/-!
# FSEQv2 codec (VLT): shallow embedding and verified properties

The definitions below embed `src/fseq_v2.cpp` / `src/fseq_v2.h`.

Conventions of the embedding

* `std::byte` and `char` are `Byte = Fin 256`; `std::span<const std::byte>`, `std::vector<std::byte>`
  and `std::string` are `List Byte`.
* Machine integers are `Nat` / `Int` with explicit reduction modulo `2 ^ w` wherever the C++
  arithmetic is performed in a `w`-bit type (`uint8_t`, `uint16_t`, `uint32_t`, `std::size_t` = 64 bit,
  `std::chrono` counts = signed 64 bit).
* The host is little-endian (`le_to_native` is the identity; `memcpy` of the packed header reads
  little-endian fields).  The two 4-bit bit-fields of header byte 20 are laid out low nibble first
  (`compression_block_count_upper_bits`), high nibble second (`compression_type`).
* A thrown exception is `Except.error e`, `e` naming the error kind of the specification; the throw
  site is given next to each constructor.
* A violated precondition of `std::span::first` / `std::span::subspan` (undefined behaviour in C++)
  is the distinguished outcome `Error.UndefinedBehaviour`.
* `std::map<std::string, std::string>` is an association list kept in ascending key order.
* The text built by `FSEQv2::Frame::dump` is a `List Char`; `std::format` is embedded for the
  three format specifications the function uses.
-/

namespace VLT

/-! ## Basic types -/

/-- One `std::byte` (also one `char` of a `std::string`). -/
abbrev Byte := Fin 256

/-- Error kinds.  Each constructor stands for the C++ exceptions listed with it. -/
inductive Error
  /-- The C++ `FSEQv2_Header: Invalid size` -/
  | BadSize
  /-- The C++ `FSEQv2_Header: Invalid magic` -/
  | BadMagic
  /-- The C++ `FSEQv2_Header: Invalid major version; expected 2` -/
  | UnsupportedVersion
  /-- The C++ `FSEQv2_Header: Non-zero flags field not supported` -/
  | UnsupportedFlags
  /-- The C++ `FSEQv2_Header: Compression not supported` and
  `FSEQv2_Header: Compression blocks present; unsupported` -/
  | UnsupportedCompression
  /-- The C++ `FSEQv2_Header: Sparse channel ranges not supported` -/
  | UnsupportedSparseRanges
  /-- The C++ `variable size overrun` (parse_fseq_variable) -/
  | TruncatedRecord
  /-- The C++ `serialize_fseq_variable: invalid code length` and `Invalid code length` (add_variable) -/
  | InvalidCodeLength
  /-- The C++ `serialize_fseq_variable: data too long` -/
  | DataTooLarge
  /-- The C++ `channel data block size wrong` (parse_from_) -/
  | FrameDataSizeMismatch
  /-- The C++ `FSEQv2::add_frame: invalid channel count` -/
  | ChannelCountMismatch
  /-- The C++ `variable data too long` (serialize) -/
  | DocumentTooLarge
  /-- The C++ `std::out_of_range` thrown by `std::vector::at` -/
  | OutOfRange
  /-- The C++ `FSEQv2: too long step time` (constructor) -/
  | StepTimeTooLong
  /-- A precondition of `std::span::first` or `std::span::subspan` is violated. -/
  | UndefinedBehaviour
  /-- The fuel of the embedded variable loop ran out (shown unreachable below). -/
  | OutOfFuel
  deriving DecidableEq, Repr

instance instDecidableEqExcept {ε α : Type} [DecidableEq ε] [DecidableEq α] :
    DecidableEq (Except ε α) := fun a b =>
  match a, b with
  | .ok x, .ok y => if h : x = y then isTrue (by rw [h]) else isFalse (by
      intro h2; cases h2; exact h rfl)
  | .error x, .error y => if h : x = y then isTrue (by rw [h]) else isFalse (by
      intro h2; cases h2; exact h rfl)
  | .ok _, .error _ => isFalse (by intro h; cases h)
  | .error _, .ok _ => isFalse (by intro h; cases h)

/-! ## Machine integers -/

/-- The C++ `std::dynamic_extent`, i.e. `SIZE_MAX` for a 64-bit `std::size_t`. -/
def dynamic_extent : Nat := 2 ^ 64 - 1

/-- Conversion of a signed integer to `std::size_t` / `uint64_t` (reduction modulo `2 ^ 64`). -/
def to_size_t (i : Int) : Nat := (i % (2 ^ 64 : Int)).toNat

/-- Conversion of a `uint64_t` value to a signed 64-bit count (two's complement). -/
def to_int64 (n : Nat) : Int :=
  if n % 2 ^ 64 < 2 ^ 63 then ((n % 2 ^ 64 : Nat) : Int) else ((n % 2 ^ 64 : Nat) : Int) - 2 ^ 64

/-- The C++ `static_cast<std::byte>` of an unsigned value: the low 8 bits. -/
def to_byte (n : Nat) : Byte := ⟨n % 256, Nat.mod_lt n (by decide)⟩

/-- The little-endian object representation of a `uint16_t`. -/
def le16_bytes (n : Nat) : List Byte := [to_byte n, to_byte (n / 256)]

/-- The little-endian object representation of a `uint32_t`. -/
def le32_bytes (n : Nat) : List Byte :=
  [to_byte n, to_byte (n / 256), to_byte (n / 65536), to_byte (n / 16777216)]

/-- The little-endian object representation of a `uint64_t`. -/
def le64_bytes (n : Nat) : List Byte :=
  [to_byte n, to_byte (n / 2 ^ 8), to_byte (n / 2 ^ 16), to_byte (n / 2 ^ 24),
   to_byte (n / 2 ^ 32), to_byte (n / 2 ^ 40), to_byte (n / 2 ^ 48), to_byte (n / 2 ^ 56)]

/-- The byte of `raw` at index `i`, as a number (`0` past the end; every use is guarded). -/
def byte_at (raw : List Byte) (i : Nat) : Nat := (raw.getD i 0).val

/-- Read a little-endian `uint16_t` stored at offset `i`. -/
def read_le16 (raw : List Byte) (i : Nat) : Nat := byte_at raw i + 256 * byte_at raw (i + 1)

/-- Read a little-endian `uint32_t` stored at offset `i`. -/
def read_le32 (raw : List Byte) (i : Nat) : Nat :=
  byte_at raw i + 256 * byte_at raw (i + 1) + 65536 * byte_at raw (i + 2)
    + 16777216 * byte_at raw (i + 3)

/-- Read a little-endian `uint64_t` stored at offset `i`. -/
def read_le64 (raw : List Byte) (i : Nat) : Nat :=
  byte_at raw i + 2 ^ 8 * byte_at raw (i + 1) + 2 ^ 16 * byte_at raw (i + 2)
    + 2 ^ 24 * byte_at raw (i + 3) + 2 ^ 32 * byte_at raw (i + 4) + 2 ^ 40 * byte_at raw (i + 5)
    + 2 ^ 48 * byte_at raw (i + 6) + 2 ^ 56 * byte_at raw (i + 7)

/-! ## `std::span` -/

/-- The C++ `span.first(count)`: the first `count` elements; precondition `count <= size()`. -/
def span_first (s : List Byte) (count : Nat) : Except Error (List Byte) :=
  if count ≤ s.length then .ok (s.take count) else .error .UndefinedBehaviour

/-- The C++ `span.subspan(offset, count)`; preconditions `offset <= size()` and
`count == dynamic_extent || count <= size() - offset`. -/
def span_subspan (s : List Byte) (offset : Nat) (count : Nat) : Except Error (List Byte) :=
  if offset ≤ s.length then
    if count = dynamic_extent then .ok (s.drop offset)
    else if count ≤ s.length - offset then .ok ((s.drop offset).take count)
    else .error .UndefinedBehaviour
  else .error .UndefinedBehaviour

/-! ## `std::map<std::string, std::string>` -/

/-- The C++ `operator<` of `std::string`: lexicographic comparison of the bytes as unsigned values. -/
def string_lt : List Byte → List Byte → Bool
  | [], [] => false
  | [], _ :: _ => true
  | _ :: _, [] => false
  | a :: as, b :: bs => decide (a < b) || (decide (a = b) && string_lt as bs)

/-- The variable mapping: `(code, data)` entries in iteration order. -/
abbrev VarMap := List (List Byte × List Byte)

/-- The C++ `m[code] = value` on a `std::map`: overwrite the entry with an equivalent key, or insert the
new entry at its place in key order. -/
def map_assign : VarMap → List Byte → List Byte → VarMap
  | [], code, value => [(code, value)]
  | (k, v) :: rest, code, value =>
    if string_lt code k then (code, value) :: (k, v) :: rest
    else if string_lt k code then (k, v) :: map_assign rest code value
    else (k, value) :: rest

/-- The C++ `m.find(code)`: the data stored under `code`, if any. -/
def map_find : VarMap → List Byte → Option (List Byte)
  | [], _ => none
  | (k, v) :: rest, code => if k = code then some v else map_find rest code

/-! ## FSEQv2_Variable -/

/-- The C++ `struct FSEQv2_Variable`. -/
structure FSEQv2_Variable where
  /-- The C++ `size_type size{}` (`uint16_t`) -/
  size : Nat
  /-- The 2-byte code. -/
  code : List Byte
  /-- The data string. -/
  data : List Byte
  deriving DecidableEq, Repr

/-- The C++ `FSEQv2_Variable::CODE_LENGTH` -/
def CODE_LENGTH : Nat := 2

/-- The C++ `FSEQv2_Variable::HEADER_LENGTH` = `sizeof(size_type) + CODE_LENGTH` -/
def HEADER_LENGTH : Nat := 2 + CODE_LENGTH

/-- The C++ `FSEQv2_Variable::MAX_DATA_LENGTH` = `numeric_limits<uint16_t>::max() - HEADER_LENGTH` -/
def MAX_DATA_LENGTH : Nat := 65535 - HEADER_LENGTH

/-- The C++ `parse_fseq_variable(raw)`. -/
def parse_fseq_variable (raw : List Byte) : Except Error FSEQv2_Variable :=
  if raw.length < 2 + CODE_LENGTH then .ok { size := 0, code := [], data := [] }
  else
    let size := read_le16 raw 0
    match span_subspan raw 2 dynamic_extent with
    | .error e => .error e
    | .ok raw1 =>
      if size = 0 then .ok { size := 0, code := [], data := [] }
      else
        let code := raw1.take CODE_LENGTH
        match span_subspan raw1 CODE_LENGTH dynamic_extent with
        | .error e => .error e
        | .ok raw2 =>
          -- `auto data_size = var.size - 4;` is an `int`; it is converted to `size_t` in the
          -- comparison and in the string constructor
          let data_size : Int := (size : Int) - 4
          if raw2.length < to_size_t data_size then .error .TruncatedRecord
          else .ok { size := size, code := code, data := raw2.take (to_size_t data_size) }

/-- The C++ `serialize_fseq_variable(code, data)`. -/
def serialize_fseq_variable (code data : List Byte) : Except Error (List Byte) :=
  if code.length ≠ CODE_LENGTH then .error .InvalidCodeLength
  else if data.length > MAX_DATA_LENGTH then .error .DataTooLarge
  else
    let size := (HEADER_LENGTH + data.length) % 2 ^ 16
    .ok (le16_bytes size ++ code ++ data)

/-! ## FSEQv2_Header -/

/-- The C++ `struct FSEQv2_Header` (packed, 32 bytes). -/
structure FSEQv2_Header where
  /-- The C++ `std::array<char, 4> identifier` -/
  identifier : List Byte
  /-- The C++ `uint16_t ch_data_offset` -/
  ch_data_offset : Nat
  /-- The C++ `uint8_t version_minor` -/
  version_minor : Nat
  /-- The C++ `uint8_t version_major` -/
  version_major : Nat
  /-- The C++ `uint16_t var_data_offset` -/
  var_data_offset : Nat
  /-- The C++ `uint32_t channel_count` -/
  channel_count : Nat
  /-- The C++ `uint32_t frame_count` -/
  frame_count : Nat
  /-- The C++ `uint8_t step_time` -/
  step_time : Nat
  /-- The C++ `uint8_t flags` -/
  flags : Nat
  /-- The C++ `uint8_t compression_block_count_upper_bits : 4` -/
  compression_block_count_upper_bits : Nat
  /-- The C++ `uint8_t compression_type : 4` -/
  compression_type : Nat
  /-- The C++ `uint8_t compression_block_count_lower_bits` -/
  compression_block_count_lower_bits : Nat
  /-- The C++ `uint8_t sparse_range_count` -/
  sparse_range_count : Nat
  /-- The C++ `uint8_t _reserved_` -/
  reserved : Nat
  /-- The C++ `uint64_t timestamp_us` -/
  timestamp_us : Nat
  deriving DecidableEq, Repr

/-- The literal `"PSEQ"`. -/
def PSEQ : List Byte := [80, 83, 69, 81]

/-- The C++ `sizeof(FSEQv2_Header)` -/
def HEADER_SIZE : Nat := 32

/-- The default member initialisers (`FSEQv2_Header() = default`). -/
def FSEQv2_Header.default : FSEQv2_Header :=
  { identifier := PSEQ, ch_data_offset := 0, version_minor := 0, version_major := 2,
    var_data_offset := 0, channel_count := 0, frame_count := 0, step_time := 0, flags := 0,
    compression_block_count_upper_bits := 0, compression_type := 0,
    compression_block_count_lower_bits := 0, sparse_range_count := 0, reserved := 0,
    timestamp_us := 0 }

/-- The effect of `std::memcpy(this, raw.data(), sizeof(*this))`: the fields of the packed struct
read from 32 bytes. -/
def FSEQv2_Header.memcpy (raw : List Byte) : FSEQv2_Header :=
  { identifier := raw.take 4
    ch_data_offset := read_le16 raw 4
    version_minor := byte_at raw 6
    version_major := byte_at raw 7
    var_data_offset := read_le16 raw 8
    channel_count := read_le32 raw 10
    frame_count := read_le32 raw 14
    step_time := byte_at raw 18
    flags := byte_at raw 19
    compression_block_count_upper_bits := byte_at raw 20 % 16
    compression_type := byte_at raw 20 / 16
    compression_block_count_lower_bits := byte_at raw 21
    sparse_range_count := byte_at raw 22
    reserved := byte_at raw 23
    timestamp_us := read_le64 raw 24 }

/-- The C++ `FSEQv2_Header::FSEQv2_Header(std::span<const std::byte> raw)`. -/
def FSEQv2_Header.ofSpan (raw : List Byte) : Except Error FSEQv2_Header :=
  if raw.length ≠ HEADER_SIZE then .error .BadSize
  else
    let h := FSEQv2_Header.memcpy raw
    if h.identifier ≠ PSEQ then .error .BadMagic
    else if h.version_major ≠ 2 then .error .UnsupportedVersion
    else if h.flags ≠ 0 then .error .UnsupportedFlags
    else if h.compression_type ≠ 0 then .error .UnsupportedCompression
    else if h.compression_block_count_lower_bits ≠ 0 ∨ h.compression_block_count_upper_bits ≠ 0
      then .error .UnsupportedCompression
    else if h.sparse_range_count ≠ 0 then .error .UnsupportedSparseRanges
    else .ok h

/-- The object representation of the header (`reinterpret_cast<const std::byte*>(&header)`). -/
def FSEQv2_Header.bytes (h : FSEQv2_Header) : List Byte :=
  h.identifier ++ le16_bytes h.ch_data_offset ++ [to_byte h.version_minor, to_byte h.version_major]
    ++ le16_bytes h.var_data_offset ++ le32_bytes h.channel_count ++ le32_bytes h.frame_count
    ++ [to_byte h.step_time, to_byte h.flags,
        to_byte (h.compression_block_count_upper_bits % 16 + 16 * (h.compression_type % 16)),
        to_byte h.compression_block_count_lower_bits, to_byte h.sparse_range_count,
        to_byte h.reserved]
    ++ le64_bytes h.timestamp_us

/-! ## FSEQv2 -/

/-- The C++ `class FSEQv2`: the data members. -/
structure FSEQv2 where
  /-- The C++ `uint8_t version_minor_{}` -/
  version_minor_ : Nat
  /-- The C++ `uint32_t num_channels_{}` -/
  num_channels_ : Nat
  /-- The C++ `uint32_t num_frames_{}` -/
  num_frames_ : Nat
  /-- The C++ `std::chrono::milliseconds step_time_` (the signed 64-bit count) -/
  step_time_ : Int
  /-- The C++ `time_point created_` (signed 64-bit count of microseconds since the epoch) -/
  created_ : Int
  /-- The C++ `std::map<std::string, std::string> variables_` -/
  variables_ : VarMap
  /-- The C++ `std::vector<std::byte> frame_data_` -/
  frame_data_ : List Byte
  deriving DecidableEq, Repr

/-- The C++ `FSEQv2::FSEQv2(uint32_t num_channels, std::chrono::milliseconds step_time)`.  The default
member initialiser of `created_` reads the system clock; its value is the parameter `now`. -/
def FSEQv2.create (num_channels : Nat) (step_time : Int) (now : Int) : Except Error FSEQv2 :=
  if step_time > 255 then .error .StepTimeTooLong
  else .ok { version_minor_ := 0, num_channels_ := num_channels, num_frames_ := 0,
             step_time_ := step_time, created_ := now, variables_ := [], frame_data_ := [] }

/-- The `for` loop of `serialize`: append the serialisation of every variable, in map order. -/
def serialize_variables : VarMap → List Byte → Except Error (List Byte)
  | [], block => .ok block
  | (code, data) :: rest, block =>
    match serialize_fseq_variable code data with
    | .error e => .error e
    | .ok bytes => serialize_variables rest (block ++ bytes)

/-- The `while` loop of `serialize`: push zero bytes until the size is a multiple of 4
(`fuel` bounds the number of iterations; 3 always suffice). -/
def pad_block : Nat → List Byte → List Byte
  | 0, block => block
  | fuel + 1, block => if block.length % 4 ≠ 0 then pad_block fuel (block ++ [0]) else block

/-- The C++ `FSEQv2::serialize() const`. -/
def FSEQv2.serialize (d : FSEQv2) : Except Error (List Byte) :=
  match serialize_variables d.variables_ [] with
  | .error e => .error e
  | .ok block =>
    let variable_data_block := pad_block 3 block
    if variable_data_block.length + HEADER_SIZE > 65535 then .error .DocumentTooLarge
    else
      let header : FSEQv2_Header :=
        { FSEQv2_Header.default with
          version_minor := d.version_minor_
          var_data_offset := HEADER_SIZE
          ch_data_offset := (HEADER_SIZE + variable_data_block.length) % 2 ^ 16
          channel_count := d.num_channels_
          frame_count := d.num_frames_
          step_time := to_size_t d.step_time_ % 2 ^ 8
          timestamp_us := to_size_t d.created_ }
      .ok (header.bytes ++ variable_data_block ++ d.frame_data_)

/-- The C++ `FSEQv2::add_variable(code, value)`. -/
def FSEQv2.add_variable (d : FSEQv2) (code value : List Byte) : Except Error FSEQv2 :=
  if code.length ≠ CODE_LENGTH then .error .InvalidCodeLength
  else .ok { d with variables_ := map_assign d.variables_ code value }

/-- The C++ `FSEQv2::add_frame(frame_data)`. -/
def FSEQv2.add_frame (d : FSEQv2) (frame_data : List Byte) : Except Error FSEQv2 :=
  if frame_data.length ≠ d.num_channels_ then .error .ChannelCountMismatch
  else .ok { d with num_frames_ := (d.num_frames_ + 1) % 2 ^ 32
                    frame_data_ := d.frame_data_ ++ frame_data }

/-- The `while (!variable_data.empty())` loop of `parse_from_`.  Every iteration that continues
consumes at least 4 bytes, so `fuel = variable_data.length` is never exhausted. -/
def parse_variables : Nat → VarMap → List Byte → Except Error VarMap
  | 0, vars, variable_data =>
    if variable_data.isEmpty then .ok vars else .error .OutOfFuel
  | fuel + 1, vars, variable_data =>
    if variable_data.isEmpty then .ok vars
    else
      match parse_fseq_variable variable_data with
      | .error e => .error e
      | .ok var =>
        if var.size = 0 then .ok vars
        else
          match span_subspan variable_data var.size dynamic_extent with
          | .error e => .error e
          | .ok rest => parse_variables fuel (map_assign vars var.code var.data) rest

/-- The C++ `FSEQv2::parse_from_(contents)`, run by the constructor `FSEQv2(std::span<const std::byte>)`
on a default-initialised object. -/
def FSEQv2.parse_from_ (contents : List Byte) : Except Error FSEQv2 :=
  match span_first contents HEADER_SIZE with
  | .error e => .error e
  | .ok raw =>
    match FSEQv2_Header.ofSpan raw with
    | .error e => .error e
    | .ok header =>
      let version_minor := header.version_minor
      let num_channels := header.channel_count
      let num_frames := header.frame_count
      let step_time : Int := header.step_time
      let created : Int := to_int64 header.timestamp_us
      -- `auto variable_data_length = header.ch_data_offset - header.var_data_offset;` is an `int`
      let variable_data_length : Int := (header.ch_data_offset : Int) - header.var_data_offset
      match span_subspan contents header.var_data_offset (to_size_t variable_data_length) with
      | .error e => .error e
      | .ok variable_data =>
        match parse_variables variable_data.length [] variable_data with
        | .error e => .error e
        | .ok vars =>
          match span_subspan contents header.ch_data_offset dynamic_extent with
          | .error e => .error e
          | .ok frame_data =>
            if frame_data.length ≠ (num_channels * num_frames) % 2 ^ 32 then
              .error .FrameDataSizeMismatch
            else
              .ok { version_minor_ := version_minor, num_channels_ := num_channels,
                    num_frames_ := num_frames, step_time_ := step_time, created_ := created,
                    variables_ := vars, frame_data_ := frame_data }

/-! ## FSEQv2::Frame -/

/-- The C++ `class FSEQv2::Frame`: the index `idx_`; the back pointer `seq_` is the document passed to
each operation. -/
structure Frame where
  /-- The C++ `std::size_t idx_` -/
  idx_ : Nat
  deriving DecidableEq, Repr

/-- The C++ `FSEQv2::frame(idx)`. -/
def FSEQv2.frame (d : FSEQv2) (idx : Nat) : Option Frame :=
  if idx ≥ d.num_frames_ then none else some { idx_ := idx }

/-- The C++ `FSEQv2::Frame::offset()`: `step_time_ * idx_`, computed by `std::chrono` in the common type
of `int64_t` and `std::size_t` (unsigned 64 bit) and converted back to milliseconds. -/
def Frame.offset (d : FSEQv2) (f : Frame) : Int :=
  to_int64 ((to_size_t d.step_time_ * f.idx_) % 2 ^ 64)

/-- The C++ `FSEQv2::Frame::channel_data(ch_idx)`: `frame_data_.at((idx_ * num_channels_) + ch_idx)`. -/
def Frame.channel_data (d : FSEQv2) (f : Frame) (ch_idx : Nat) : Except Error Byte :=
  let frame_data_offset := ((f.idx_ * d.num_channels_) % 2 ^ 64 + ch_idx) % 2 ^ 64
  match d.frame_data_.get? frame_data_offset with
  | some b => .ok b
  | none => .error .OutOfRange

/-- The C++ `FSEQv2::Frame::next()`: `seq_->frame(idx_ + 1)`. -/
def Frame.next (d : FSEQv2) (f : Frame) : Option Frame :=
  d.frame ((f.idx_ + 1) % 2 ^ 64)

/-- The C++ `FSEQv2::total_duration()`: `step_time_ * num_frames_`, a signed 64-bit product (exact
whenever it is representable; signed overflow is undefined). -/
def FSEQv2.total_duration (d : FSEQv2) : Int := d.step_time_ * d.num_frames_

/-! ## FSEQv2::Frame::dump -/

/-- The text `std::format("{:2x}", v)` produces for an 8-bit value: lower-case hexadecimal,
right-aligned in a field of width 2 that is filled with spaces. -/
def format_2x (v : Nat) : List Char :=
  let digits := Nat.toDigits 16 v
  List.replicate (2 - digits.length) ' ' ++ digits

/-- The text `std::format("{:>9}", offset)` produces for a duration in milliseconds: the decimal
count followed by `ms`, right-aligned in a field of width 9 that is filled with spaces. -/
def format_offset (offset : Int) : List Char :=
  let count := if offset < 0 then '-' :: Nat.toDigits 10 offset.natAbs
    else Nat.toDigits 10 offset.toNat
  let text := count ++ ['m', 's']
  List.replicate (9 - text.length) ' ' ++ text

/-- The `for` loop of `FSEQv2::Frame::dump`, started at channel `ch` with `fuel` channels left
(`fuel = num_channels_ - ch`); it returns `ch_data` and `truncated`.  The view `previous` is
given with the document it points into. -/
def dump_loop (d : FSEQv2) (f : Frame) (n_chans : Nat) (previous : Option (FSEQv2 × Frame)) :
    Nat → Nat → List Char → Except Error (List Char × Bool)
  | 0, _, ch_data => .ok (ch_data, false)
  | fuel + 1, ch, ch_data =>
    if n_chans ≠ 0 ∧ ch ≥ n_chans then .ok (ch_data, true)
    else
      match Frame.channel_data d f ch with
      | .error e => .error e
      | .ok value =>
        match previous with
        | none =>
          dump_loop d f n_chans previous fuel (ch + 1) (ch_data ++ ' ' :: format_2x value.val)
        | some (pd, p) =>
          match Frame.channel_data pd p ch with
          | .error e => .error e
          | .ok old =>
            if value = old then
              dump_loop d f n_chans previous fuel (ch + 1) (ch_data ++ [' ', ' ', ' '])
            else
              dump_loop d f n_chans previous fuel (ch + 1)
                (ch_data ++ ' ' :: format_2x value.val)

/-- The C++ `FSEQv2::Frame::dump(n_chans, previous)`; the empty list is the empty string. -/
def Frame.dump (d : FSEQv2) (f : Frame) (n_chans : Nat) (previous : Option (FSEQv2 × Frame)) :
    Except Error (List Char) :=
  match dump_loop d f n_chans previous d.num_channels_ 0 [] with
  | .error e => .error e
  | .ok (ch_data, truncated) =>
    if ch_data.all (fun c => c == ' ') then .ok []
    else
      .ok (format_offset (Frame.offset d f) ++ [' ', '['] ++ ch_data
        ++ (if truncated then [' ', '.', '.', '.'] else []) ++ [']', '\n'])

/-! ## The test document of `src/test/fseq_v2.cpp` -/

/-- The C++ `var_mf`: size 20, code `mf`, data `deadbeefcafe.wav`. -/
def var_mf : List Byte :=
  [20, 0, 109, 102, 100, 101, 97, 100, 98, 101, 101, 102, 99, 97, 102, 101, 46, 119, 97, 118]

/-- The C++ `var_sp`: size 22, code `sp`, data `VLT creator v0.0.7`. -/
def var_sp : List Byte :=
  [22, 0, 115, 112, 86, 76, 84, 32, 99, 114, 101, 97, 116, 111, 114, 32, 118, 48, 46, 48, 46, 55]

/-- The C++ `frames`: four frames of four channels. -/
def test_frames : List Byte := [0, 1, 2, 3, 4, 5, 6, 7, 8, 9, 10, 11, 12, 13, 14, 15]

/-- The C++ `dummy_show`: header (data offset 76, variable offset 32, 4 channels, 4 frames, 20 ms,
timestamp 1742822121000000 us), the two variables, two bytes of padding and the frames. -/
def dummy_show : List Byte :=
  [80, 83, 69, 81, 76, 0, 0, 2, 32, 0, 4, 0, 0, 0, 4, 0, 0, 0, 20, 0, 0, 0, 0, 0]
    ++ le64_bytes 1742822121000000 ++ var_mf ++ var_sp ++ [0, 0] ++ test_frames

/-- The document the test expects `dummy_show` to parse to. -/
def dummy : FSEQv2 :=
  { version_minor_ := 0, num_channels_ := 4, num_frames_ := 4, step_time_ := 20,
    created_ := 1742822121000000,
    variables_ := [([109, 102], var_mf.drop 4), ([115, 112], var_sp.drop 4)],
    frame_data_ := test_frames }

/-- A header-only buffer (32 bytes, both offsets 32) announcing 65536 channels and 65536 frames,
followed by no frame data at all. -/
def overflow_show : List Byte :=
  [80, 83, 69, 81, 32, 0, 0, 2, 32, 0, 0, 0, 1, 0, 0, 0, 1, 0, 20, 0, 0, 0, 0, 0,
   0, 0, 0, 0, 0, 0, 0, 0]

/-- A 37-byte buffer whose header has `ch_data_offset = 32` and `var_data_offset = 33`
(1 frame of 5 channels); bytes 33..36 are a well-formed record `size = 4, code = "ab"`. -/
def crossed_offsets_show : List Byte :=
  [80, 83, 69, 81, 32, 0, 0, 2, 33, 0, 5, 0, 0, 0, 1, 0, 0, 0, 20, 0, 0, 0, 0, 0,
   0, 0, 0, 0, 0, 0, 0, 0, 7, 4, 0, 97, 98]

/-- The document `overflow_show` parses to: 65536 channels, 65536 frames, an empty store. -/
def overflow_doc : FSEQv2 :=
  { version_minor_ := 0, num_channels_ := 65536, num_frames_ := 65536, step_time_ := 20,
    created_ := 0, variables_ := [], frame_data_ := [] }

/-- The document `crossed_offsets_show` parses to. -/
def crossed_offsets_doc : FSEQv2 :=
  { version_minor_ := 0, num_channels_ := 5, num_frames_ := 1, step_time_ := 20,
    created_ := 0, variables_ := [([97, 98], [])], frame_data_ := [7, 4, 0, 97, 98] }

/-- The document built by `FSEQv2(0, milliseconds{-(1LL << 62)})` and five calls of
`add_frame({})`. -/
def long_negative_step_doc : FSEQv2 :=
  { version_minor_ := 0, num_channels_ := 0, num_frames_ := 5, step_time_ := -(2 ^ 62),
    created_ := 0, variables_ := [], frame_data_ := [] }

/-- The document built by `FSEQv2(1, milliseconds{-1})`, `add_variable("mf", "a")` and
`add_frame({7})` (clock reading 1000). -/
def negative_step_doc : FSEQv2 :=
  { version_minor_ := 0, num_channels_ := 1, num_frames_ := 1, step_time_ := -1,
    created_ := 1000, variables_ := [([109, 102], [97])], frame_data_ := [7] }

/-- The serialisation of `negative_step_doc`: the step-time byte (offset 18) is 255. -/
def negative_step_show : List Byte :=
  [80, 83, 69, 81, 40, 0, 0, 2, 32, 0, 1, 0, 0, 0, 1, 0, 0, 0, 255, 0, 0, 0, 0, 0,
   232, 3, 0, 0, 0, 0, 0, 0, 5, 0, 109, 102, 97, 0, 0, 0, 7]

/-! ## Specification-side notions -/

/-- The bytes `b[variable_data_offset .. channel_data_offset)` of a buffer, the two offsets being
the little-endian `uint16_t` at bytes 8..9 and 4..5 (empty when the range is empty). -/
def variable_region (b : List Byte) : List Byte :=
  (b.drop (read_le16 b 8)).take (read_le16 b 4 - read_le16 b 8)

/-- The decoding of a variable region: the loop of `parse_from_` run on it from the empty map. -/
def decode_variables (region : List Byte) : Except Error VarMap :=
  parse_variables region.length [] region

/-- The total length of the serialised records of a mapping: `4 + len(data)` per entry. -/
def records_length : VarMap → Nat
  | [] => 0
  | (_, data) :: rest => (HEADER_LENGTH + data.length) + records_length rest

/-- The next multiple of 4 at or above `n`. -/
def padded_length (n : Nat) : Nat := n + (4 - n % 4) % 4

/-- The concatenation of the records `size (little-endian u16) ++ code ++ data` of a mapping, in
iteration order. -/
def encode_records : VarMap → List Byte
  | [] => []
  | (code, data) :: rest =>
    le16_bytes (HEADER_LENGTH + data.length) ++ code ++ data ++ encode_records rest

/-- The header `serialize` builds for a document whose padded variable block has `len` bytes. -/
def serialize_header (d : FSEQv2) (len : Nat) : FSEQv2_Header :=
  { FSEQv2_Header.default with
    version_minor := d.version_minor_
    var_data_offset := HEADER_SIZE
    ch_data_offset := (HEADER_SIZE + len) % 2 ^ 16
    channel_count := d.num_channels_
    frame_count := d.num_frames_
    step_time := to_size_t d.step_time_ % 2 ^ 8
    timestamp_us := to_size_t d.created_ }

/-- Ascending key order without duplicates, the representation invariant of the `std::map`. -/
def VarMap.Sorted (m : VarMap) : Prop := List.Pairwise (fun a b => string_lt a.1 b.1 = true) m

instance VarMap.instDecidableSorted (m : VarMap) : Decidable (VarMap.Sorted m) := by
  unfold VarMap.Sorted
  infer_instance

/-- The document that parsing reads back from the serialisation of `d`: the step time is
reduced to its low 8 bits and the timestamp passes through `uint64_t`. -/
def FSEQv2.reread (d : FSEQv2) : FSEQv2 :=
  { d with step_time_ := ((to_size_t d.step_time_ % 2 ^ 8 : Nat) : Int)
           created_ := to_int64 (to_size_t d.created_) }

/-- The document built by `FSEQv2(0, 20ms)` and `add_variable("ab", data)` with 65532 bytes of
data. -/
def oversized_variable_doc : FSEQv2 :=
  { version_minor_ := 0, num_channels_ := 0, num_frames_ := 0, step_time_ := 20,
    created_ := 0, variables_ := [([97, 98], List.replicate 65532 0)], frame_data_ := [] }

/-! ## Construction by mutation, iteration -/

/-- One mutating call on a document. -/
inductive Mutation
  /-- The call `add_variable(code, value)` -/
  | add_variable (code value : List Byte)
  /-- The call `add_frame(frame_data)` -/
  | add_frame (frame_data : List Byte)
  deriving DecidableEq, Repr

/-- Perform one mutating call. -/
def FSEQv2.mutate (d : FSEQv2) : Mutation → Except Error FSEQv2
  | .add_variable code value => d.add_variable code value
  | .add_frame frame_data => d.add_frame frame_data

/-- Perform a sequence of mutating calls, each of which has to succeed. -/
def FSEQv2.mutate_all (d : FSEQv2) : List Mutation → Except Error FSEQv2
  | [] => .ok d
  | m :: ms =>
    match d.mutate m with
    | .error e => .error e
    | .ok d1 => d1.mutate_all ms

/-- The empty constructor followed by a sequence of successful mutating calls. -/
def FSEQv2.build (num_channels : Nat) (step_time now : Int) (ms : List Mutation) :
    Except Error FSEQv2 :=
  match FSEQv2.create num_channels step_time now with
  | .error e => .error e
  | .ok d => d.mutate_all ms

/-- The result of `frame(0)` followed by `k` calls of `next()` (none once a call returned none). -/
def FSEQv2.nth_next (d : FSEQv2) : Nat → Option Frame
  | 0 => d.frame 0
  | k + 1 => (d.nth_next k).bind (Frame.next d)

/-- The invariant of documents built by the empty constructor and the mutators: minor version
0, 2-byte codes in ascending order, and a store of `n` frames of `num_channels_` bytes, where `n`
is the number of frames added and `num_frames_` is that number reduced to 32 bits. -/
def FSEQv2.Built (d : FSEQv2) : Prop :=
  d.version_minor_ = 0 ∧ (∀ e ∈ d.variables_, e.1.length = 2) ∧ VarMap.Sorted d.variables_ ∧
  ∃ n, d.frame_data_.length = d.num_channels_ * n ∧ d.num_frames_ = n % 2 ^ 32

/-- The calls that add 65536 frames of 65536 zero bytes each (4 GiB of frame data). -/
def four_gib_mutations : List Mutation :=
  List.replicate 65536 (.add_frame (List.replicate 65536 0))

/-- The document built by `FSEQv2(65536, 20ms)` and the calls `four_gib_mutations`. -/
def four_gib_doc : FSEQv2 :=
  { version_minor_ := 0, num_channels_ := 65536, num_frames_ := 65536, step_time_ := 20,
    created_ := 0, variables_ := [],
    frame_data_ := (List.replicate 65536 (List.replicate 65536 0)).flatten }

/-- A header-only buffer (both offsets 32) announcing 0 channels and 4294967295 frames. -/
def max_frames_show : List Byte :=
  [80, 83, 69, 81, 32, 0, 0, 2, 32, 0, 0, 0, 0, 0, 255, 255, 255, 255, 20, 0, 0, 0, 0, 0,
   0, 0, 0, 0, 0, 0, 0, 0]

/-- The document `max_frames_show` parses to. -/
def max_frames_doc : FSEQv2 :=
  { version_minor_ := 0, num_channels_ := 0, num_frames_ := 4294967295, step_time_ := 20,
    created_ := 0, variables_ := [], frame_data_ := [] }

/-- A header-only buffer (both offsets 32) announcing 2 channels and 2147483648 frames, followed
by no frame data. -/
def wrapped_pair_show : List Byte :=
  [80, 83, 69, 81, 32, 0, 0, 2, 32, 0, 2, 0, 0, 0, 0, 0, 0, 128, 20, 0, 0, 0, 0, 0,
   0, 0, 0, 0, 0, 0, 0, 0]

/-- The document `wrapped_pair_show` parses to. -/
def wrapped_pair_doc : FSEQv2 :=
  { version_minor_ := 0, num_channels_ := 2, num_frames_ := 2147483648, step_time_ := 20,
    created_ := 0, variables_ := [], frame_data_ := [] }

/-- The number of channels `dump` renders: all of them when `n_chans` is 0, else at most
`n_chans`. -/
def rendered_channels (n_chans num_channels : Nat) : Nat :=
  if n_chans = 0 then num_channels else min n_chans num_channels

/-- The store byte at the position `channel_data(ch)` reads, the 64-bit value of
`idx_ * num_channels_ + ch` (0 past the end, where `channel_data` throws). -/
def channel_value (d : FSEQv2) (f : Frame) (ch : Nat) : Byte :=
  d.frame_data_.getD (((f.idx_ * d.num_channels_) % 2 ^ 64 + ch) % 2 ^ 64) 0

/-- The three characters `dump` writes for channel `ch`: three spaces when `previous` is given
and holds the same value, else a space and the value formatted by `{:2x}`. -/
def dump_slot (d : FSEQv2) (f : Frame) (previous : Option (FSEQv2 × Frame)) (ch : Nat) :
    List Char :=
  match previous with
  | none => ' ' :: format_2x (channel_value d f ch).val
  | some (pd, p) =>
    if channel_value d f ch = channel_value pd p ch then [' ', ' ', ' ']
    else ' ' :: format_2x (channel_value d f ch).val

/-- The slots of the rendered channels, one after the other. -/
def dump_slots (d : FSEQv2) (f : Frame) (n_chans : Nat) (previous : Option (FSEQv2 × Frame)) :
    List Char :=
  ((List.range (rendered_channels n_chans d.num_channels_)).map (dump_slot d f previous)).flatten

/-- The data of the last record of a sequence of records that carries `code`, if any. -/
def last_record_data : VarMap → List Byte → Option (List Byte)
  | [], _ => none
  | (k, v) :: rest, code =>
    match last_record_data rest code with
    | some data => some data
    | none => if k = code then some v else none

/-- The documents the interface can produce: the empty constructor (channel count a `uint32_t`,
step time and clock reading signed 64-bit counts), a successful parse, and any successful
mutating call on such a document. -/
inductive FSEQv2.Reachable : FSEQv2 → Prop
  /-- The constructor `FSEQv2(num_channels, step_time)` -/
  | create (num_channels : Nat) (step_time now : Int) (d : FSEQv2)
      (hnc : num_channels < 2 ^ 32) (hstep : -(2 ^ 63) ≤ step_time)
      (hnow1 : -(2 ^ 63) ≤ now) (hnow2 : now < 2 ^ 63)
      (h : FSEQv2.create num_channels step_time now = .ok d) : FSEQv2.Reachable d
  /-- The constructor `FSEQv2(std::span<const std::byte>)` -/
  | parse (contents : List Byte) (d : FSEQv2)
      (h : FSEQv2.parse_from_ contents = .ok d) : FSEQv2.Reachable d
  /-- A successful call of `add_variable` or `add_frame` -/
  | mutate (d d1 : FSEQv2) (m : Mutation) (hd : FSEQv2.Reachable d)
      (h : d.mutate m = .ok d1) : FSEQv2.Reachable d1

/-! ### Counting the iterations of the variable loop -/

/-- The number of times the body of the `while` loop of `parse_from_` is entered on a region:
the loop of `parse_variables` with the map left out, counting 1 for every pass that finds the
region non-empty (also the pass that stops at the sentinel or throws). -/
def loop_iterations : Nat → List Byte → Nat
  | 0, _ => 0
  | fuel + 1, variable_data =>
    if variable_data.isEmpty then 0
    else
      match parse_fseq_variable variable_data with
      | .error _ => 1
      | .ok var =>
        if var.size = 0 then 1
        else
          match span_subspan variable_data var.size dynamic_extent with
          | .error _ => 1
          | .ok rest => 1 + loop_iterations fuel rest

/-- The number of passes of the same loop that consume a record, that is, that reach the
assignment `variable_data = variable_data.subspan(var.size)`. -/
def records_consumed : Nat → List Byte → Nat
  | 0, _ => 0
  | fuel + 1, variable_data =>
    if variable_data.isEmpty then 0
    else
      match parse_fseq_variable variable_data with
      | .error _ => 0
      | .ok var =>
        if var.size = 0 then 0
        else
          match span_subspan variable_data var.size dynamic_extent with
          | .error _ => 0
          | .ok rest => 1 + records_consumed fuel rest

/-- A header-only document (variable offset 32, no channels, no frames, 20 ms) whose data
offset is 35, so that its variable region is the three zero bytes after the header. -/
def short_region_show : List Byte :=
  [80, 83, 69, 81, 35, 0, 0, 2, 32, 0, 0, 0, 0, 0, 0, 0, 0, 0, 20, 0, 0, 0, 0, 0,
   0, 0, 0, 0, 0, 0, 0, 0, 0, 0, 0]

/-! ## Theorems -/

/-! ### The test scenario of `src/test/fseq_v2.cpp` -/

example : FSEQv2.parse_from_ dummy_show = .ok dummy := by decide
example : dummy.serialize = .ok dummy_show := by decide
example : (dummy.frame 0).map (Frame.offset dummy) = some 0 := by decide
example : ((dummy.frame 0).bind (Frame.next dummy)).map (Frame.offset dummy) = some 20 := by decide
example : (dummy.frame 0).map (fun f => Frame.channel_data dummy f 2) = some (.ok 2) := by decide
example : dummy.total_duration = 80 := by decide
example : VarMap.Sorted dummy.variables_ := by decide

/-! ### Spans and the header -/

theorem byte_at_take (b : List Byte) (n i : Nat) (h : i < n) :
    byte_at (b.take n) i = byte_at b i := by
  simp [byte_at, List.getD_eq_getElem?_getD, List.getElem?_take, h]

theorem span_first_error (s : List Byte) (n : Nat) (e : Error) (h : span_first s n = .error e) :
    e = .UndefinedBehaviour := by
  unfold span_first at h
  split at h
  · cases h
  · cases h; rfl

theorem span_first_ok (s : List Byte) (n : Nat) (r : List Byte) (h : span_first s n = .ok r) :
    n ≤ s.length ∧ r = s.take n := by
  unfold span_first at h
  split at h
  · cases h; exact ⟨by assumption, rfl⟩
  · cases h

theorem span_subspan_error (s : List Byte) (o c : Nat) (e : Error)
    (h : span_subspan s o c = .error e) : e = .UndefinedBehaviour := by
  unfold span_subspan at h
  split at h
  · split at h
    · cases h
    · split at h
      · cases h
      · cases h; rfl
  · cases h; rfl

theorem span_first_header (b : List Byte) (hlen : 32 ≤ b.length) :
    span_first b HEADER_SIZE = .ok (b.take 32) := by
  simp [span_first, HEADER_SIZE, hlen]

theorem parse_from__header_error (b raw : List Byte) (e : Error)
    (h1 : span_first b HEADER_SIZE = .ok raw) (h2 : FSEQv2_Header.ofSpan raw = .error e) :
    FSEQv2.parse_from_ b = .error e := by
  unfold FSEQv2.parse_from_
  rw [h1]
  simp only
  rw [h2]

theorem FSEQv2_Header.ofSpan_length (raw : List Byte) (hd : FSEQv2_Header)
    (h : FSEQv2_Header.ofSpan raw = .ok hd) : raw.length = 32 := by
  unfold FSEQv2_Header.ofSpan at h
  split at h
  · cases h
  · rename_i hl
    simpa [HEADER_SIZE] using hl

theorem FSEQv2_Header.ofSpan_not_BadSize (raw : List Byte) (hl : raw.length = 32) :
    FSEQv2_Header.ofSpan raw ≠ .error .BadSize := by
  unfold FSEQv2_Header.ofSpan
  simp only [hl, HEADER_SIZE, ne_eq, not_true_eq_false, if_false]
  repeat' split
  all_goals simp

/-! ### Which errors the variable decoder can raise -/

theorem parse_fseq_variable_error (raw : List Byte) (e : Error)
    (h : parse_fseq_variable raw = .error e) :
    e = .TruncatedRecord ∨ e = .UndefinedBehaviour := by
  unfold parse_fseq_variable at h
  split at h
  · cases h
  · simp only at h
    split at h
    · rename_i e1 h1
      cases h
      exact Or.inr (span_subspan_error _ _ _ _ h1)
    · split at h
      · cases h
      · split at h
        · rename_i e1 h1
          cases h
          exact Or.inr (span_subspan_error _ _ _ _ h1)
        · split at h
          · cases h; exact Or.inl rfl
          · cases h

theorem parse_variables_error (fuel : Nat) (vars : VarMap) (data : List Byte) (e : Error)
    (h : parse_variables fuel vars data = .error e) :
    e = .TruncatedRecord ∨ e = .UndefinedBehaviour ∨ e = .OutOfFuel := by
  induction fuel generalizing vars data with
  | zero =>
    unfold parse_variables at h
    split at h
    · cases h
    · cases h; exact Or.inr (Or.inr rfl)
  | succ n ih =>
    unfold parse_variables at h
    split at h
    · cases h
    · split at h
      · rename_i e1 h1
        cases h
        rcases parse_fseq_variable_error _ _ h1 with h2 | h2
        · exact Or.inl h2
        · exact Or.inr (Or.inl h2)
      · split at h
        · cases h
        · split at h
          · rename_i e1 h1
            cases h
            exact Or.inr (Or.inl (span_subspan_error _ _ _ _ h1))
          · exact ih _ _ h

/-- On a buffer shorter than the header, `contents.first(32)` violates the precondition of
`std::span::first` before the header constructor (and its size check) runs. -/
theorem parse_from__short (b : List Byte) (h : b.length < 32) :
    FSEQv2.parse_from_ b = .error .UndefinedBehaviour := by
  unfold FSEQv2.parse_from_
  have : span_first b HEADER_SIZE = .error .UndefinedBehaviour := by
    simp [span_first, HEADER_SIZE]; omega
  rw [this]

/-- The size check of the header constructor is dead code in `parse_from_`: the span it receives
always has exactly 32 bytes. -/
theorem parse_from__never_BadSize (b : List Byte) : FSEQv2.parse_from_ b ≠ .error .BadSize := by
  intro h
  unfold FSEQv2.parse_from_ at h
  split at h
  · rename_i e1 h1
    have := span_first_error _ _ _ h1
    cases h; cases this
  · rename_i raw h1
    have hraw := span_first_ok _ _ _ h1
    split at h
    · rename_i e2 h2
      cases h
      have hl : raw.length = 32 := by
        rw [hraw.2]; simp [HEADER_SIZE] at hraw ⊢; exact hraw.1
      exact FSEQv2_Header.ofSpan_not_BadSize raw hl h2
    · simp only at h
      split at h
      · rename_i e3 h3
        have := span_subspan_error _ _ _ _ h3
        cases h; cases this
      · split at h
        · rename_i e4 h4
          have := parse_variables_error _ _ _ _ h4
          cases h
          rcases this with h5 | h5 | h5 <;> cases h5
        · split at h
          · rename_i e5 h5
            have := span_subspan_error _ _ _ _ h5
            cases h; cases this
          · split at h <;> cases h

/-! ### C6: header rejection -/

/-- C6. For every buffer of at least 32 bytes, parse fails with `BadMagic` if bytes 0..3 are not
`PSEQ`; otherwise with `UnsupportedVersion` if byte 7 is not 2; otherwise with `UnsupportedFlags`
if byte 19 is not 0; otherwise with `UnsupportedCompression` if byte 20 or byte 21 is not 0;
otherwise with `UnsupportedSparseRanges` if byte 22 is not 0.  If none of these holds, the header
constructor succeeds on the first 32 bytes, whatever the reserved byte, the offsets, the counts
and the timestamp are. -/
theorem header_rejection (b : List Byte) (hlen : 32 ≤ b.length) :
    (b.take 4 ≠ PSEQ → FSEQv2.parse_from_ b = .error .BadMagic) ∧
    (b.take 4 = PSEQ → byte_at b 7 ≠ 2 → FSEQv2.parse_from_ b = .error .UnsupportedVersion) ∧
    (b.take 4 = PSEQ → byte_at b 7 = 2 → byte_at b 19 ≠ 0 →
      FSEQv2.parse_from_ b = .error .UnsupportedFlags) ∧
    (b.take 4 = PSEQ → byte_at b 7 = 2 → byte_at b 19 = 0 →
      (byte_at b 20 ≠ 0 ∨ byte_at b 21 ≠ 0) →
      FSEQv2.parse_from_ b = .error .UnsupportedCompression) ∧
    (b.take 4 = PSEQ → byte_at b 7 = 2 → byte_at b 19 = 0 → byte_at b 20 = 0 →
      byte_at b 21 = 0 → byte_at b 22 ≠ 0 →
      FSEQv2.parse_from_ b = .error .UnsupportedSparseRanges) ∧
    (b.take 4 = PSEQ → byte_at b 7 = 2 → byte_at b 19 = 0 → byte_at b 20 = 0 →
      byte_at b 21 = 0 → byte_at b 22 = 0 →
      span_first b HEADER_SIZE = .ok (b.take 32) ∧
      FSEQv2_Header.ofSpan (b.take 32) = .ok (FSEQv2_Header.memcpy (b.take 32))) := by
  have hfirst := span_first_header b hlen
  have hl : (b.take 32).length = 32 := by simp [hlen]
  have ht : (b.take 32).take 4 = b.take 4 := by simp [List.take_take]
  have h7 := byte_at_take b 32 7 (by decide)
  have h19 := byte_at_take b 32 19 (by decide)
  have h20 := byte_at_take b 32 20 (by decide)
  have h21 := byte_at_take b 32 21 (by decide)
  have h22 := byte_at_take b 32 22 (by decide)
  refine ⟨?_, ?_, ?_, ?_, ?_, ?_⟩
  · intro hm
    apply parse_from__header_error b _ _ hfirst
    simp [FSEQv2_Header.ofSpan, hl, HEADER_SIZE, FSEQv2_Header.memcpy, ht, hm]
  · intro hm hv
    apply parse_from__header_error b _ _ hfirst
    simp [FSEQv2_Header.ofSpan, hl, HEADER_SIZE, FSEQv2_Header.memcpy, ht, hm, h7, hv]
  · intro hm hv hf
    apply parse_from__header_error b _ _ hfirst
    simp [FSEQv2_Header.ofSpan, hl, HEADER_SIZE, FSEQv2_Header.memcpy, ht, hm, h7, hv, h19, hf]
  · intro hm hv hf hc
    apply parse_from__header_error b _ _ hfirst
    simp only [FSEQv2_Header.ofSpan, hl, HEADER_SIZE,
      FSEQv2_Header.memcpy, ht, hm, h7, hv, h19, hf, h20, h21]
    simp only [ne_eq, not_true_eq_false, if_false]
    by_cases hty : byte_at b 20 / 16 = 0
    · have : byte_at b 21 ≠ 0 ∨ byte_at b 20 % 16 ≠ 0 := by omega
      simp [hty, this]
    · simp [hty]
  · intro hm hv hf h20z h21z hs
    apply parse_from__header_error b _ _ hfirst
    simp [FSEQv2_Header.ofSpan, hl, HEADER_SIZE, FSEQv2_Header.memcpy,
      ht, hm, h7, hv, h19, hf, h20, h21, h22, h20z, h21z, hs]
  · intro hm hv hf h20z h21z hs
    refine ⟨hfirst, ?_⟩
    simp [FSEQv2_Header.ofSpan, hl, HEADER_SIZE, FSEQv2_Header.memcpy,
      ht, hm, h7, hv, h19, hf, h20, h21, h22, h20z, h21z, hs]

/-- A buffer of 32 bytes with version_major 3 is rejected with `UnsupportedVersion`, and the
header of the test document passes validation. -/
theorem header_rejection_witness :
    32 ≤ (overflow_show.set 7 3).length ∧
    FSEQv2.parse_from_ (overflow_show.set 7 3) = .error .UnsupportedVersion :=
  ⟨by decide, (header_rejection (overflow_show.set 7 3) (by decide)).2.1 (by decide) (by decide)⟩

/-! ### C7: buffers shorter than the header -/

/-- C7 (evaluation of the code). On the empty buffer `parse_from_` does not fail with `BadSize`:
it runs into the violated precondition of `contents.first(32)`; and on no buffer at all does
`parse_from_` fail with `BadSize`. -/
theorem short_buffer_not_BadSize :
    FSEQv2.parse_from_ [] = .error .UndefinedBehaviour ∧
    ∀ b : List Byte, FSEQv2.parse_from_ b ≠ .error .BadSize :=
  ⟨by decide, parse_from__never_BadSize⟩

/-! ### Frames: acquisition, iteration, offsets -/

theorem to_int64_of_int (x : Int) (h1 : -(2 ^ 63) ≤ x) (h2 : x < 2 ^ 63) (k : Nat)
    (hk : (k : Int) = x % 2 ^ 64) : to_int64 k = x := by
  unfold to_int64
  have hk2 : k % 2 ^ 64 = k := by
    apply Nat.mod_eq_of_lt
    have : (k : Int) < 2 ^ 64 := by rw [hk]; exact Int.emod_lt_of_pos _ (by norm_num)
    exact_mod_cast this
  rw [hk2]
  split
  · rename_i h
    have : (k : Int) < 2 ^ 63 := by exact_mod_cast h
    omega
  · rename_i h
    have : ¬ (k : Int) < 2 ^ 63 := by intro h'; apply h; exact_mod_cast h'
    omega

theorem to_size_t_cast (x : Int) : ((to_size_t x : Nat) : Int) = x % 2 ^ 64 := by
  unfold to_size_t
  exact Int.toNat_of_nonneg (Int.emod_nonneg _ (by norm_num))

theorem int_emod_mul_emod (a b m : Int) : (a % m * b) % m = (a * b) % m := by
  rw [Int.mul_emod (a % m), Int.emod_emod, ← Int.mul_emod]

/-- The offset of a frame is the exact product `step_time_ * idx_` whenever that product is
representable as a signed 64-bit count. -/
theorem frame_offset_exact (d : FSEQv2) (f : Frame)
    (h1 : -(2 ^ 63) ≤ d.step_time_ * f.idx_) (h2 : d.step_time_ * f.idx_ < 2 ^ 63) :
    Frame.offset d f = d.step_time_ * f.idx_ := by
  unfold Frame.offset
  apply to_int64_of_int _ h1 h2
  push_cast
  rw [to_size_t_cast]
  have key := int_emod_mul_emod d.step_time_ f.idx_ (2 ^ 64)
  norm_num at key ⊢
  exact key

theorem frame_ok (d : FSEQv2) (i : Nat) (h : i < d.num_frames_) : d.frame i = some ⟨i⟩ := by
  simp [FSEQv2.frame, h]

theorem frame_none (d : FSEQv2) (i : Nat) (h : d.num_frames_ ≤ i) : d.frame i = none := by
  simp [FSEQv2.frame, h]

theorem frame_some_idx (d : FSEQv2) (i : Nat) (f : Frame) (h : d.frame i = some f) :
    f.idx_ = i ∧ f.idx_ < d.num_frames_ := by
  unfold FSEQv2.frame at h
  split at h
  · cases h
  · cases h
    rename_i hlt
    exact ⟨rfl, by show i < d.num_frames_; omega⟩

theorem nth_next_lt (d : FSEQv2) (hnf : d.num_frames_ < 2 ^ 32) (k : Nat)
    (h : k < d.num_frames_) : d.nth_next k = some ⟨k⟩ := by
  induction k with
  | zero => exact frame_ok d 0 h
  | succ n ih =>
    have hn := ih (by omega)
    simp only [FSEQv2.nth_next, hn, Option.some_bind, Frame.next]
    have : (n + 1) % 2 ^ 64 = n + 1 := Nat.mod_eq_of_lt (by omega)
    rw [this]
    exact frame_ok d _ h

theorem nth_next_ge (d : FSEQv2) (hnf : d.num_frames_ < 2 ^ 32) (k : Nat)
    (h : d.num_frames_ ≤ k) : d.nth_next k = none := by
  induction k with
  | zero => exact frame_none d 0 h
  | succ n ih =>
    simp only [FSEQv2.nth_next]
    by_cases hn : d.num_frames_ ≤ n
    · rw [ih hn]; rfl
    · rw [nth_next_lt d hnf n (by omega)]
      simp only [Option.some_bind, Frame.next]
      have : (n + 1) % 2 ^ 64 = n + 1 := Nat.mod_eq_of_lt (by omega)
      rw [this]
      exact frame_none d _ h

/-! ### Channel access -/

theorem channel_data_ok_iff (d : FSEQv2) (f : Frame) (ch : Nat) (b : Byte) :
    Frame.channel_data d f ch = .ok b ↔
      d.frame_data_.get? (((f.idx_ * d.num_channels_) % 2 ^ 64 + ch) % 2 ^ 64) = some b := by
  unfold Frame.channel_data
  simp only
  split
  · rename_i b' h; rw [h]; constructor
    · intro h2; cases h2; rfl
    · intro h2; cases h2; rfl
  · rename_i h; rw [h]; constructor
    · intro h2; cases h2
    · intro h2; cases h2

theorem channel_data_error_iff (d : FSEQv2) (f : Frame) (ch : Nat) :
    Frame.channel_data d f ch = .error .OutOfRange ↔
      d.frame_data_.length ≤ ((f.idx_ * d.num_channels_) % 2 ^ 64 + ch) % 2 ^ 64 := by
  unfold Frame.channel_data
  simp only
  split
  · rename_i b' h
    have := List.get?_eq_some.mp h
    obtain ⟨hlt, _⟩ := this
    constructor
    · intro h2; cases h2
    · intro h2; omega
  · rename_i h
    have := List.get?_eq_none.mp h
    constructor
    · intro _; exact this
    · intro _; rfl

theorem channel_data_error_kind (d : FSEQv2) (f : Frame) (ch : Nat) (e : Error)
    (h : Frame.channel_data d f ch = .error e) : e = .OutOfRange := by
  unfold Frame.channel_data at h
  simp only at h
  split at h
  · cases h
  · cases h; rfl

/-- In-range access succeeds on a document whose store holds `num_channels_ * num_frames_` bytes:
for `i < num_frames_` and `ch < num_channels_` the byte at `i * num_channels_ + ch` is returned. -/
theorem channel_data_in_range (d : FSEQv2) (i ch : Nat)
    (hinv : d.frame_data_.length = d.num_channels_ * d.num_frames_)
    (hnc : d.num_channels_ < 2 ^ 32) (hnf : d.num_frames_ < 2 ^ 32)
    (hi : i < d.num_frames_) (hch : ch < d.num_channels_) :
    ∃ b, d.frame_data_.get? (i * d.num_channels_ + ch) = some b ∧
      Frame.channel_data d ⟨i⟩ ch = .ok b := by
  have h1 : i * d.num_channels_ + ch < d.num_channels_ * d.num_frames_ := by
    have : (i + 1) * d.num_channels_ ≤ d.num_frames_ * d.num_channels_ :=
      Nat.mul_le_mul_right _ (by omega)
    rw [Nat.mul_comm d.num_channels_]
    rw [Nat.add_mul] at this
    omega
  have h2 : d.num_channels_ * d.num_frames_ < 2 ^ 64 := by
    have : d.num_channels_ * d.num_frames_ ≤ 4294967295 * 4294967295 :=
      Nat.mul_le_mul (by omega) (by omega)
    omega
  have h3 : ((i * d.num_channels_) % 2 ^ 64 + ch) % 2 ^ 64 = i * d.num_channels_ + ch := by
    rw [Nat.mod_eq_of_lt (by omega : i * d.num_channels_ < 2 ^ 64)]
    exact Nat.mod_eq_of_lt (by omega)
  have h4 : i * d.num_channels_ + ch < d.frame_data_.length := by omega
  refine ⟨d.frame_data_.get ⟨_, h4⟩, List.get?_eq_get h4, ?_⟩
  rw [channel_data_ok_iff, h3]
  exact List.get?_eq_get h4

/-! ### C3: channel indices at or beyond the channel count -/

/-- C3 (counterexample). In the test document, frame 0 and channel index 4 (= channel_count):
`channel_data(4)` does not fail, it returns byte 4 of the store, channel 0 of frame 1. -/
theorem channel_index_beyond_count_reads_next_frame :
    FSEQv2.parse_from_ dummy_show = .ok dummy ∧
    dummy.frame 0 = some ⟨0⟩ ∧
    dummy.num_channels_ ≤ 4 ∧
    Frame.channel_data dummy ⟨0⟩ 4 = .ok 4 ∧
    ¬ (∀ (d : FSEQv2) (i : Nat) (f : Frame) (ch : Nat), d.frame i = some f →
        d.num_channels_ ≤ ch → Frame.channel_data d f ch = .error .OutOfRange) := by
  refine ⟨by decide, by decide, by decide, by decide, ?_⟩
  intro h
  have := h dummy 0 ⟨0⟩ 4 (by decide) (by decide)
  revert this
  decide

/-- C3 (amended). For every document, frame view and channel index, `channel_data(ch)` fails
with `OutOfRange` exactly when the 64-bit offset `idx * channel_count + ch` is at or beyond the
length of the frame store, it raises no other error, and otherwise it returns the store byte at
that offset.  In a document whose store holds `channel_count * frame_count` bytes, it fails for
every `ch >= channel_count` on the last frame (as long as the offset does not wrap); on an
earlier frame `i`, every `ch` with `channel_count <= ch < (frame_count - i) * channel_count`
returns the byte of channel `ch mod channel_count` of the later frame `i + ch / channel_count`. -/
theorem channel_data_out_of_range (d : FSEQv2) (f : Frame) (ch : Nat) :
    (Frame.channel_data d f ch = .error .OutOfRange ↔
      d.frame_data_.length ≤ ((f.idx_ * d.num_channels_) % 2 ^ 64 + ch) % 2 ^ 64) ∧
    (∀ e, Frame.channel_data d f ch = .error e → e = .OutOfRange) ∧
    (∀ b, Frame.channel_data d f ch = .ok b ↔
      d.frame_data_.get? (((f.idx_ * d.num_channels_) % 2 ^ 64 + ch) % 2 ^ 64) = some b) ∧
    (((f.idx_ * d.num_channels_) % 2 ^ 64 + ch) % 2 ^ 64 < d.frame_data_.length →
      ∃ b, Frame.channel_data d f ch = .ok b ∧
        d.frame_data_.get? (((f.idx_ * d.num_channels_) % 2 ^ 64 + ch) % 2 ^ 64) = some b) ∧
    (∀ i, d.frame i = some f → i + 1 = d.num_frames_ →
      d.frame_data_.length = d.num_channels_ * d.num_frames_ →
      d.num_channels_ ≤ ch → i * d.num_channels_ + ch < 2 ^ 64 →
      Frame.channel_data d f ch = .error .OutOfRange) ∧
    (∀ i, d.frame i = some f → i + 1 < d.num_frames_ →
      d.frame_data_.length = d.num_channels_ * d.num_frames_ → d.frame_data_.length < 2 ^ 64 →
      d.num_channels_ ≤ ch → ch < (d.num_frames_ - i) * d.num_channels_ →
      i < i + ch / d.num_channels_ ∧ i + ch / d.num_channels_ < d.num_frames_ ∧
      ch % d.num_channels_ < d.num_channels_ ∧
      d.frame (i + ch / d.num_channels_) = some ⟨i + ch / d.num_channels_⟩ ∧
      ∃ b, Frame.channel_data d f ch = .ok b ∧
        d.frame_data_.get? (i * d.num_channels_ + ch) = some b ∧
        Frame.channel_data d ⟨i + ch / d.num_channels_⟩ (ch % d.num_channels_) = .ok b) := by
  refine ⟨channel_data_error_iff d f ch, channel_data_error_kind d f ch,
    channel_data_ok_iff d f ch, ?_, ?_, ?_⟩
  · intro hlt
    exact ⟨d.frame_data_.get ⟨_, hlt⟩, (channel_data_ok_iff d f ch _).mpr (List.get?_eq_get hlt),
      List.get?_eq_get hlt⟩
  · intro i hf hlast hinv hch hwrap
    have hidx : f.idx_ = i := (frame_some_idx d i f hf).1
    rw [channel_data_error_iff, hidx, hinv]
    rw [Nat.mod_eq_of_lt (by omega : i * d.num_channels_ < 2 ^ 64), Nat.mod_eq_of_lt hwrap]
    rw [← hlast, Nat.mul_comm, Nat.add_mul]
    omega
  · intro i hf hearly hinv hsize hch hlt
    have hidx : f.idx_ = i := (frame_some_idx d i f hf).1
    have hnc : 0 < d.num_channels_ := by
      rcases Nat.eq_zero_or_pos d.num_channels_ with h0 | h0
      · rw [h0] at hlt; simp at hlt
      · exact h0
    have hq : ch / d.num_channels_ < d.num_frames_ - i := (Nat.div_lt_iff_lt_mul hnc).mpr hlt
    have hq1 : 1 ≤ ch / d.num_channels_ := (Nat.one_le_div_iff hnc).mpr hch
    have hr : ch % d.num_channels_ < d.num_channels_ := Nat.mod_lt _ hnc
    have hsplit : (i + ch / d.num_channels_) * d.num_channels_ + ch % d.num_channels_ =
        i * d.num_channels_ + ch := by
      rw [Nat.add_mul, Nat.add_assoc, Nat.mul_comm (ch / d.num_channels_), Nat.div_add_mod]
    have hoff : i * d.num_channels_ + ch < d.frame_data_.length := by
      rw [hinv]
      have h1 : i * d.num_channels_ + (d.num_frames_ - i) * d.num_channels_ =
          d.num_channels_ * d.num_frames_ := by
        rw [← Nat.add_mul, Nat.mul_comm]
        congr 1
        omega
      omega
    have hmod : ((i * d.num_channels_) % 2 ^ 64 + ch) % 2 ^ 64 = i * d.num_channels_ + ch := by
      rw [Nat.mod_eq_of_lt (by omega : i * d.num_channels_ < 2 ^ 64)]
      exact Nat.mod_eq_of_lt (by omega)
    have hmod2 : (((i + ch / d.num_channels_) * d.num_channels_) % 2 ^ 64
        + ch % d.num_channels_) % 2 ^ 64 = i * d.num_channels_ + ch := by
      rw [Nat.mod_eq_of_lt (by omega : (i + ch / d.num_channels_) * d.num_channels_ < 2 ^ 64),
        hsplit]
      exact Nat.mod_eq_of_lt (by omega)
    refine ⟨by omega, by omega, hr, frame_ok d _ (by omega),
      d.frame_data_.get ⟨_, hoff⟩, ?_, List.get?_eq_get hoff, ?_⟩
    · rw [channel_data_ok_iff, hidx, hmod]
      exact List.get?_eq_get hoff
    · rw [channel_data_ok_iff]
      show d.frame_data_.get? ((((i + ch / d.num_channels_) * d.num_channels_) % 2 ^ 64
        + ch % d.num_channels_) % 2 ^ 64) = _
      rw [hmod2]
      exact List.get?_eq_get hoff

/-- The test document: on the last frame channel index 4 fails with `OutOfRange`; on frame 0 it
returns byte 4 of the store, which is channel 0 of frame 1. -/
theorem channel_data_out_of_range_witness :
    Frame.channel_data dummy ⟨3⟩ 4 = .error .OutOfRange ∧
    Frame.channel_data dummy ⟨0⟩ 4 = .ok 4 ∧
    (∃ b, Frame.channel_data dummy ⟨0⟩ 4 = .ok b ∧ Frame.channel_data dummy ⟨1⟩ 0 = .ok b) :=
  ⟨(channel_data_out_of_range dummy ⟨3⟩ 4).2.2.2.2.1 3 (by decide) (by decide) (by decide)
      (by decide) (by decide),
   ((channel_data_out_of_range dummy ⟨0⟩ 4).2.2.1 4).mpr (by decide),
   (((channel_data_out_of_range dummy ⟨0⟩ 4).2.2.2.2.2 0 (by decide) (by decide) (by decide)
      (by decide) (by decide) (by decide)).2.2.2.2).imp (fun _ h => ⟨h.1, h.2.2⟩)⟩

/-! ### C4: the size invariant -/

/-- C4 (evaluation of the code). A 32-byte buffer announcing 65536 channels and 65536 frames and
carrying no frame data parses successfully: the product in the size check is computed in 32
bits and wraps to 0.  The resulting document violates `len(store) = channel_count * frame_count`. -/
theorem parse_accepts_wrapped_frame_size :
    FSEQv2.parse_from_ overflow_show = .ok overflow_doc ∧
    overflow_doc.frame_data_.length = 0 ∧
    overflow_doc.num_channels_ * overflow_doc.num_frames_ = 4294967296 ∧
    (overflow_show.drop (read_le16 overflow_show 4)).length ≠
      read_le32 overflow_show 10 * read_le32 overflow_show 14 := by
  decide

/-! ### C5: in-range channel access -/

/-- C5 (evaluation of the code). In the document parsed from `overflow_show`, `frame(0)` is a
view and channel 0 is below the channel count, yet `channel_data(0)` fails with `OutOfRange`. -/
theorem in_range_channel_fails_after_wrapped_size :
    FSEQv2.parse_from_ overflow_show = .ok overflow_doc ∧
    overflow_doc.frame 0 = some ⟨0⟩ ∧
    0 < overflow_doc.num_channels_ ∧
    Frame.channel_data overflow_doc ⟨0⟩ 0 = .error .OutOfRange := by
  decide

/-! ### C8: what parse decodes -/

/-- C8 (evaluation of the code). With `var_data_offset = ch_data_offset + 1` the `int` length
`-1` passed to `subspan` is `std::dynamic_extent`: the variable region runs to the end of the
buffer.  The parse succeeds and the mapping holds `ab`, although the byte range
`b[variable_data_offset .. channel_data_offset)` is empty and decodes to the empty mapping. -/
theorem parse_with_crossed_offsets :
    FSEQv2.parse_from_ crossed_offsets_show = .ok crossed_offsets_doc ∧
    crossed_offsets_doc.variables_ = [([97, 98], [])] ∧
    variable_region crossed_offsets_show = [] ∧
    decode_variables (variable_region crossed_offsets_show) = .ok [] := by
  decide

/-! ### C9: frame acquisition and iteration -/

/-- C9 (evaluation of the code). The constructor accepts the step time `-(2 ^ 62)` ms (it only
rejects counts above 255).  On the document built with it and five (empty) frames, four calls of
`next()` from `frame(0)` give the view of frame 4, whose `offset()` is 0 and not
`step_time * 4`: the product is computed modulo `2 ^ 64`. -/
theorem offset_wraps_for_long_negative_step :
    FSEQv2.build 0 (-(2 ^ 62)) 0 (List.replicate 5 (.add_frame [])) =
      .ok long_negative_step_doc ∧
    4 < long_negative_step_doc.num_frames_ ∧
    long_negative_step_doc.nth_next 4 = some ⟨4⟩ ∧
    Frame.offset long_negative_step_doc ⟨4⟩ = 0 ∧
    Frame.offset long_negative_step_doc ⟨4⟩ ≠ long_negative_step_doc.step_time_ * 4 := by
  decide

/-- Frame acquisition and iteration on every document (frame count a `uint32_t`), for every
`k`: `k` calls of `next()` from `frame(0)` yield the view of frame index `k` when
`k < frame_count`, and its `offset()` is `step_time * k` whenever that product fits a signed
64-bit count, in particular whenever `-(2 ^ 31) <= step_time <= 255`; they yield none when
`k = frame_count` (and for every larger `k`); and `frame(index)` is none for every
`index >= frame_count`. -/
theorem frame_iteration (d : FSEQv2) (hnf : d.num_frames_ < 2 ^ 32) (k : Nat) :
    (k < d.num_frames_ →
      d.nth_next k = some ⟨k⟩ ∧
      (-(2 ^ 63) ≤ d.step_time_ * k → d.step_time_ * k < 2 ^ 63 →
        Frame.offset d ⟨k⟩ = d.step_time_ * k) ∧
      (-(2 ^ 31) ≤ d.step_time_ → d.step_time_ ≤ 255 →
        Frame.offset d ⟨k⟩ = d.step_time_ * k)) ∧
    (k = d.num_frames_ → d.nth_next k = none) ∧
    (d.num_frames_ ≤ k → d.nth_next k = none ∧ d.frame k = none) := by
  refine ⟨fun h => ⟨nth_next_lt d hnf k h, fun h1 h2 => frame_offset_exact d ⟨k⟩ h1 h2, ?_⟩,
    fun h => nth_next_ge d hnf k (by omega), fun h => ⟨nth_next_ge d hnf k h, frame_none d k h⟩⟩
  intro h0 h255
  have hk : (k : Int) < 2 ^ 32 := by exact_mod_cast (by omega : k < 2 ^ 32)
  have hk0 : (0 : Int) ≤ k := by positivity
  apply frame_offset_exact d ⟨k⟩
  · have : -(2 ^ 31) * 2 ^ 32 ≤ d.step_time_ * k := by nlinarith
    simp only; omega
  · have : d.step_time_ * k ≤ 255 * 2 ^ 32 := by nlinarith
    simp only; omega

/-- The test document: the third call of `next()` gives frame 3 at offset 60 ms, the fourth
gives none. -/
theorem frame_iteration_witness :
    dummy.num_frames_ < 2 ^ 32 ∧
    dummy.nth_next 3 = some ⟨3⟩ ∧ Frame.offset dummy ⟨3⟩ = 20 * 3 ∧ dummy.nth_next 4 = none :=
  ⟨by decide, ((frame_iteration dummy (by decide) 3).1 (by decide)).1,
    ((frame_iteration dummy (by decide) 3).1 (by decide)).2.2 (by decide) (by decide),
    (frame_iteration dummy (by decide) 4).2.1 (by decide)⟩

/-! ### Serialisation of the variable block -/

theorem pad_block_eq (b : List Byte) :
    pad_block 3 b = b ++ List.replicate ((4 - b.length % 4) % 4) 0 := by
  have h : b.length % 4 = 0 ∨ b.length % 4 = 1 ∨ b.length % 4 = 2 ∨ b.length % 4 = 3 := by omega
  rcases h with h | h | h | h
  · simp [pad_block, h]
  · have h1 : (b.length + 1) % 4 = 2 := by omega
    have h2 : (b.length + 1 + 1) % 4 = 3 := by omega
    have h3 : (b.length + 1 + 1 + 1) % 4 = 0 := by omega
    simp [pad_block, h, h1, h2, h3, List.replicate]
  · have h1 : (b.length + 1) % 4 = 3 := by omega
    have h2 : (b.length + 1 + 1) % 4 = 0 := by omega
    simp [pad_block, h, h1, h2, List.replicate]
  · have h1 : (b.length + 1) % 4 = 0 := by omega
    simp [pad_block, h, h1, List.replicate]

theorem pad_block_length (b : List Byte) : (pad_block 3 b).length = padded_length b.length := by
  rw [pad_block_eq]; simp [padded_length]

theorem padded_length_mod (n : Nat) : padded_length n % 4 = 0 := by
  unfold padded_length; omega

theorem encode_records_length (m : VarMap) (hk : ∀ e ∈ m, e.1.length = 2) :
    (encode_records m).length = records_length m := by
  induction m with
  | nil => rfl
  | cons e rest ih =>
    obtain ⟨code, data⟩ := e
    have hc : code.length = 2 := hk (code, data) (List.mem_cons_self _ _)
    have := ih (fun e he => hk e (List.mem_cons_of_mem _ he))
    simp [encode_records, records_length, le16_bytes, HEADER_LENGTH, CODE_LENGTH, this, hc]
    omega

theorem serialize_fseq_variable_ok (code data : List Byte) (hc : code.length = 2)
    (hd : data.length ≤ 65531) :
    serialize_fseq_variable code data = .ok (le16_bytes (HEADER_LENGTH + data.length) ++ code ++ data) := by
  unfold serialize_fseq_variable
  have h1 : ¬ data.length > MAX_DATA_LENGTH := by
    simp [MAX_DATA_LENGTH, HEADER_LENGTH, CODE_LENGTH]; omega
  have h2 : (HEADER_LENGTH + data.length) % 65536 = HEADER_LENGTH + data.length := by
    apply Nat.mod_eq_of_lt; simp [HEADER_LENGTH, CODE_LENGTH]; omega
  simp [hc, CODE_LENGTH, h1, h2]

theorem serialize_fseq_variable_too_large (code data : List Byte) (hc : code.length = 2)
    (hd : 65531 < data.length) :
    serialize_fseq_variable code data = .error .DataTooLarge := by
  unfold serialize_fseq_variable
  have h1 : data.length > MAX_DATA_LENGTH := by
    simp [MAX_DATA_LENGTH, HEADER_LENGTH, CODE_LENGTH]; omega
  simp [hc, CODE_LENGTH, h1]

theorem serialize_variables_ok (m : VarMap) (block : List Byte)
    (hk : ∀ e ∈ m, e.1.length = 2) (hd : ∀ e ∈ m, e.2.length ≤ 65531) :
    serialize_variables m block = .ok (block ++ encode_records m) := by
  induction m generalizing block with
  | nil => simp [serialize_variables, encode_records]
  | cons e rest ih =>
    obtain ⟨code, data⟩ := e
    have hc : code.length = 2 := hk (code, data) (List.mem_cons_self _ _)
    have hdl : data.length ≤ 65531 := hd (code, data) (List.mem_cons_self _ _)
    simp only [serialize_variables, serialize_fseq_variable_ok code data hc hdl]
    rw [ih _ (fun e he => hk e (List.mem_cons_of_mem _ he))
      (fun e he => hd e (List.mem_cons_of_mem _ he))]
    simp [encode_records]

theorem serialize_variables_too_large (m : VarMap) (block : List Byte)
    (hk : ∀ e ∈ m, e.1.length = 2) (hd : ∃ e ∈ m, 65531 < e.2.length) :
    serialize_variables m block = .error .DataTooLarge := by
  induction m generalizing block with
  | nil => obtain ⟨e, he, _⟩ := hd; cases he
  | cons e rest ih =>
    obtain ⟨code, data⟩ := e
    have hc : code.length = 2 := hk (code, data) (List.mem_cons_self _ _)
    by_cases hdl : data.length ≤ 65531
    · simp only [serialize_variables, serialize_fseq_variable_ok code data hc hdl]
      apply ih _ (fun e he => hk e (List.mem_cons_of_mem _ he))
      obtain ⟨e, he, hlen⟩ := hd
      rcases List.mem_cons.mp he with h | h
      · subst h; simp only at hlen; omega
      · exact ⟨e, h, hlen⟩
    · simp only [serialize_variables,
        serialize_fseq_variable_too_large code data hc (by omega)]

theorem serialize_variables_error (m : VarMap) (block : List Byte) (e : Error)
    (h : serialize_variables m block = .error e) :
    e = .InvalidCodeLength ∨ e = .DataTooLarge := by
  induction m generalizing block with
  | nil => simp [serialize_variables] at h
  | cons x rest ih =>
    obtain ⟨code, data⟩ := x
    unfold serialize_variables at h
    split at h
    · rename_i e1 h1
      cases h
      unfold serialize_fseq_variable at h1
      split at h1
      · cases h1; exact Or.inl rfl
      · split at h1
        · cases h1; exact Or.inr rfl
        · cases h1
    · exact ih _ h

theorem serialize_of_block (d : FSEQv2) (block : List Byte)
    (h : serialize_variables d.variables_ [] = .ok block) :
    d.serialize =
      if (pad_block 3 block).length + HEADER_SIZE > 65535 then .error .DocumentTooLarge
      else .ok ((serialize_header d (pad_block 3 block).length).bytes ++ pad_block 3 block
        ++ d.frame_data_) := by
  unfold FSEQv2.serialize
  rw [h]
  rfl

theorem serialize_of_error (d : FSEQv2) (e : Error)
    (h : serialize_variables d.variables_ [] = .error e) : d.serialize = .error e := by
  unfold FSEQv2.serialize
  rw [h]

theorem read_le16_serialize_header (d : FSEQv2) (len : Nat) (rest : List Byte)
    (h : HEADER_SIZE + len ≤ 65535) :
    read_le16 ((serialize_header d len).bytes ++ rest) 4 = HEADER_SIZE + len := by
  have h2 : (HEADER_SIZE + len) % 65536 = HEADER_SIZE + len := Nat.mod_eq_of_lt (by omega)
  simp [serialize_header, FSEQv2_Header.bytes, FSEQv2_Header.default, PSEQ, le16_bytes,
    read_le16, byte_at, to_byte, h2]
  omega

theorem records_length_mem (m : VarMap) (e : List Byte × List Byte) (he : e ∈ m) :
    HEADER_LENGTH + e.2.length ≤ records_length m := by
  induction m with
  | nil => cases he
  | cons x rest ih =>
    obtain ⟨code, data⟩ := x
    rcases List.mem_cons.mp he with h | h
    · subst h; simp [records_length]
    · have := ih h
      simp only [records_length]
      omega

/-! ### The order of the map keys -/
theorem string_lt_irrefl (a : List Byte) : string_lt a a = false := by
  induction a with
  | nil => rfl
  | cons x xs ih => simp [string_lt, ih]

theorem string_lt_asymm (a b : List Byte) (h : string_lt a b = true) : string_lt b a = false := by
  induction a generalizing b with
  | nil => cases b <;> simp [string_lt] at h ⊢
  | cons x xs ih =>
    cases b with
    | nil => simp [string_lt] at h
    | cons y ys =>
      simp only [string_lt, Bool.or_eq_true, Bool.and_eq_true, decide_eq_true_eq] at h
      simp only [string_lt, Bool.or_eq_false_iff, Bool.and_eq_false_iff, decide_eq_false_iff_not]
      rcases h with h | ⟨h1, h2⟩
      · exact ⟨not_lt.mpr (le_of_lt h), Or.inl (ne_of_gt h)⟩
      · exact ⟨by rw [h1]; exact lt_irrefl y, Or.inr (ih _ h2)⟩

theorem string_lt_trans (a b c : List Byte) (h1 : string_lt a b = true)
    (h2 : string_lt b c = true) : string_lt a c = true := by
  induction a generalizing b c with
  | nil =>
    cases b with
    | nil => simp [string_lt] at h1
    | cons y ys =>
      cases c with
      | nil => simp [string_lt] at h2
      | cons z zs => simp [string_lt]
  | cons x xs ih =>
    cases b with
    | nil => simp [string_lt] at h1
    | cons y ys =>
      cases c with
      | nil => simp [string_lt] at h2
      | cons z zs =>
        simp only [string_lt, Bool.or_eq_true, Bool.and_eq_true, decide_eq_true_eq] at h1 h2 ⊢
        rcases h1 with h1 | ⟨h1, h1'⟩ <;> rcases h2 with h2 | ⟨h2, h2'⟩
        · exact Or.inl (lt_trans h1 h2)
        · exact Or.inl (by rw [← h2]; exact h1)
        · exact Or.inl (by rw [h1]; exact h2)
        · exact Or.inr ⟨h1.trans h2, ih _ _ h1' h2'⟩

theorem string_lt_total (a b : List Byte) (h1 : string_lt a b = false)
    (h2 : string_lt b a = false) : a = b := by
  induction a generalizing b with
  | nil => cases b <;> simp [string_lt] at h1 ⊢
  | cons x xs ih =>
    cases b with
    | nil => simp [string_lt] at h2
    | cons y ys =>
      simp only [string_lt, Bool.or_eq_false_iff, Bool.and_eq_false_iff,
        decide_eq_false_iff_not] at h1 h2
      have hxy : x = y := le_antisymm (not_lt.mp h2.1) (not_lt.mp h1.1)
      subst hxy
      have := ih ys (by simpa using h1.2) (by simpa using h2.2)
      rw [this]

theorem map_assign_keys (m : VarMap) (k v : List Byte) (e : List Byte × List Byte)
    (he : e ∈ map_assign m k v) : e.1 = k ∨ ∃ e' ∈ m, e'.1 = e.1 := by
  induction m with
  | nil =>
    simp only [map_assign, List.mem_singleton] at he
    subst he; exact Or.inl rfl
  | cons x rest ih =>
    obtain ⟨k', v'⟩ := x
    unfold map_assign at he
    split at he
    · rcases List.mem_cons.mp he with h | h
      · subst h; exact Or.inl rfl
      · exact Or.inr ⟨e, h, rfl⟩
    · split at he
      · rcases List.mem_cons.mp he with h | h
        · subst h; exact Or.inr ⟨(k', v'), List.mem_cons_self _ _, rfl⟩
        · rcases ih h with h2 | ⟨e', he', h2⟩
          · exact Or.inl h2
          · exact Or.inr ⟨e', List.mem_cons_of_mem _ he', h2⟩
      · rcases List.mem_cons.mp he with h | h
        · subst h; exact Or.inr ⟨(k', v'), List.mem_cons_self _ _, rfl⟩
        · exact Or.inr ⟨e, List.mem_cons_of_mem _ h, rfl⟩

theorem map_assign_sorted (m : VarMap) (k v : List Byte) (hs : VarMap.Sorted m) :
    VarMap.Sorted (map_assign m k v) := by
  induction m with
  | nil => simp [map_assign, VarMap.Sorted]
  | cons x rest ih =>
    obtain ⟨k', v'⟩ := x
    unfold VarMap.Sorted at hs ih ⊢
    rw [List.pairwise_cons] at hs
    unfold map_assign
    split
    · rename_i hlt
      rw [List.pairwise_cons]
      refine ⟨?_, List.pairwise_cons.mpr hs⟩
      intro e he
      rcases List.mem_cons.mp he with h | h
      · subst h; exact hlt
      · exact string_lt_trans _ _ _ hlt (hs.1 e h)
    · split
      · rename_i hlt
        rw [List.pairwise_cons]
        refine ⟨?_, ih hs.2⟩
        intro e he
        rcases map_assign_keys rest k v e he with h | ⟨e', he', h⟩
        · rw [h]; exact hlt
        · rw [← h]; exact hs.1 e' he'
      · rw [List.pairwise_cons]
        exact ⟨hs.1, hs.2⟩

theorem map_assign_append (m : VarMap) (k v : List Byte)
    (h : ∀ e ∈ m, string_lt e.1 k = true) : map_assign m k v = m ++ [(k, v)] := by
  induction m with
  | nil => rfl
  | cons x rest ih =>
    obtain ⟨k', v'⟩ := x
    have h1 : string_lt k' k = true := h (k', v') (List.mem_cons_self _ _)
    have h2 : string_lt k k' = false := string_lt_asymm _ _ h1
    simp only [map_assign, h1, h2, Bool.false_eq_true, if_false, if_true, List.cons_append]
    rw [ih (fun e he => h e (List.mem_cons_of_mem _ he))]

theorem foldl_map_assign_sorted (pre m : VarMap) (hs : VarMap.Sorted (pre ++ m)) :
    m.foldl (fun acc e => map_assign acc e.1 e.2) pre = pre ++ m := by
  induction m generalizing pre with
  | nil => simp
  | cons x rest ih =>
    simp only [List.foldl_cons]
    have hx : ∀ e ∈ pre, string_lt e.1 x.1 = true := by
      intro e he
      unfold VarMap.Sorted at hs
      rw [List.pairwise_append] at hs
      exact hs.2.2 e he x (List.mem_cons_self _ _)
    rw [map_assign_append pre x.1 x.2 hx]
    have : pre ++ [(x.1, x.2)] ++ rest = pre ++ x :: rest := by simp
    rw [ih (pre ++ [(x.1, x.2)]) (by rw [this]; exact hs), this]

/-! ### Parsing serialised records -/

theorem to_size_t_of_nat (n : Nat) (h : n < 2 ^ 64) : to_size_t (n : Int) = n := by
  unfold to_size_t
  have : ((n : Int) % 2 ^ 64) = n := Int.emod_eq_of_lt (by positivity) (by exact_mod_cast h)
  rw [this]
  exact Int.toNat_natCast n

theorem span_subspan_rest (s : List Byte) (o : Nat) (h : o ≤ s.length) :
    span_subspan s o dynamic_extent = .ok (s.drop o) := by
  simp [span_subspan, h]

theorem span_subspan_count (s : List Byte) (o c : Nat) (h : o ≤ s.length)
    (hc : c ≤ s.length - o) (hd : c ≠ dynamic_extent) :
    span_subspan s o c = .ok ((s.drop o).take c) := by
  simp [span_subspan, h, hc, hd]

theorem read_le16_le16_bytes (n : Nat) (rest : List Byte) (h : n < 65536) :
    read_le16 (le16_bytes n ++ rest) 0 = n := by
  simp [read_le16, le16_bytes, byte_at, to_byte]
  omega

/-- Parsing a serialised record followed by anything gives back the record. -/
theorem parse_fseq_variable_record (code data rest : List Byte) (hc : code.length = 2)
    (hd : data.length ≤ 65531) :
    parse_fseq_variable (le16_bytes (HEADER_LENGTH + data.length) ++ code ++ data ++ rest) =
      .ok { size := HEADER_LENGTH + data.length, code := code, data := data } := by
  have hsz : HEADER_LENGTH + data.length < 65536 := by simp [HEADER_LENGTH, CODE_LENGTH]; omega
  unfold parse_fseq_variable
  have hlen : ¬ (le16_bytes (HEADER_LENGTH + data.length) ++ code ++ data ++ rest).length <
      2 + CODE_LENGTH := by
    simp [le16_bytes, CODE_LENGTH, hc]
  rw [if_neg hlen]
  simp only [List.append_assoc]
  rw [read_le16_le16_bytes _ _ hsz]
  have h1 : span_subspan (le16_bytes (HEADER_LENGTH + data.length) ++ (code ++ (data ++ rest))) 2
      dynamic_extent = .ok (code ++ (data ++ rest)) := by
    rw [span_subspan_rest _ _ (by simp [le16_bytes])]
    simp [le16_bytes]
  rw [h1]
  simp only
  have hne : ¬ HEADER_LENGTH + data.length = 0 := by simp [HEADER_LENGTH, CODE_LENGTH]
  rw [if_neg hne]
  have h2 : span_subspan (code ++ (data ++ rest)) CODE_LENGTH dynamic_extent =
      .ok (data ++ rest) := by
    rw [span_subspan_rest _ _ (by simp [CODE_LENGTH, hc])]
    simp [CODE_LENGTH, ← hc]
  rw [h2]
  simp only
  have h3 : to_size_t (((HEADER_LENGTH + data.length : Nat) : Int) - 4) = data.length := by
    have : ((HEADER_LENGTH + data.length : Nat) : Int) - 4 = (data.length : Int) := by
      simp [HEADER_LENGTH, CODE_LENGTH]
    rw [this]
    exact to_size_t_of_nat _ (by omega)
  rw [h3]
  have h4 : ¬ (data ++ rest).length < data.length := by simp
  rw [if_neg h4]
  simp [CODE_LENGTH, ← hc]

theorem parse_variables_padding (fuel : Nat) (vars : VarMap) (n : Nat) (hn : n < 4)
    (hf : n ≤ fuel) :
    parse_variables fuel vars (List.replicate n 0) = .ok vars := by
  cases fuel with
  | zero =>
    have : n = 0 := by omega
    subst this
    simp [parse_variables]
  | succ f =>
    unfold parse_variables
    split
    · rfl
    · have h1 : parse_fseq_variable (List.replicate n 0) =
          .ok { size := 0, code := [], data := [] } := by
        unfold parse_fseq_variable
        simp [CODE_LENGTH]
        intro h; omega
      rw [h1]
      rfl

theorem parse_variables_records (m : VarMap) (fuel : Nat) (vars : VarMap) (n : Nat)
    (hk : ∀ e ∈ m, e.1.length = 2) (hd : ∀ e ∈ m, e.2.length ≤ 65531) (hn : n < 4)
    (hf : (encode_records m ++ List.replicate n 0).length ≤ fuel) :
    parse_variables fuel vars (encode_records m ++ List.replicate n 0) =
      .ok (m.foldl (fun acc e => map_assign acc e.1 e.2) vars) := by
  induction m generalizing fuel vars with
  | nil =>
    simp only [encode_records, List.nil_append, List.foldl_nil]
    exact parse_variables_padding fuel vars n hn (by simpa [encode_records] using hf)
  | cons x rest ih =>
    obtain ⟨code, data⟩ := x
    have hc : code.length = 2 := hk (code, data) (List.mem_cons_self _ _)
    have hdl : data.length ≤ 65531 := hd (code, data) (List.mem_cons_self _ _)
    have henc : encode_records ((code, data) :: rest) ++ List.replicate n 0 =
        le16_bytes (HEADER_LENGTH + data.length) ++ code ++ data ++
          (encode_records rest ++ List.replicate n 0) := by
      simp [encode_records]
    rw [henc] at hf ⊢
    have hlen : (le16_bytes (HEADER_LENGTH + data.length) ++ code ++ data ++
          (encode_records rest ++ List.replicate n 0)).length =
        HEADER_LENGTH + data.length + (encode_records rest ++ List.replicate n 0).length := by
      simp [le16_bytes, hc, HEADER_LENGTH, CODE_LENGTH]; omega
    cases fuel with
    | zero => rw [hlen] at hf; simp [HEADER_LENGTH, CODE_LENGTH] at hf
    | succ f =>
      unfold parse_variables
      have hne : (le16_bytes (HEADER_LENGTH + data.length) ++ code ++ data ++
          (encode_records rest ++ List.replicate n 0)).isEmpty = false := by
        simp [le16_bytes]
      rw [hne]
      simp only [Bool.false_eq_true, if_false]
      rw [parse_fseq_variable_record code data _ hc hdl]
      simp only
      have hne2 : ¬ HEADER_LENGTH + data.length = 0 := by simp [HEADER_LENGTH, CODE_LENGTH]
      rw [if_neg hne2]
      have hsub : span_subspan (le16_bytes (HEADER_LENGTH + data.length) ++ code ++ data ++
          (encode_records rest ++ List.replicate n 0)) (HEADER_LENGTH + data.length)
          dynamic_extent = .ok (encode_records rest ++ List.replicate n 0) := by
        rw [span_subspan_rest _ _ (by rw [hlen]; omega)]
        congr 1
        apply List.drop_left'
        simp [le16_bytes, hc, HEADER_LENGTH, CODE_LENGTH]; omega
      rw [hsub]
      simp only [List.foldl_cons]
      apply ih
      · exact fun e he => hk e (List.mem_cons_of_mem _ he)
      · exact fun e he => hd e (List.mem_cons_of_mem _ he)
      · rw [hlen] at hf
        have : HEADER_LENGTH = 4 := rfl
        omega

/-! ### The serialised header read back -/

theorem to_size_t_lt (x : Int) : to_size_t x < 2 ^ 64 := by
  unfold to_size_t
  have h1 : x % 2 ^ 64 < 2 ^ 64 := Int.emod_lt_of_pos _ (by norm_num)
  have h0 : 0 ≤ x % 2 ^ 64 := Int.emod_nonneg _ (by norm_num)
  omega

theorem serialize_header_bytes_length (d : FSEQv2) (len : Nat) :
    (serialize_header d len).bytes.length = 32 := by
  simp [serialize_header, FSEQv2_Header.bytes, FSEQv2_Header.default, PSEQ, le16_bytes,
    le32_bytes, le64_bytes]

theorem memcpy_serialize_header (d : FSEQv2) (len : Nat)
    (hvm : d.version_minor_ < 2 ^ 8) (hnc : d.num_channels_ < 2 ^ 32)
    (hnf : d.num_frames_ < 2 ^ 32) :
    FSEQv2_Header.memcpy (serialize_header d len).bytes = serialize_header d len := by
  have hts := to_size_t_lt d.created_
  simp only [serialize_header, FSEQv2_Header.memcpy, FSEQv2_Header.bytes, FSEQv2_Header.default,
    PSEQ, le16_bytes, le32_bytes, le64_bytes, read_le16, read_le32, read_le64, byte_at, to_byte,
    HEADER_SIZE, List.cons_append, List.nil_append, List.getD_cons_succ, List.getD_cons_zero,
    List.take, FSEQv2_Header.mk.injEq, true_and]
  generalize to_size_t d.created_ = ts at hts
  generalize to_size_t d.step_time_ = st
  refine ⟨?_, ?_, ?_, ?_, ?_, ?_⟩ <;> omega

/-! ### Parsing a serialised document -/

theorem serialize_variables_ok_inv (m : VarMap) (block r : List Byte)
    (h : serialize_variables m block = .ok r) :
    (∀ e ∈ m, e.1.length = 2) ∧ (∀ e ∈ m, e.2.length ≤ 65531) := by
  induction m generalizing block with
  | nil => exact ⟨fun e he => (by cases he), fun e he => (by cases he)⟩
  | cons x rest ih =>
    obtain ⟨code, data⟩ := x
    unfold serialize_variables at h
    split at h
    · cases h
    · rename_i bytes h1
      have ⟨ih1, ih2⟩ := ih _ h
      unfold serialize_fseq_variable at h1
      split at h1
      · cases h1
      · rename_i hc
        split at h1
        · cases h1
        · rename_i hd
          have hc2 : code.length = 2 := by simpa [CODE_LENGTH] using hc
          have hd2 : data.length ≤ 65531 := by
            simp [MAX_DATA_LENGTH, HEADER_LENGTH, CODE_LENGTH] at hd; omega
          constructor
          · intro e he
            rcases List.mem_cons.mp he with h2 | h2
            · subst h2; exact hc2
            · exact ih1 e h2
          · intro e he
            rcases List.mem_cons.mp he with h2 | h2
            · subst h2; exact hd2
            · exact ih2 e h2

theorem ofSpan_serialize_header (d : FSEQv2) (len : Nat)
    (hvm : d.version_minor_ < 2 ^ 8) (hnc : d.num_channels_ < 2 ^ 32)
    (hnf : d.num_frames_ < 2 ^ 32) :
    FSEQv2_Header.ofSpan (serialize_header d len).bytes = .ok (serialize_header d len) := by
  unfold FSEQv2_Header.ofSpan
  rw [serialize_header_bytes_length]
  simp only [HEADER_SIZE, ne_eq, not_true_eq_false, if_false]
  rw [memcpy_serialize_header d len hvm hnc hnf]
  simp [serialize_header, FSEQv2_Header.default]

theorem parse_serialize (d : FSEQv2) (bytes : List Byte)
    (hvm : d.version_minor_ < 2 ^ 8) (hnc : d.num_channels_ < 2 ^ 32)
    (hnf : d.num_frames_ < 2 ^ 32) (hs : VarMap.Sorted d.variables_)
    (h : d.serialize = .ok bytes) :
    FSEQv2.parse_from_ bytes =
      if d.frame_data_.length ≠ (d.num_channels_ * d.num_frames_) % 2 ^ 32 then
        .error .FrameDataSizeMismatch
      else .ok d.reread := by
  -- the variable block
  cases hsv : serialize_variables d.variables_ [] with
  | error e => rw [serialize_of_error d e hsv] at h; cases h
  | ok block =>
    obtain ⟨hk, hd⟩ := serialize_variables_ok_inv _ _ _ hsv
    have hblock := serialize_variables_ok d.variables_ [] hk hd
    rw [List.nil_append] at hblock
    rw [hblock] at hsv
    cases hsv
    rw [serialize_of_block d _ hblock] at h
    split at h
    · cases h
    · rename_i hsize
      cases h
      set V := pad_block 3 (encode_records d.variables_) with hV
      have hVeq : V = encode_records d.variables_ ++
          List.replicate ((4 - (encode_records d.variables_).length % 4) % 4) 0 :=
        pad_block_eq _
      have hVlen : HEADER_SIZE + V.length ≤ 65535 := by omega
      have h32 : HEADER_SIZE = 32 := rfl
      set H := (serialize_header d V.length).bytes with hH
      have hHlen : H.length = 32 := serialize_header_bytes_length d V.length
      unfold FSEQv2.parse_from_
      have hfirst : span_first (H ++ V ++ d.frame_data_) HEADER_SIZE = .ok H := by
        unfold span_first
        rw [if_pos (by simp [hHlen, h32])]
        rw [List.append_assoc, List.take_left' (by rw [hHlen, h32])]
      rw [hfirst]
      simp only
      rw [ofSpan_serialize_header d V.length hvm hnc hnf]
      simp only
      have hvo : (serialize_header d V.length).var_data_offset = 32 := rfl
      have hco : (serialize_header d V.length).ch_data_offset = 32 + V.length := by
        show (HEADER_SIZE + V.length) % 2 ^ 16 = 32 + V.length
        rw [h32]
        exact Nat.mod_eq_of_lt (by omega)
      rw [hvo, hco]
      have hcnt : to_size_t (((32 + V.length : Nat) : Int) - ((32 : Nat) : Int)) = V.length := by
        have : ((32 + V.length : Nat) : Int) - ((32 : Nat) : Int) = (V.length : Int) := by
          push_cast; ring
        rw [this]
        exact to_size_t_of_nat _ (by omega)
      rw [hcnt]
      have hsub1 : span_subspan (H ++ V ++ d.frame_data_) 32 V.length = .ok V := by
        rw [span_subspan_count _ _ _ (by simp [hHlen]) (by simp [hHlen])
          (by unfold dynamic_extent; omega)]
        rw [List.append_assoc, List.drop_left' hHlen, List.take_left' rfl]
      rw [hsub1]
      simp only
      have hvars : parse_variables V.length [] V = .ok d.variables_ := by
        have := parse_variables_records d.variables_ V.length []
          ((4 - (encode_records d.variables_).length % 4) % 4) hk hd (by omega)
          (by rw [← hVeq])
        rw [← hVeq] at this
        rw [this, foldl_map_assign_sorted [] d.variables_ (by simpa using hs)]
        rfl
      rw [hvars]
      simp only
      have hsub2 : span_subspan (H ++ V ++ d.frame_data_) (32 + V.length) dynamic_extent =
          .ok d.frame_data_ := by
        rw [span_subspan_rest _ _ (by simp [hHlen])]
        rw [List.drop_left' (by simp [hHlen])]
      rw [hsub2]
      simp only
      have hcc : (serialize_header d V.length).channel_count = d.num_channels_ := rfl
      have hfc : (serialize_header d V.length).frame_count = d.num_frames_ := rfl
      rw [hcc, hfc]
      split
      · rfl
      · rfl

/-! ### Documents built by the constructor and the mutators -/

theorem create_ok (nc : Nat) (step now : Int) (d : FSEQv2)
    (h : FSEQv2.create nc step now = .ok d) :
    d = { version_minor_ := 0, num_channels_ := nc, num_frames_ := 0, step_time_ := step,
          created_ := now, variables_ := [], frame_data_ := [] } ∧ step ≤ 255 := by
  unfold FSEQv2.create at h
  split at h
  · cases h
  · cases h
    exact ⟨rfl, by omega⟩

theorem mutate_preserves (d d1 : FSEQv2) (m : Mutation) (h : d.mutate m = .ok d1)
    (hb : d.Built) :
    d1.Built ∧ d1.num_channels_ = d.num_channels_ ∧ d1.step_time_ = d.step_time_ ∧
      d1.created_ = d.created_ := by
  obtain ⟨hvm, hk, hs, n, hlen, hnf⟩ := hb
  cases m with
  | add_variable code value =>
    simp only [FSEQv2.mutate, FSEQv2.add_variable] at h
    split at h
    · cases h
    · rename_i hc
      cases h
      refine ⟨⟨hvm, ?_, map_assign_sorted _ _ _ hs, n, hlen, hnf⟩, rfl, rfl, rfl⟩
      intro e he
      rcases map_assign_keys _ _ _ e he with h1 | ⟨e', he', h1⟩
      · rw [h1]; simpa [CODE_LENGTH] using hc
      · rw [← h1]; exact hk e' he'
  | add_frame frame_data =>
    simp only [FSEQv2.mutate, FSEQv2.add_frame] at h
    split at h
    · cases h
    · rename_i hc
      cases h
      refine ⟨⟨hvm, hk, hs, n + 1, ?_, ?_⟩, rfl, rfl, rfl⟩
      · simp only [List.length_append, hlen]
        have : frame_data.length = d.num_channels_ := by simpa using hc
        rw [this, Nat.mul_add, Nat.mul_one]
      · simp only [hnf]
        omega

theorem mutate_all_preserves (ms : List Mutation) (d d1 : FSEQv2)
    (h : d.mutate_all ms = .ok d1) (hb : d.Built) :
    d1.Built ∧ d1.num_channels_ = d.num_channels_ ∧ d1.step_time_ = d.step_time_ ∧
      d1.created_ = d.created_ := by
  induction ms generalizing d with
  | nil =>
    simp only [FSEQv2.mutate_all] at h
    cases h
    exact ⟨hb, rfl, rfl, rfl⟩
  | cons m rest ih =>
    unfold FSEQv2.mutate_all at h
    split at h
    · cases h
    · rename_i d2 h2
      obtain ⟨hb2, h21, h22, h23⟩ := mutate_preserves d d2 m h2 hb
      obtain ⟨hb1, h11, h12, h13⟩ := ih d2 h hb2
      exact ⟨hb1, h11.trans h21, h12.trans h22, h13.trans h23⟩

/-- Every document built by the empty constructor and a sequence of successful mutating calls
satisfies the invariant `Built`, keeps the channel count, step time and creation time of the
constructor call, and has a step time of at most 255 ms. -/
theorem build_invariant (nc : Nat) (step now : Int) (ms : List Mutation) (d : FSEQv2)
    (h : FSEQv2.build nc step now ms = .ok d) :
    d.Built ∧ d.num_channels_ = nc ∧ d.step_time_ = step ∧ d.created_ = now ∧ step ≤ 255 := by
  unfold FSEQv2.build at h
  split at h
  · cases h
  · rename_i d0 h0
    obtain ⟨hd0, hstep⟩ := create_ok nc step now d0 h0
    have hb0 : d0.Built := by
      rw [hd0]
      exact ⟨rfl, fun e he => (by cases he), List.Pairwise.nil, 0, rfl, rfl⟩
    obtain ⟨hb, h1, h2, h3⟩ := mutate_all_preserves ms d0 d h hb0
    rw [hd0] at h1 h2 h3
    exact ⟨hb, h1, h2, h3, hstep⟩

theorem to_size_t_to_int64 (n : Nat) (h : n < 2 ^ 64) : to_size_t (to_int64 n) = n := by
  unfold to_int64
  rw [Nat.mod_eq_of_lt h]
  split
  · exact to_size_t_of_nat n h
  · rename_i h2
    unfold to_size_t
    have : ((n : Int) - 2 ^ 64) % 2 ^ 64 = n := by
      rw [Int.sub_emod, Int.emod_self, sub_zero, Int.emod_emod]
      exact Int.emod_eq_of_lt (by positivity) (by exact_mod_cast h)
    rw [this]
    exact Int.toNat_natCast n

theorem to_int64_to_size_t (x : Int) (h1 : -(2 ^ 63) ≤ x) (h2 : x < 2 ^ 63) :
    to_int64 (to_size_t x) = x :=
  to_int64_of_int x h1 h2 _ (to_size_t_cast x)

theorem serialize_reread (d : FSEQv2) : d.reread.serialize = d.serialize := by
  have h1 : to_size_t d.reread.step_time_ % 2 ^ 8 = to_size_t d.step_time_ % 2 ^ 8 := by
    show to_size_t ((to_size_t d.step_time_ % 2 ^ 8 : Nat) : Int) % 2 ^ 8 = _
    rw [to_size_t_of_nat _ (by omega)]
    omega
  have h2 : to_size_t d.reread.created_ = to_size_t d.created_ :=
    to_size_t_to_int64 _ (to_size_t_lt _)
  unfold FSEQv2.serialize
  rw [h1, h2]
  rfl

theorem reread_eq (d : FSEQv2) (h0 : 0 ≤ d.step_time_) (h255 : d.step_time_ ≤ 255)
    (hc1 : -(2 ^ 63) ≤ d.created_) (hc2 : d.created_ < 2 ^ 63) : d.reread = d := by
  have h1 : ((to_size_t d.step_time_ % 2 ^ 8 : Nat) : Int) = d.step_time_ := by
    push_cast
    rw [to_size_t_cast]
    omega
  unfold FSEQv2.reread
  rw [h1, to_int64_to_size_t _ hc1 hc2]

/-! ### Round trips under the conditions the code needs -/

/-- Document-side round trip under the conditions the code needs: a document built by the
empty constructor (channel count a `uint32_t`, step time not negative, clock reading a signed
64-bit count) and successful mutating calls, holding less than 4 GiB of frame data, is read
back unchanged from its serialisation. -/
theorem roundtrip_built (nc : Nat) (step now : Int) (ms : List Mutation) (d : FSEQv2)
    (bytes : List Byte) (h : FSEQv2.build nc step now ms = .ok d) (hnc : nc < 2 ^ 32)
    (h0 : 0 ≤ step) (hn1 : -(2 ^ 63) ≤ now) (hn2 : now < 2 ^ 63)
    (hlen : d.frame_data_.length < 2 ^ 32) (hs : d.serialize = .ok bytes) :
    FSEQv2.parse_from_ bytes = .ok d := by
  obtain ⟨⟨hvm, hk, hsorted, n, hl, hnf⟩, h1, h2, h3, h255⟩ := build_invariant nc step now ms d h
  have hnf2 : d.num_frames_ < 2 ^ 32 := by rw [hnf]; exact Nat.mod_lt _ (by norm_num)
  have hinv : d.frame_data_.length = (d.num_channels_ * d.num_frames_) % 2 ^ 32 := by
    rcases Nat.eq_zero_or_pos d.num_channels_ with hz | hp
    · rw [hl, hz]; simp
    · have hn : n ≤ d.num_channels_ * n := Nat.le_mul_of_pos_left n hp
      have hn2 : n % 2 ^ 32 = n := Nat.mod_eq_of_lt (by omega)
      rw [hnf, hn2, ← hl]
      exact (Nat.mod_eq_of_lt hlen).symm
  rw [parse_serialize d bytes (by rw [hvm]; norm_num) (by rw [h1]; exact hnc) hnf2 hsorted hs]
  rw [if_neg (by simpa using hinv)]
  rw [reread_eq d (by rw [h2]; exact h0) (by rw [h2]; exact h255) (by rw [h3]; exact hn1)
    (by rw [h3]; exact hn2)]

/-- Byte-side round trip under the conditions the code needs: when a document with fields in
the ranges of their types, map keys in order and a store of `(channels * frames) mod 2^32`
bytes serialises to `bytes`, parsing `bytes` succeeds and serialising the parsed document gives
`bytes` again. -/
theorem roundtrip_bytes (d : FSEQv2) (bytes : List Byte)
    (hvm : d.version_minor_ < 2 ^ 8) (hnc : d.num_channels_ < 2 ^ 32)
    (hnf : d.num_frames_ < 2 ^ 32) (hsorted : VarMap.Sorted d.variables_)
    (hinv : d.frame_data_.length = (d.num_channels_ * d.num_frames_) % 2 ^ 32)
    (hs : d.serialize = .ok bytes) :
    ∃ d1, FSEQv2.parse_from_ bytes = .ok d1 ∧ d1.serialize = .ok bytes := by
  refine ⟨d.reread, ?_, ?_⟩
  · rw [parse_serialize d bytes hvm hnc hnf hsorted hs, if_neg (by simpa using hinv)]
  · rw [serialize_reread, hs]

theorem mutate_all_add_frames (n : Nat) (d : FSEQv2) (fr : List Byte)
    (h : fr.length = d.num_channels_) (hnf : d.num_frames_ < 2 ^ 32) :
    d.mutate_all (List.replicate n (.add_frame fr)) =
      .ok { d with num_frames_ := (d.num_frames_ + n) % 2 ^ 32
                   frame_data_ := d.frame_data_ ++ (List.replicate n fr).flatten } := by
  induction n generalizing d with
  | zero =>
    simp only [List.replicate, FSEQv2.mutate_all, List.flatten_nil, List.append_nil,
      Nat.add_zero]
    rw [Nat.mod_eq_of_lt hnf]
  | succ k ih =>
    simp only [List.replicate, FSEQv2.mutate_all, FSEQv2.mutate, FSEQv2.add_frame, h, ne_eq,
      not_true_eq_false, if_false]
    have := ih { d with num_frames_ := (d.num_frames_ + 1) % 2 ^ 32
                        frame_data_ := d.frame_data_ ++ fr } h (Nat.mod_lt _ (by norm_num))
    rw [this]
    simp only [List.flatten_cons, List.append_assoc]
    congr 2
    omega

theorem length_flatten_replicate (n : Nat) (fr : List Byte) :
    (List.replicate n fr).flatten.length = n * fr.length := by
  induction n with
  | zero => simp
  | succ k ih => simp [List.replicate, ih, Nat.add_mul]; omega

theorem build_add_frames (nc n : Nat) (step now : Int) (hstep : step ≤ 255) :
    FSEQv2.build nc step now (List.replicate n (.add_frame (List.replicate nc 0))) =
      .ok { version_minor_ := 0, num_channels_ := nc, num_frames_ := n % 2 ^ 32,
            step_time_ := step, created_ := now, variables_ := [],
            frame_data_ := (List.replicate n (List.replicate nc (0 : Byte))).flatten } := by
  unfold FSEQv2.build FSEQv2.create
  rw [if_neg (by omega)]
  simp only
  rw [mutate_all_add_frames n _ _ (List.length_replicate _ _) (by norm_num)]
  simp only [Nat.zero_add, List.nil_append]

/-! ### C1: round trip, document side -/

/-- C1 (evaluation of the code). The document built by `FSEQv2(1, -1ms)`, `add_variable("mf",
"a")` and `add_frame({7})` serialises successfully (the step-time byte is 255); parsing the
produced bytes succeeds but yields step time 255 ms, not -1 ms. -/
theorem roundtrip_loses_negative_step :
    FSEQv2.build 1 (-1) 1000 [.add_variable [109, 102] [97], .add_frame [7]] =
      .ok negative_step_doc ∧
    negative_step_doc.serialize = .ok negative_step_show ∧
    FSEQv2.parse_from_ negative_step_show = .ok { negative_step_doc with step_time_ := 255 } ∧
    FSEQv2.parse_from_ negative_step_show ≠ .ok negative_step_doc := by
  decide

/-! ### C2: round trip, byte side -/

/-- C2 (evaluation of the code). The document built by `FSEQv2(65536, 20ms)` and 65536 calls of
`add_frame` with 65536 bytes each serialises successfully, and parsing the produced buffer
fails with `FrameDataSizeMismatch`: the store holds `2^32` bytes, the 32-bit product of the
counts is 0. -/
theorem roundtrip_fails_on_four_gib_store :
    FSEQv2.build 65536 20 0 four_gib_mutations = .ok four_gib_doc ∧
    four_gib_doc.frame_data_.length = 2 ^ 32 ∧
    ∃ bytes, four_gib_doc.serialize = .ok bytes ∧
      FSEQv2.parse_from_ bytes = .error .FrameDataSizeMismatch := by
  have hlen : four_gib_doc.frame_data_.length = 2 ^ 32 := by
    show ((List.replicate 65536 (List.replicate 65536 (0 : Byte))).flatten).length = 2 ^ 32
    rw [length_flatten_replicate, List.length_replicate]
    norm_num
  have hser : four_gib_doc.serialize = .ok ((serialize_header four_gib_doc
      (pad_block 3 []).length).bytes ++ pad_block 3 [] ++ four_gib_doc.frame_data_) :=
    serialize_of_block four_gib_doc [] rfl
  refine ⟨build_add_frames 65536 65536 20 0 (by decide), hlen, _, hser, ?_⟩
  rw [parse_serialize four_gib_doc _ (by decide) (by decide) (by decide) List.Pairwise.nil hser]
  rw [if_pos]
  rw [hlen]
  decide

/-! ### C10: the size limit of serialize -/

theorem records_length_single (code data : List Byte) :
    records_length [(code, data)] = 4 + data.length := rfl

/-- C10 (counterexample). The document built by `FSEQv2(0, 20ms)` and `add_variable("ab",
data)` with 65532 data bytes: its channel data offset would be 32 + 65536 > 65535, and
`serialize()` fails with `DataTooLarge` (raised for the record), not with `DocumentTooLarge`. -/
theorem oversized_variable_is_DataTooLarge :
    FSEQv2.build 0 20 0 [.add_variable [97, 98] (List.replicate 65532 0)] =
      .ok oversized_variable_doc ∧
    65535 < 32 + padded_length (records_length oversized_variable_doc.variables_) ∧
    oversized_variable_doc.serialize = .error .DataTooLarge ∧
    oversized_variable_doc.serialize ≠ .error .DocumentTooLarge := by
  have hser : oversized_variable_doc.serialize = .error .DataTooLarge := by
    apply serialize_of_error
    apply serialize_variables_too_large
    · intro e he
      simp only [oversized_variable_doc, List.mem_singleton] at he
      rw [he]
      rfl
    · refine ⟨([97, 98], List.replicate 65532 0), List.mem_singleton.mpr rfl, ?_⟩
      simp only [List.length_replicate]
      norm_num
  have hrec : records_length oversized_variable_doc.variables_ = 65536 := by
    have hv : oversized_variable_doc.variables_ = [([97, 98], List.replicate 65532 0)] := rfl
    rw [hv, records_length_single, List.length_replicate]
  refine ⟨rfl, ?_, hser, ?_⟩
  · rw [hrec]
    decide
  · rw [hser]
    decide

/-- C10 (amended). For every document whose variable codes are 2 bytes long (as in every
document the constructors and mutators produce): if 32 + the padded variable-block length
exceeds 65535, `serialize()` fails and returns no bytes, with `DataTooLarge` when some
variable holds more than 65531 data bytes and with `DocumentTooLarge` otherwise; a variable of
more than 65531 data bytes always puts the offset beyond 65535; and whenever `serialize()`
succeeds, the 16-bit field at bytes 4..5 holds exactly 32 + the padded variable-block length,
which is at most 65535 (never a truncated value). -/
theorem serialize_size_limit (d : FSEQv2) (hk : ∀ e ∈ d.variables_, e.1.length = 2) :
    (65535 < 32 + padded_length (records_length d.variables_) →
      ((∃ e ∈ d.variables_, 65531 < e.2.length) → d.serialize = .error .DataTooLarge) ∧
      ((∀ e ∈ d.variables_, e.2.length ≤ 65531) → d.serialize = .error .DocumentTooLarge)) ∧
    ((∃ e ∈ d.variables_, 65531 < e.2.length) →
      65535 < 32 + padded_length (records_length d.variables_)) ∧
    (∀ bytes, d.serialize = .ok bytes →
      32 + padded_length (records_length d.variables_) ≤ 65535 ∧
      read_le16 bytes 4 = 32 + padded_length (records_length d.variables_)) := by
  have hok : (∀ e ∈ d.variables_, e.2.length ≤ 65531) →
      d.serialize =
        if 65535 < 32 + padded_length (records_length d.variables_) then
          .error .DocumentTooLarge
        else .ok ((serialize_header d (padded_length (records_length d.variables_))).bytes
          ++ pad_block 3 (encode_records d.variables_) ++ d.frame_data_) := by
    intro hd
    have h1 := serialize_variables_ok d.variables_ [] hk hd
    rw [List.nil_append] at h1
    rw [serialize_of_block d _ h1, pad_block_length, encode_records_length _ hk]
    simp only [HEADER_SIZE, gt_iff_lt]
    rw [Nat.add_comm]
  refine ⟨fun hbig => ⟨fun hd => ?_, fun hd => ?_⟩, fun hd => ?_, fun bytes hb => ?_⟩
  · exact serialize_of_error d _ (serialize_variables_too_large _ _ hk hd)
  · rw [hok hd, if_pos hbig]
  · obtain ⟨e, he, hlen⟩ := hd
    have := records_length_mem d.variables_ e he
    have h4 : HEADER_LENGTH = 4 := rfl
    unfold padded_length
    omega
  · by_cases hd : ∀ e ∈ d.variables_, e.2.length ≤ 65531
    · rw [hok hd] at hb
      split at hb
      · cases hb
      · rename_i hle
        cases hb
        refine ⟨by omega, ?_⟩
        rw [List.append_assoc]
        exact read_le16_serialize_header d _ _ (by simp only [HEADER_SIZE]; omega)
    · exfalso
      have : ∃ e ∈ d.variables_, 65531 < e.2.length := by
        by_contra hne
        apply hd
        intro e he
        by_contra hlt
        exact hne ⟨e, he, by omega⟩
      rw [serialize_of_error d _ (serialize_variables_too_large _ _ hk this)] at hb
      cases hb

/-- The test document: the offset field of its serialisation is 32 + 44 = 76. -/
theorem serialize_size_limit_witness :
    (∀ e ∈ dummy.variables_, e.1.length = 2) ∧
    read_le16 dummy_show 4 = 32 + padded_length (records_length dummy.variables_) :=
  ⟨by decide, ((serialize_size_limit dummy (by decide)).2.2 dummy_show (by decide)).2⟩

/-! ### What a successful parse returns -/

theorem read_le16_take (b : List Byte) (n i : Nat) (h : i + 1 < n) :
    read_le16 (b.take n) i = read_le16 b i := by
  simp only [read_le16, byte_at_take b n i (by omega), byte_at_take b n (i + 1) h]

theorem read_le32_take (b : List Byte) (n i : Nat) (h : i + 3 < n) :
    read_le32 (b.take n) i = read_le32 b i := by
  simp only [read_le32, byte_at_take b n i (by omega), byte_at_take b n (i + 1) (by omega),
    byte_at_take b n (i + 2) (by omega), byte_at_take b n (i + 3) h]

theorem read_le64_take (b : List Byte) (n i : Nat) (h : i + 7 < n) :
    read_le64 (b.take n) i = read_le64 b i := by
  simp only [read_le64, byte_at_take b n i (by omega), byte_at_take b n (i + 1) (by omega),
    byte_at_take b n (i + 2) (by omega), byte_at_take b n (i + 3) (by omega),
    byte_at_take b n (i + 4) (by omega), byte_at_take b n (i + 5) (by omega),
    byte_at_take b n (i + 6) (by omega), byte_at_take b n (i + 7) h]

theorem byte_at_lt (raw : List Byte) (i : Nat) : byte_at raw i < 256 := (raw.getD i 0).isLt

theorem read_le16_lt (raw : List Byte) (i : Nat) : read_le16 raw i < 2 ^ 16 := by
  have h0 := byte_at_lt raw i
  have h1 := byte_at_lt raw (i + 1)
  unfold read_le16; omega

theorem read_le32_lt (raw : List Byte) (i : Nat) : read_le32 raw i < 2 ^ 32 := by
  have h0 := byte_at_lt raw i
  have h1 := byte_at_lt raw (i + 1)
  have h2 := byte_at_lt raw (i + 2)
  have h3 := byte_at_lt raw (i + 3)
  unfold read_le32; omega

theorem FSEQv2_Header.ofSpan_ok (raw : List Byte) (hd : FSEQv2_Header)
    (h : FSEQv2_Header.ofSpan raw = .ok hd) : hd = FSEQv2_Header.memcpy raw := by
  unfold FSEQv2_Header.ofSpan at h
  simp only at h
  repeat' split at h
  all_goals cases h
  rfl

theorem span_subspan_ok (s : List Byte) (o c : Nat) (r : List Byte)
    (h : span_subspan s o c = .ok r) :
    o ≤ s.length ∧ (c = dynamic_extent ∧ r = s.drop o ∨
      c ≠ dynamic_extent ∧ c ≤ s.length - o ∧ r = (s.drop o).take c) := by
  unfold span_subspan at h
  split at h
  · rename_i ho
    refine ⟨ho, ?_⟩
    split at h
    · rename_i hc; cases h; exact Or.inl ⟨hc, rfl⟩
    · rename_i hc
      split at h
      · rename_i hle; cases h; exact Or.inr ⟨hc, hle, rfl⟩
      · cases h
  · cases h

theorem parse_fseq_variable_code (raw : List Byte) (var : FSEQv2_Variable)
    (h : parse_fseq_variable raw = .ok var) (hs : var.size ≠ 0) : var.code.length = 2 := by
  unfold parse_fseq_variable at h
  split at h
  · cases h; exact absurd rfl hs
  · rename_i hlen
    simp only at h
    split at h
    · cases h
    · rename_i raw1 h1
      obtain ⟨_, h1' | h1'⟩ := span_subspan_ok _ _ _ _ h1
      · split at h
        · cases h; exact absurd rfl hs
        · split at h
          · cases h
          · split at h
            · cases h
            · cases h
              simp only [CODE_LENGTH, List.length_take, h1'.2, List.length_drop] at hlen ⊢
              omega
      · exact absurd rfl h1'.1

theorem parse_variables_invariant (fuel : Nat) (vars : VarMap) (data : List Byte) (m : VarMap)
    (h : parse_variables fuel vars data = .ok m)
    (hk : ∀ e ∈ vars, e.1.length = 2) (hs : VarMap.Sorted vars) :
    (∀ e ∈ m, e.1.length = 2) ∧ VarMap.Sorted m := by
  induction fuel generalizing vars data with
  | zero =>
    unfold parse_variables at h
    split at h
    · cases h; exact ⟨hk, hs⟩
    · cases h
  | succ n ih =>
    unfold parse_variables at h
    split at h
    · cases h; exact ⟨hk, hs⟩
    · split at h
      · cases h
      · rename_i var hvar
        split at h
        · cases h; exact ⟨hk, hs⟩
        · rename_i hsz
          split at h
          · cases h
          · apply ih _ _ h
            · intro e he
              rcases map_assign_keys _ _ _ e he with h1 | ⟨e', he', h1⟩
              · rw [h1]; exact parse_fseq_variable_code _ _ hvar hsz
              · rw [← h1]; exact hk e' he'
            · exact map_assign_sorted _ _ _ hs

/-- What a successful parse returns: the scalar fields are the header fields of the wire
format, the frame store is everything from `channel_data_offset` on and holds
`(channel_count * frame_count) mod 2^32` bytes, the codes of the mapping are 2 bytes long and in
ascending order, and, when `variable_data_offset <= channel_data_offset`, the mapping is the
decoding of `b[variable_data_offset .. channel_data_offset)`. -/
theorem parse_from__decodes (b : List Byte) (d : FSEQv2) (h : FSEQv2.parse_from_ b = .ok d) :
    32 ≤ b.length ∧
    d.version_minor_ = byte_at b 6 ∧
    d.num_channels_ = read_le32 b 10 ∧
    d.num_frames_ = read_le32 b 14 ∧
    d.step_time_ = (byte_at b 18 : Nat) ∧
    d.created_ = to_int64 (read_le64 b 24) ∧
    d.frame_data_ = b.drop (read_le16 b 4) ∧
    read_le16 b 4 ≤ b.length ∧ read_le16 b 8 ≤ b.length ∧
    d.frame_data_.length = (d.num_channels_ * d.num_frames_) % 2 ^ 32 ∧
    (∀ e ∈ d.variables_, e.1.length = 2) ∧ VarMap.Sorted d.variables_ ∧
    (read_le16 b 8 ≤ read_le16 b 4 → decode_variables (variable_region b) = .ok d.variables_) := by
  unfold FSEQv2.parse_from_ at h
  split at h
  · cases h
  · rename_i raw h1
    obtain ⟨hlen, hraw⟩ := span_first_ok _ _ _ h1
    have hlen32 : 32 ≤ b.length := hlen
    split at h
    · cases h
    · rename_i header h2
      have hh := FSEQv2_Header.ofSpan_ok _ _ h2
      simp only at h
      split at h
      · cases h
      · rename_i variable_data h3
        split at h
        · cases h
        · rename_i vars h4
          split at h
          · cases h
          · rename_i frame_data h5
            split at h
            · cases h
            · rename_i hsize
              cases h
              have hco : header.ch_data_offset = read_le16 b 4 := by
                rw [hh, hraw]; exact read_le16_take b 32 4 (by decide)
              have hvo : header.var_data_offset = read_le16 b 8 := by
                rw [hh, hraw]; exact read_le16_take b 32 8 (by decide)
              rw [hco, hvo] at h3
              rw [hco] at h5
              obtain ⟨hvle, hv⟩ := span_subspan_ok _ _ _ _ h3
              obtain ⟨hcle, hc⟩ := span_subspan_ok _ _ _ _ h5
              have hfd : frame_data = b.drop (read_le16 b 4) := by
                rcases hc with hc | hc
                · exact hc.2
                · exact absurd rfl hc.1
              obtain ⟨hkeys, hsorted⟩ := parse_variables_invariant _ _ _ _ h4
                (fun e he => (by cases he)) List.Pairwise.nil
              refine ⟨hlen32, ?_, ?_, ?_, ?_, ?_, hfd, hcle, hvle, ?_, hkeys, hsorted, ?_⟩
              · show header.version_minor = _
                rw [hh, hraw]; exact byte_at_take b 32 6 (by decide)
              · show header.channel_count = _
                rw [hh, hraw]; exact read_le32_take b 32 10 (by decide)
              · show header.frame_count = _
                rw [hh, hraw]; exact read_le32_take b 32 14 (by decide)
              · show ((header.step_time : Nat) : Int) = _
                rw [hh, hraw]
                exact congrArg Nat.cast (byte_at_take b 32 18 (by decide))
              · show to_int64 header.timestamp_us = _
                rw [hh, hraw]
                exact congrArg to_int64 (read_le64_take b 32 24 (by decide))
              · simpa using hsize
              · intro hle
                have hcnt : to_size_t ((read_le16 b 4 : Int) - (read_le16 b 8 : Int)) =
                    read_le16 b 4 - read_le16 b 8 := by
                  have : (read_le16 b 4 : Int) - (read_le16 b 8 : Int) =
                      ((read_le16 b 4 - read_le16 b 8 : Nat) : Int) := by omega
                  rw [this]
                  have := read_le16_lt b 4
                  exact to_size_t_of_nat _ (by omega)
                rw [hcnt] at hv
                rcases hv with hv | hv
                · exfalso
                  have := read_le16_lt b 4
                  have h6 := hv.1
                  unfold dynamic_extent at h6
                  omega
                · unfold decode_variables variable_region
                  rw [← hv.2.2]
                  exact h4

/-! ### Lookup after assignment -/

theorem string_lt_ne (a b : List Byte) (h : string_lt a b = true) : a ≠ b := by
  intro hab
  rw [hab, string_lt_irrefl] at h
  cases h

theorem map_find_assign_same (m : VarMap) (k v : List Byte) :
    map_find (map_assign m k v) k = some v := by
  induction m with
  | nil => simp [map_assign, map_find]
  | cons x rest ih =>
    obtain ⟨k0, v0⟩ := x
    unfold map_assign
    split
    · simp [map_find]
    · rename_i h1
      split
      · rename_i h2
        have hne : k0 ≠ k := string_lt_ne _ _ h2
        simp only [map_find, hne, if_false]
        exact ih
      · rename_i h2
        have hk : k = k0 := string_lt_total _ _ (by simpa using h1) (by simpa using h2)
        simp [map_find, hk]

theorem map_find_assign_other (m : VarMap) (k v c : List Byte) (hc : c ≠ k) :
    map_find (map_assign m k v) c = map_find m c := by
  induction m with
  | nil => simp [map_assign, map_find, Ne.symm hc]
  | cons x rest ih =>
    obtain ⟨k0, v0⟩ := x
    unfold map_assign
    split
    · simp [map_find, Ne.symm hc]
    · rename_i h1
      split
      · simp only [map_find]
        split
        · rfl
        · exact ih
      · rename_i h2
        have hk : k = k0 := string_lt_total _ _ (by simpa using h1) (by simpa using h2)
        subst hk
        simp [map_find, Ne.symm hc]

/-! ### C12: add_variable -/

/-- C12. The call `add_variable(code, data)` fails, with `InvalidCodeLength` and nothing else, exactly
when `code` is not 2 bytes long (the call then returns no new state: the document is as it
was); on success the mapping maps `code` to `data`, every other code keeps its value, and the
frame store, frame count, channel count, step time, timestamp and minor version are
unchanged. -/
theorem add_variable_spec (d : FSEQv2) (code data : List Byte) :
    (d.add_variable code data = .error .InvalidCodeLength ↔ code.length ≠ 2) ∧
    (∀ e, d.add_variable code data = .error e → e = .InvalidCodeLength) ∧
    (code.length = 2 →
      ∃ d1, d.add_variable code data = .ok d1 ∧
        map_find d1.variables_ code = some data ∧
        (∀ c, c ≠ code → map_find d1.variables_ c = map_find d.variables_ c) ∧
        d1.frame_data_ = d.frame_data_ ∧ d1.num_frames_ = d.num_frames_ ∧
        d1.num_channels_ = d.num_channels_ ∧ d1.step_time_ = d.step_time_ ∧
        d1.created_ = d.created_ ∧ d1.version_minor_ = d.version_minor_) := by
  refine ⟨?_, ?_, ?_⟩
  · unfold FSEQv2.add_variable
    by_cases h : code.length = 2
    · simp [h, CODE_LENGTH]
    · simp [h, CODE_LENGTH]
  · intro e he
    unfold FSEQv2.add_variable at he
    split at he
    · cases he; rfl
    · cases he
  · intro h
    refine ⟨{ d with variables_ := map_assign d.variables_ code data }, ?_,
      map_find_assign_same _ _ _, fun c hc => map_find_assign_other _ _ _ _ hc,
      rfl, rfl, rfl, rfl, rfl, rfl⟩
    simp [FSEQv2.add_variable, h, CODE_LENGTH]

/-- The test document: `add_variable("sp", "a")` overwrites `sp` and keeps `mf`. -/
theorem add_variable_spec_witness :
    ∃ d1, dummy.add_variable [115, 112] [97] = .ok d1 ∧
      map_find d1.variables_ [115, 112] = some [97] ∧
      map_find d1.variables_ [109, 102] = map_find dummy.variables_ [109, 102] := by
  obtain ⟨d1, h1, h2, h3, _⟩ := (add_variable_spec dummy [115, 112] [97]).2.2 (by decide)
  exact ⟨d1, h1, h2, h3 [109, 102] (by decide)⟩

/-! ### C17: serialising one record -/

/-- C17. The call `serialize_fseq_variable(code, data)` fails with `InvalidCodeLength` if `code` is
not 2 bytes long; otherwise it fails with `DataTooLarge` exactly when `data` has more than 65531
bytes; otherwise it returns the little-endian `uint16_t` `4 + len(data)`, the 2 code bytes and
the data bytes, `4 + len(data)` bytes in all. -/
theorem serialize_fseq_variable_spec (code data : List Byte) :
    (code.length ≠ 2 → serialize_fseq_variable code data = .error .InvalidCodeLength) ∧
    (code.length = 2 →
      (serialize_fseq_variable code data = .error .DataTooLarge ↔ 65531 < data.length)) ∧
    (code.length = 2 → data.length ≤ 65531 →
      serialize_fseq_variable code data = .ok (le16_bytes (4 + data.length) ++ code ++ data) ∧
      (le16_bytes (4 + data.length) ++ code ++ data).length = 4 + data.length ∧
      read_le16 (le16_bytes (4 + data.length) ++ code ++ data) 0 = 4 + data.length ∧
      (le16_bytes (4 + data.length) ++ code ++ data).drop 2 = code ++ data) := by
  refine ⟨?_, ?_, ?_⟩
  · intro h
    simp [serialize_fseq_variable, h, CODE_LENGTH]
  · intro h
    constructor
    · intro he
      by_contra hle
      rw [serialize_fseq_variable_ok code data h (by omega)] at he
      cases he
    · exact serialize_fseq_variable_too_large code data h
  · intro h hd
    refine ⟨serialize_fseq_variable_ok code data h hd, ?_, ?_, ?_⟩
    · simp [le16_bytes, h]; omega
    · rw [List.append_assoc]
      exact read_le16_le16_bytes _ _ (by omega)
    · simp [le16_bytes]

/-- Data of exactly 65531 bytes is accepted with size field 65535 (bytes `ff ff`). -/
theorem serialize_fseq_variable_spec_witness :
    serialize_fseq_variable [97, 98] (List.replicate 65531 0) =
      .ok (le16_bytes (4 + (List.replicate 65531 (0 : Byte)).length) ++ [97, 98]
        ++ List.replicate 65531 0) ∧
    le16_bytes (4 + (List.replicate 65531 (0 : Byte)).length) = [255, 255] := by
  have hl : (List.replicate 65531 (0 : Byte)).length = 65531 := List.length_replicate _ _
  refine ⟨((serialize_fseq_variable_spec [97, 98] (List.replicate 65531 0)).2.2 rfl
    (by rw [hl])).1, ?_⟩
  rw [hl]
  decide

/-! ### C18: record round trip -/

/-- C18. For every 2-byte code, every data of at most 65531 bytes and every suffix,
serialising the record succeeds and parsing the serialised bytes followed by the suffix
returns the record with size `4 + len(data)`, that code and that data. -/
theorem record_roundtrip (code data suffix : List Byte) (hc : code.length = 2)
    (hd : data.length ≤ 65531) :
    ∃ bytes, serialize_fseq_variable code data = .ok bytes ∧
      parse_fseq_variable (bytes ++ suffix) =
        .ok { size := 4 + data.length, code := code, data := data } :=
  ⟨_, serialize_fseq_variable_ok code data hc hd, parse_fseq_variable_record code data suffix hc hd⟩

/-- The record `mf` of the test, followed by the record `sp`. -/
theorem record_roundtrip_witness :
    ∃ bytes, serialize_fseq_variable [109, 102] (var_mf.drop 4) = .ok bytes ∧
      parse_fseq_variable (bytes ++ var_sp) =
        .ok { size := 4 + (var_mf.drop 4).length, code := [109, 102], data := var_mf.drop 4 } :=
  record_roundtrip [109, 102] (var_mf.drop 4) var_sp (by decide) (by decide)

/-! ### C19: parsing one record -/

/-- The record `parse_fseq_variable` returns without reading any field. -/
theorem parse_fseq_variable_short (raw : List Byte) (h : raw.length < 4) :
    parse_fseq_variable raw = .ok { size := 0, code := [], data := [] } := by
  unfold parse_fseq_variable
  rw [if_pos (by simpa [CODE_LENGTH] using h)]

theorem parse_fseq_variable_zero (raw : List Byte) (h : 4 ≤ raw.length)
    (hz : read_le16 raw 0 = 0) :
    parse_fseq_variable raw = .ok { size := 0, code := [], data := [] } := by
  unfold parse_fseq_variable
  rw [if_neg (by simp [CODE_LENGTH]; omega)]
  simp only
  rw [span_subspan_rest _ _ (by omega)]
  simp only [hz, if_true]

/-- The outcome of `parse_fseq_variable` on a buffer of at least 4 bytes with a declared size
other than 0. -/
theorem parse_fseq_variable_nonzero (raw : List Byte) (h : 4 ≤ raw.length)
    (hz : read_le16 raw 0 ≠ 0) :
    parse_fseq_variable raw =
      if (raw.drop 4).length < to_size_t ((read_le16 raw 0 : Int) - 4) then
        .error .TruncatedRecord
      else .ok { size := read_le16 raw 0, code := (raw.drop 2).take 2,
                 data := (raw.drop 4).take (to_size_t ((read_le16 raw 0 : Int) - 4)) } := by
  unfold parse_fseq_variable
  rw [if_neg (by simp [CODE_LENGTH]; omega)]
  simp only
  rw [span_subspan_rest _ _ (by omega)]
  simp only [hz, if_false]
  rw [span_subspan_rest _ _ (by simp [CODE_LENGTH]; omega)]
  simp only [List.drop_drop, CODE_LENGTH]

theorem to_size_t_small_negative (s : Nat) (h : s < 4) :
    to_size_t ((s : Int) - 4) = 2 ^ 64 - 4 + s := by
  unfold to_size_t
  omega

/-- C19. For every buffer (its size a `std::size_t`): `parse_fseq_variable` returns the
zero-size sentinel when fewer than 4 bytes remain or the little-endian `uint16_t` at the start
is 0; otherwise it fails with `TruncatedRecord` when fewer bytes remain than the declared size,
and also when the declared size is 1, 2 or 3; otherwise, that is when the declared size is at
least 4 and at most the length of the buffer, it returns the record with the declared size, the
2 bytes after the size field as code and the following `size - 4` bytes as data; and every
non-sentinel record it returns is of that form and satisfies
`size = 4 + len(data) <= len(buffer)`. -/
theorem parse_fseq_variable_spec (raw : List Byte) (hsize : raw.length < 2 ^ 64) :
    (raw.length < 4 → parse_fseq_variable raw = .ok { size := 0, code := [], data := [] }) ∧
    (4 ≤ raw.length → read_le16 raw 0 = 0 →
      parse_fseq_variable raw = .ok { size := 0, code := [], data := [] }) ∧
    (4 ≤ raw.length → read_le16 raw 0 ≠ 0 → raw.length < read_le16 raw 0 →
      parse_fseq_variable raw = .error .TruncatedRecord) ∧
    (4 ≤ raw.length → read_le16 raw 0 ≠ 0 → read_le16 raw 0 < 4 →
      parse_fseq_variable raw = .error .TruncatedRecord) ∧
    (4 ≤ read_le16 raw 0 → read_le16 raw 0 ≤ raw.length →
      parse_fseq_variable raw =
        .ok { size := read_le16 raw 0, code := (raw.drop 2).take 2,
              data := (raw.drop 4).take (read_le16 raw 0 - 4) } ∧
      ((raw.drop 2).take 2).length = 2 ∧
      ((raw.drop 4).take (read_le16 raw 0 - 4)).length = read_le16 raw 0 - 4) ∧
    (∀ var, parse_fseq_variable raw = .ok var → var.size ≠ 0 →
      var.size = read_le16 raw 0 ∧ var.code.length = 2 ∧ var.code = (raw.drop 2).take 2 ∧
      var.data = (raw.drop 4).take (var.size - 4) ∧ var.size = 4 + var.data.length ∧
      var.size ≤ raw.length) := by
  refine ⟨parse_fseq_variable_short raw, parse_fseq_variable_zero raw, ?_, ?_, ?_, ?_⟩
  · intro h hz hlt
    rw [parse_fseq_variable_nonzero raw h hz, if_pos]
    by_cases h4 : read_le16 raw 0 < 4
    · rw [to_size_t_small_negative _ h4, List.length_drop]; omega
    · have : ((read_le16 raw 0 : Int) - 4) = ((read_le16 raw 0 - 4 : Nat) : Int) := by omega
      rw [this, to_size_t_of_nat _ (by have := read_le16_lt raw 0; omega), List.length_drop]
      omega
  · intro h hz h4
    rw [parse_fseq_variable_nonzero raw h hz, if_pos]
    rw [to_size_t_small_negative _ h4, List.length_drop]; omega
  · intro h4 hle
    have hc : ((read_le16 raw 0 : Int) - 4) = ((read_le16 raw 0 - 4 : Nat) : Int) := by omega
    have hts : to_size_t ((read_le16 raw 0 : Int) - 4) = read_le16 raw 0 - 4 := by
      rw [hc]
      exact to_size_t_of_nat _ (by have := read_le16_lt raw 0; omega)
    refine ⟨?_, ?_, ?_⟩
    · rw [parse_fseq_variable_nonzero raw (by omega) (by omega), hts, if_neg]
      rw [List.length_drop]; omega
    · simp only [List.length_take, List.length_drop]; omega
    · simp only [List.length_take, List.length_drop]; omega
  · intro var hv hs
    by_cases h : raw.length < 4
    · rw [parse_fseq_variable_short raw h] at hv
      cases hv; exact absurd rfl hs
    · have h4 : 4 ≤ raw.length := by omega
      by_cases hz : read_le16 raw 0 = 0
      · rw [parse_fseq_variable_zero raw h4 hz] at hv
        cases hv; exact absurd rfl hs
      · rw [parse_fseq_variable_nonzero raw h4 hz] at hv
        split at hv
        · cases hv
        · rename_i hnot
          cases hv
          by_cases hsm : read_le16 raw 0 < 4
          · exfalso
            rw [to_size_t_small_negative _ hsm, List.length_drop] at hnot
            omega
          · have hc : ((read_le16 raw 0 : Int) - 4) = ((read_le16 raw 0 - 4 : Nat) : Int) := by
              omega
            have hts : to_size_t ((read_le16 raw 0 : Int) - 4) = read_le16 raw 0 - 4 := by
              rw [hc]
              exact to_size_t_of_nat _ (by have := read_le16_lt raw 0; omega)
            rw [hts] at hnot ⊢
            rw [List.length_drop] at hnot
            refine ⟨rfl, ?_, rfl, rfl, ?_, ?_⟩
            · simp only [List.length_take, List.length_drop]; omega
            · simp only [List.length_take, List.length_drop]; omega
            · show read_le16 raw 0 ≤ raw.length
              omega

/-- The record `mf` of the test, followed by the record `sp`: the declared size 20 is between 4
and the 42 bytes of the buffer, and the record `mf` is returned. -/
theorem parse_fseq_variable_spec_witness :
    (var_mf ++ var_sp).length < 2 ^ 64 ∧
    4 ≤ read_le16 (var_mf ++ var_sp) 0 ∧
    read_le16 (var_mf ++ var_sp) 0 ≤ (var_mf ++ var_sp).length ∧
    parse_fseq_variable (var_mf ++ var_sp) =
      .ok { size := 20, code := [109, 102], data := var_mf.drop 4 } ∧
    (20 : Nat) = 4 + (var_mf.drop 4).length :=
  ⟨by decide, by decide, by decide,
   ((parse_fseq_variable_spec (var_mf ++ var_sp) (by decide)).2.2.2.2.1
      (by decide) (by decide)).1.trans (by decide),
   ((parse_fseq_variable_spec (var_mf ++ var_sp) (by decide)).2.2.2.2.2
      { size := 20, code := [109, 102], data := var_mf.drop 4 } (by decide) (by decide)).2.2.2.2.1⟩

/-! ### Decoding a region of records -/

/-- A stop point of the variable loop: fewer than 4 bytes, or a zero size field. -/
theorem parse_variables_stop (fuel : Nat) (vars : VarMap) (tail : List Byte)
    (ht : tail.length < 4 ∨ read_le16 tail 0 = 0) (hf : tail.length ≤ fuel) :
    parse_variables fuel vars tail = .ok vars := by
  have hsent : parse_fseq_variable tail = .ok { size := 0, code := [], data := [] } := by
    by_cases h : tail.length < 4
    · exact parse_fseq_variable_short tail h
    · rcases ht with ht | ht
      · exact absurd ht h
      · exact parse_fseq_variable_zero tail (by omega) ht
  cases fuel with
  | zero =>
    have : tail = [] := List.length_eq_zero.mp (by omega)
    subst this
    simp [parse_variables]
  | succ n =>
    unfold parse_variables
    split
    · rfl
    · rw [hsent]
      rfl

theorem parse_variables_region (recs : VarMap) (fuel : Nat) (vars : VarMap) (tail : List Byte)
    (hk : ∀ e ∈ recs, e.1.length = 2) (hd : ∀ e ∈ recs, e.2.length ≤ 65531)
    (ht : tail.length < 4 ∨ read_le16 tail 0 = 0)
    (hf : (encode_records recs ++ tail).length ≤ fuel) :
    parse_variables fuel vars (encode_records recs ++ tail) =
      .ok (recs.foldl (fun acc e => map_assign acc e.1 e.2) vars) := by
  induction recs generalizing fuel vars with
  | nil =>
    simp only [encode_records, List.nil_append, List.foldl_nil]
    exact parse_variables_stop fuel vars tail ht (by simpa [encode_records] using hf)
  | cons x rest ih =>
    obtain ⟨code, data⟩ := x
    have hc : code.length = 2 := hk (code, data) (List.mem_cons_self _ _)
    have hdl : data.length ≤ 65531 := hd (code, data) (List.mem_cons_self _ _)
    have henc : encode_records ((code, data) :: rest) ++ tail =
        le16_bytes (HEADER_LENGTH + data.length) ++ code ++ data ++
          (encode_records rest ++ tail) := by
      simp [encode_records]
    rw [henc] at hf ⊢
    have hlen : (le16_bytes (HEADER_LENGTH + data.length) ++ code ++ data ++
          (encode_records rest ++ tail)).length =
        HEADER_LENGTH + data.length + (encode_records rest ++ tail).length := by
      simp [le16_bytes, hc, HEADER_LENGTH, CODE_LENGTH]; omega
    have h4 : HEADER_LENGTH = 4 := rfl
    cases fuel with
    | zero => rw [hlen] at hf; omega
    | succ f =>
      unfold parse_variables
      have hne : (le16_bytes (HEADER_LENGTH + data.length) ++ code ++ data ++
          (encode_records rest ++ tail)).isEmpty = false := by
        simp [le16_bytes]
      rw [hne]
      simp only [Bool.false_eq_true, if_false]
      rw [parse_fseq_variable_record code data _ hc hdl]
      simp only
      rw [if_neg (by omega)]
      have hsub : span_subspan (le16_bytes (HEADER_LENGTH + data.length) ++ code ++ data ++
          (encode_records rest ++ tail)) (HEADER_LENGTH + data.length)
          dynamic_extent = .ok (encode_records rest ++ tail) := by
        rw [span_subspan_rest _ _ (by rw [hlen]; omega)]
        congr 1
        apply List.drop_left'
        simp [le16_bytes, hc, HEADER_LENGTH, CODE_LENGTH]; omega
      rw [hsub]
      simp only [List.foldl_cons]
      apply ih
      · exact fun e he => hk e (List.mem_cons_of_mem _ he)
      · exact fun e he => hd e (List.mem_cons_of_mem _ he)
      · rw [hlen] at hf
        omega

theorem map_find_foldl_assign (recs : VarMap) (m : VarMap) (c : List Byte) :
    map_find (recs.foldl (fun acc e => map_assign acc e.1 e.2) m) c =
      match last_record_data recs c with
      | some data => some data
      | none => map_find m c := by
  induction recs generalizing m with
  | nil => rfl
  | cons x rest ih =>
    obtain ⟨k, v⟩ := x
    simp only [List.foldl_cons, last_record_data]
    rw [ih]
    cases hl : last_record_data rest c with
    | some data => rfl
    | none =>
      simp only
      by_cases hk : k = c
      · subst hk
        simp [map_find_assign_same]
      · simp only [hk, if_false]
        exact map_find_assign_other _ _ _ _ (Ne.symm hk)

theorem last_record_data_isSome (recs : VarMap) (c : List Byte) :
    (∃ data, last_record_data recs c = some data) ↔ ∃ e ∈ recs, e.1 = c := by
  induction recs with
  | nil => simp [last_record_data]
  | cons x rest ih =>
    obtain ⟨k, v⟩ := x
    simp only [last_record_data, List.mem_cons]
    cases hl : last_record_data rest c with
    | some data =>
      rw [hl] at ih
      obtain ⟨e, he, hec⟩ := ih.mp ⟨data, rfl⟩
      exact ⟨fun _ => ⟨e, Or.inr he, hec⟩, fun _ => ⟨data, rfl⟩⟩
    | none =>
      rw [hl] at ih
      simp only
      by_cases hk : k = c
      · simp only [hk, if_true]
        exact ⟨fun _ => ⟨(c, v), Or.inl rfl, rfl⟩, fun _ => ⟨v, rfl⟩⟩
      · simp only [hk, if_false]
        constructor
        · rintro ⟨data, h⟩
          cases h
        · rintro ⟨e, he | he, hec⟩
          · rw [he] at hec
            exact absurd hec hk
          · obtain ⟨data, h2⟩ := ih.mpr ⟨e, he, hec⟩
            cases h2

/-! ### C20: last write wins -/

/-- C20. For every region that consists of well-formed records (2-byte code, at most 65531
data bytes) followed by a stop point (the end of the region, fewer than 4 remaining bytes, or
a zero size field followed by anything), decoding succeeds; the mapping holds exactly the codes
of those records, each with the data of the last record carrying it; whatever follows a zero
size field is ignored. -/
theorem decode_last_write_wins (recs : VarMap) (tail : List Byte)
    (hk : ∀ e ∈ recs, e.1.length = 2) (hd : ∀ e ∈ recs, e.2.length ≤ 65531)
    (ht : tail.length < 4 ∨ read_le16 tail 0 = 0) :
    ∃ m, decode_variables (encode_records recs ++ tail) = .ok m ∧
      decode_variables (encode_records recs) = .ok m ∧
      (∀ c, map_find m c = last_record_data recs c) ∧
      (∀ c, (∃ data, map_find m c = some data) ↔ ∃ e ∈ recs, e.1 = c) := by
  refine ⟨recs.foldl (fun acc e => map_assign acc e.1 e.2) [], ?_, ?_, ?_, ?_⟩
  · exact parse_variables_region recs _ [] tail hk hd ht (Nat.le_refl _)
  · have := parse_variables_region recs (encode_records recs).length [] [] hk hd
      (Or.inl (by decide)) (by simp)
    simpa [decode_variables] using this
  · intro c
    rw [map_find_foldl_assign]
    cases last_record_data recs c <;> rfl
  · intro c
    rw [map_find_foldl_assign]
    have key := last_record_data_isSome recs c
    cases hl : last_record_data recs c with
    | some data =>
      rw [hl] at key
      exact ⟨fun _ => key.mp ⟨data, rfl⟩, fun _ => ⟨data, rfl⟩⟩
    | none =>
      rw [hl] at key
      constructor
      · rintro ⟨data, h⟩
        cases h
      · intro h
        obtain ⟨data, h2⟩ := key.mpr h
        cases h2

/-- A region with the records `ab = 1`, `cd = 2`, `ab = 3`, a zero size field and a further
record `ef`: the mapping holds `ab = 3` and no `ef`. -/
theorem decode_last_write_wins_witness :
    ∃ m, decode_variables (encode_records [([97, 98], [1]), ([99, 100], [2]), ([97, 98], [3])]
        ++ [0, 0, 4, 0, 101, 102]) = .ok m ∧
      map_find m [97, 98] = some [3] ∧ map_find m [101, 102] = none := by
  obtain ⟨m, h1, _, h3, _⟩ := decode_last_write_wins
    [([97, 98], [1]), ([99, 100], [2]), ([97, 98], [3])] [0, 0, 4, 0, 101, 102]
    (by decide) (by decide) (by decide)
  exact ⟨m, h1, (h3 _).trans (by decide), (h3 _).trans (by decide)⟩

/-! ### Reachable documents -/

theorem to_int64_range (n : Nat) : -(2 ^ 63) ≤ to_int64 n ∧ to_int64 n < 2 ^ 63 := by
  unfold to_int64
  have h : n % 2 ^ 64 < 2 ^ 64 := Nat.mod_lt _ (by norm_num)
  split
  · rename_i h1
    constructor
    · have : (0 : Int) ≤ ((n % 2 ^ 64 : Nat) : Int) := Int.natCast_nonneg _
      omega
    · exact_mod_cast h1
  · rename_i h1
    have h2 : (2 : Int) ^ 63 ≤ ((n % 2 ^ 64 : Nat) : Int) := by
      have : 2 ^ 63 ≤ n % 2 ^ 64 := by omega
      exact_mod_cast this
    have h3 : ((n % 2 ^ 64 : Nat) : Int) < 2 ^ 64 := by exact_mod_cast h
    constructor <;> omega

/-- Every reachable document has its members in the ranges of their types, a step time of at
most 255 ms, and 2-byte variable codes in ascending order. -/
theorem reachable_invariant (d : FSEQv2) (hr : d.Reachable) :
    d.version_minor_ < 2 ^ 8 ∧ d.num_channels_ < 2 ^ 32 ∧ d.num_frames_ < 2 ^ 32 ∧
    -(2 ^ 63) ≤ d.step_time_ ∧ d.step_time_ ≤ 255 ∧
    -(2 ^ 63) ≤ d.created_ ∧ d.created_ < 2 ^ 63 ∧
    (∀ e ∈ d.variables_, e.1.length = 2) ∧ VarMap.Sorted d.variables_ := by
  induction hr with
  | create nc step now d hnc hstep hnow1 hnow2 h =>
    obtain ⟨hd, h255⟩ := create_ok nc step now d h
    subst hd
    exact ⟨by norm_num, hnc, by norm_num, hstep, h255, hnow1, hnow2,
      fun e he => (by cases he), List.Pairwise.nil⟩
  | parse contents d h =>
    obtain ⟨_, hvm, hnc, hnf, hst, hcr, _, _, _, _, hk, hs, _⟩ := parse_from__decodes contents d h
    have hb := byte_at_lt contents 18
    have hr := to_int64_range (read_le64 contents 24)
    refine ⟨by rw [hvm]; exact byte_at_lt _ _, by rw [hnc]; exact read_le32_lt _ _,
      by rw [hnf]; exact read_le32_lt _ _, ?_, ?_, by rw [hcr]; exact hr.1,
      by rw [hcr]; exact hr.2, hk, hs⟩
    · rw [hst]; omega
    · rw [hst]; omega
  | mutate d d1 m _ h ih =>
    obtain ⟨hvm, hnc, hnf, hs1, hs2, hc1, hc2, hk, hs⟩ := ih
    cases m with
    | add_variable code value =>
      simp only [FSEQv2.mutate, FSEQv2.add_variable] at h
      split at h
      · cases h
      · rename_i hc
        cases h
        refine ⟨hvm, hnc, hnf, hs1, hs2, hc1, hc2, ?_, map_assign_sorted _ _ _ hs⟩
        intro e he
        rcases map_assign_keys _ _ _ e he with h1 | ⟨e', he', h1⟩
        · rw [h1]; simpa [CODE_LENGTH] using hc
        · rw [← h1]; exact hk e' he'
    | add_frame frame_data =>
      simp only [FSEQv2.mutate, FSEQv2.add_frame] at h
      split at h
      · cases h
      · cases h
        exact ⟨hvm, hnc, Nat.mod_lt _ (by norm_num), hs1, hs2, hc1, hc2, hk, hs⟩

/-! ### The bytes of a serialised document -/

theorem encode_records_eq_flatten (m : VarMap) :
    encode_records m =
      (m.map (fun e => le16_bytes (4 + e.2.length) ++ e.1 ++ e.2)).flatten := by
  induction m with
  | nil => rfl
  | cons x rest ih =>
    obtain ⟨code, data⟩ := x
    simp only [encode_records, List.map_cons, List.flatten_cons, ih]
    rfl

/-- The output of a successful `serialize`: the header built for the padded block, the records
followed by fewer than 4 zero bytes, and the frame store. -/
theorem serialize_ok_eq (d : FSEQv2) (out : List Byte) (h : d.serialize = .ok out) :
    (∀ e ∈ d.variables_, e.1.length = 2) ∧ (∀ e ∈ d.variables_, e.2.length ≤ 65531) ∧
    ∃ pad, pad < 4 ∧
      (encode_records d.variables_ ++ List.replicate pad 0).length % 4 = 0 ∧
      32 + (encode_records d.variables_ ++ List.replicate pad 0).length ≤ 65535 ∧
      out = (serialize_header d (encode_records d.variables_ ++ List.replicate pad 0).length).bytes
        ++ (encode_records d.variables_ ++ List.replicate pad 0) ++ d.frame_data_ := by
  cases hsv : serialize_variables d.variables_ [] with
  | error e => rw [serialize_of_error d e hsv] at h; cases h
  | ok block =>
    obtain ⟨hk, hd⟩ := serialize_variables_ok_inv _ _ _ hsv
    have hblock := serialize_variables_ok d.variables_ [] hk hd
    rw [List.nil_append] at hblock
    rw [serialize_of_block d _ hblock] at h
    split at h
    · cases h
    · rename_i hsize
      cases h
      refine ⟨hk, hd, (4 - (encode_records d.variables_).length % 4) % 4, by omega, ?_, ?_, ?_⟩
      · rw [← pad_block_eq, pad_block_length]
        exact padded_length_mod _
      · rw [← pad_block_eq]
        simp only [HEADER_SIZE] at hsize
        omega
      · rw [← pad_block_eq]

/-! ### C11: add_frame -/

/-- What `add_frame` does on every document: it fails, with `ChannelCountMismatch` and nothing
else, exactly when the length of `bytes` differs from the channel count; on success the frame
count is incremented in 32 bits, the store is the old store followed by `bytes`, and every
other member is unchanged.  When the frame count is below `2^32 - 1` it increases by exactly
one; when moreover the store held `channel_count * frame_count` bytes, the new last frame reads
back `bytes` channel by channel. -/
theorem add_frame_effect (d : FSEQv2) (bytes : List Byte) :
    (d.add_frame bytes = .error .ChannelCountMismatch ↔ bytes.length ≠ d.num_channels_) ∧
    (∀ e, d.add_frame bytes = .error e → e = .ChannelCountMismatch) ∧
    (bytes.length = d.num_channels_ →
      ∃ d1, d.add_frame bytes = .ok d1 ∧
        d1.num_frames_ = (d.num_frames_ + 1) % 2 ^ 32 ∧
        d1.frame_data_ = d.frame_data_ ++ bytes ∧
        d1.num_channels_ = d.num_channels_ ∧ d1.step_time_ = d.step_time_ ∧
        d1.created_ = d.created_ ∧ d1.version_minor_ = d.version_minor_ ∧
        d1.variables_ = d.variables_ ∧
        (d.num_frames_ + 1 < 2 ^ 32 → d1.num_frames_ = d.num_frames_ + 1) ∧
        (d.num_frames_ + 1 < 2 ^ 32 → d.num_channels_ < 2 ^ 32 →
          d.frame_data_.length = d.num_channels_ * d.num_frames_ →
          d1.frame d.num_frames_ = some ⟨d.num_frames_⟩ ∧
          ∀ c, c < d.num_channels_ →
            ∃ b, bytes.get? c = some b ∧
              Frame.channel_data d1 ⟨d.num_frames_⟩ c = .ok b)) := by
  refine ⟨?_, ?_, ?_⟩
  · unfold FSEQv2.add_frame
    by_cases h : bytes.length = d.num_channels_
    · simp [h]
    · simp [h]
  · intro e he
    unfold FSEQv2.add_frame at he
    split at he
    · cases he; rfl
    · cases he
  · intro h
    refine ⟨{ d with num_frames_ := (d.num_frames_ + 1) % 2 ^ 32
                     frame_data_ := d.frame_data_ ++ bytes }, ?_, rfl, rfl, rfl, rfl, rfl, rfl,
      rfl, ?_, ?_⟩
    · simp [FSEQv2.add_frame, h]
    · intro hlt
      exact Nat.mod_eq_of_lt hlt
    · intro hlt hnc hinv
      have hnf : (d.num_frames_ + 1) % 2 ^ 32 = d.num_frames_ + 1 := Nat.mod_eq_of_lt hlt
      constructor
      · apply frame_ok
        show d.num_frames_ < (d.num_frames_ + 1) % 2 ^ 32
        omega
      · intro c hc
        have hcb : c < bytes.length := by omega
        refine ⟨bytes.get ⟨c, hcb⟩, List.get?_eq_get hcb, ?_⟩
        rw [channel_data_ok_iff]
        show (d.frame_data_ ++ bytes).get?
          (((d.num_frames_ * d.num_channels_) % 2 ^ 64 + c) % 2 ^ 64) = _
        have hprod : d.num_frames_ * d.num_channels_ + c < 2 ^ 64 := by
          have : d.num_frames_ * d.num_channels_ ≤ 4294967295 * 4294967295 :=
            Nat.mul_le_mul (by omega) (by omega)
          omega
        rw [Nat.mod_eq_of_lt (by omega : d.num_frames_ * d.num_channels_ < 2 ^ 64),
          Nat.mod_eq_of_lt hprod]
        have hlen : d.frame_data_.length = d.num_frames_ * d.num_channels_ := by
          rw [hinv, Nat.mul_comm]
        rw [← hlen]
        rw [List.get?_eq_getElem?, List.getElem?_append_right (by omega)]
        simp only [Nat.add_sub_cancel_left]
        rw [← List.get?_eq_getElem?]
        exact List.get?_eq_get hcb

/-- C11 (evaluation of the code). On the document parsed from `max_frames_show` (0 channels,
4294967295 frames) `add_frame({})` succeeds and the frame count becomes 0, not 4294967296; on
the document parsed from `wrapped_pair_show` (2 channels, 2147483648 frames, empty store)
`add_frame({1, 2})` succeeds and channel 0 of the frame just added cannot be read. -/
theorem add_frame_wraps_frame_count :
    FSEQv2.parse_from_ max_frames_show = .ok max_frames_doc ∧
    max_frames_doc.add_frame [] = .ok { max_frames_doc with num_frames_ := 0 } ∧
    FSEQv2.parse_from_ wrapped_pair_show = .ok wrapped_pair_doc ∧
    wrapped_pair_doc.add_frame [1, 2] =
      .ok { wrapped_pair_doc with num_frames_ := 2147483649, frame_data_ := [1, 2] } ∧
    FSEQv2.frame { wrapped_pair_doc with num_frames_ := 2147483649, frame_data_ := [1, 2] }
      2147483648 = some ⟨2147483648⟩ ∧
    Frame.channel_data { wrapped_pair_doc with num_frames_ := 2147483649,
                                               frame_data_ := [1, 2] } ⟨2147483648⟩ 0 =
      .error .OutOfRange := by
  decide

/-- The header fields of a serialised reachable document, read back from the output. -/
theorem serialize_header_fields (d : FSEQv2) (out : List Byte) (hr : d.Reachable)
    (h : d.serialize = .ok out) :
    32 ≤ out.length ∧
    out.take 4 = PSEQ ∧
    out.drop (read_le16 out 4) = d.frame_data_ ∧
    byte_at out 6 = d.version_minor_ ∧
    byte_at out 7 = 2 ∧
    read_le16 out 8 = 32 ∧
    read_le32 out 10 = d.num_channels_ ∧
    read_le32 out 14 = d.num_frames_ ∧
    byte_at out 18 = to_size_t d.step_time_ % 2 ^ 8 ∧
    (0 ≤ d.step_time_ → (byte_at out 18 : Int) = d.step_time_) ∧
    byte_at out 19 = 0 ∧ byte_at out 20 = 0 ∧ byte_at out 21 = 0 ∧ byte_at out 22 = 0 ∧
    byte_at out 23 = 0 ∧
    read_le64 out 24 = to_size_t d.created_ ∧
    (0 ≤ d.created_ → (read_le64 out 24 : Int) = d.created_) ∧
    (∃ hd, FSEQv2_Header.ofSpan (out.take 32) = .ok hd) := by
  obtain ⟨hvm, hnc, hnf, hs1, hs2, hc1, hc2, hk, hs⟩ := reachable_invariant d hr
  obtain ⟨_, _, pad, hpad, hmod, hle, hout⟩ := serialize_ok_eq d out h
  have hoff : out.drop (read_le16 out 4) = d.frame_data_ := by
    have h4 : read_le16 out 4 = HEADER_SIZE +
        (encode_records d.variables_ ++ List.replicate pad 0).length := by
      rw [hout, List.append_assoc]
      exact read_le16_serialize_header d _ _ (by simp only [HEADER_SIZE]; omega)
    rw [h4]
    conv_lhs => rw [hout]
    apply List.drop_left'
    rw [List.length_append, serialize_header_bytes_length]
    rfl
  generalize hL : (encode_records d.variables_ ++ List.replicate pad 0).length = L at hout hle
  have hHlen := serialize_header_bytes_length d L
  have htake : out.take 32 = (serialize_header d L).bytes := by
    rw [hout, List.append_assoc, List.take_left' hHlen]
  have hm : FSEQv2_Header.memcpy (out.take 32) = serialize_header d L := by
    rw [htake]
    exact memcpy_serialize_header d L hvm hnc hnf
  have hlen : 32 ≤ out.length := by
    rw [hout]; simp only [List.length_append, hHlen]; omega
  have b6 : byte_at (out.take 32) 6 = d.version_minor_ :=
    congrArg FSEQv2_Header.version_minor hm
  have b7 : byte_at (out.take 32) 7 = 2 := congrArg FSEQv2_Header.version_major hm
  have b8 : read_le16 (out.take 32) 8 = 32 := congrArg FSEQv2_Header.var_data_offset hm
  have b10 : read_le32 (out.take 32) 10 = d.num_channels_ :=
    congrArg FSEQv2_Header.channel_count hm
  have b14 : read_le32 (out.take 32) 14 = d.num_frames_ :=
    congrArg FSEQv2_Header.frame_count hm
  have b18 : byte_at (out.take 32) 18 = to_size_t d.step_time_ % 2 ^ 8 :=
    congrArg FSEQv2_Header.step_time hm
  have b19 : byte_at (out.take 32) 19 = 0 := congrArg FSEQv2_Header.flags hm
  have b20a : byte_at (out.take 32) 20 % 16 = 0 :=
    congrArg FSEQv2_Header.compression_block_count_upper_bits hm
  have b20b : byte_at (out.take 32) 20 / 16 = 0 :=
    congrArg FSEQv2_Header.compression_type hm
  have b21 : byte_at (out.take 32) 21 = 0 :=
    congrArg FSEQv2_Header.compression_block_count_lower_bits hm
  have b22 : byte_at (out.take 32) 22 = 0 := congrArg FSEQv2_Header.sparse_range_count hm
  have b23 : byte_at (out.take 32) 23 = 0 := congrArg FSEQv2_Header.reserved hm
  have b24 : read_le64 (out.take 32) 24 = to_size_t d.created_ :=
    congrArg FSEQv2_Header.timestamp_us hm
  have bid : (out.take 32).take 4 = PSEQ := congrArg FSEQv2_Header.identifier hm
  rw [byte_at_take out 32 _ (by decide)] at b6 b7 b18 b19 b20a b20b b21 b22 b23
  rw [read_le16_take out 32 _ (by decide)] at b8
  rw [read_le32_take out 32 _ (by decide)] at b10 b14
  rw [read_le64_take out 32 _ (by decide)] at b24
  rw [List.take_take] at bid
  refine ⟨hlen, bid, hoff, b6, b7, b8, b10, b14, b18, ?_, b19, by omega, b21, b22, b23, b24,
    ?_, ?_⟩
  · intro h0
    rw [b18]
    push_cast
    rw [to_size_t_cast]
    omega
  · intro h0
    rw [b24, to_size_t_cast]
    omega
  · exact ⟨_, by rw [htake]; exact ofSpan_serialize_header d L hvm hnc hnf⟩

/-! ### C13: the serialised header -/

/-- C13 (evaluation of the code). The document built by `FSEQv2(1, -1ms)`, `add_variable("mf",
"a")` and `add_frame({7})` serialises successfully, and byte 18 of the output is 255 although
the step time of the document is -1 ms. -/
theorem serialized_step_byte_of_negative_step :
    negative_step_doc.serialize = .ok negative_step_show ∧
    byte_at negative_step_show 18 = 255 ∧
    negative_step_doc.step_time_ = -1 ∧
    (byte_at negative_step_show 18 : Int) ≠ negative_step_doc.step_time_ := by
  decide

/-! ### C14: layout and alignment of the output -/

/-- C14. For every reachable document on which `serialize()` succeeds, the output is the 32
header bytes, then the variable block, then the frame store; the variable block is the
concatenation of the serialised records of the mapping entries, which are in ascending code
order, followed by fewer than 4 zero bytes, and its length is a multiple of 4; the header
fields hold `variable_data_offset = 32` and `channel_data_offset = 32 + len(block)`; and the
output has `channel_data_offset + len(frame store)` bytes. -/
theorem serialize_layout (d : FSEQv2) (out : List Byte) (hr : d.Reachable)
    (h : d.serialize = .ok out) :
    ∃ header block : List Byte, ∃ pad : Nat,
      out = header ++ block ++ d.frame_data_ ∧
      header.length = 32 ∧
      block = (d.variables_.map (fun e => le16_bytes (4 + e.2.length) ++ e.1 ++ e.2)).flatten
        ++ List.replicate pad 0 ∧
      (∀ e ∈ d.variables_,
        serialize_fseq_variable e.1 e.2 = .ok (le16_bytes (4 + e.2.length) ++ e.1 ++ e.2)) ∧
      List.Pairwise (fun a b => string_lt a.1 b.1 = true) d.variables_ ∧
      pad < 4 ∧ block.length % 4 = 0 ∧
      read_le16 out 8 = 32 ∧
      read_le16 out 4 = 32 + block.length ∧
      out.length = read_le16 out 4 + d.frame_data_.length := by
  obtain ⟨_, _, _, _, _, _, _, _, hs⟩ := reachable_invariant d hr
  obtain ⟨hk, hd, pad, hpad, hmod, hle, hout⟩ := serialize_ok_eq d out h
  obtain ⟨_, _, _, _, _, h8, _⟩ := serialize_header_fields d out hr h
  have hHlen := serialize_header_bytes_length d
    (encode_records d.variables_ ++ List.replicate pad 0).length
  have h4 : read_le16 out 4 = 32 +
      (encode_records d.variables_ ++ List.replicate pad 0).length := by
    rw [hout, List.append_assoc]
    exact read_le16_serialize_header d _ _ (by simp only [HEADER_SIZE]; omega)
  refine ⟨_, encode_records d.variables_ ++ List.replicate pad 0, pad, hout, hHlen, ?_, ?_, hs,
    hpad, hmod, h8, h4, ?_⟩
  · rw [encode_records_eq_flatten]
  · intro e he
    exact serialize_fseq_variable_ok e.1 e.2 (hk e he) (hd e he)
  · rw [h4]
    conv_lhs => rw [hout]
    rw [List.length_append, List.length_append, hHlen]

/-- The test document: its serialisation `dummy_show` has offsets 32 and 76 and 92 bytes. -/
theorem serialize_layout_witness :
    ∃ header block : List Byte, ∃ pad : Nat,
      dummy_show = header ++ block ++ dummy.frame_data_ ∧ header.length = 32 ∧
      pad < 4 ∧ block.length % 4 = 0 ∧ read_le16 dummy_show 8 = 32 ∧
      read_le16 dummy_show 4 = 32 + block.length := by
  obtain ⟨header, block, pad, h1, h2, _, _, _, h6, h7, h8, h9, _⟩ :=
    serialize_layout dummy dummy_show (FSEQv2.Reachable.parse dummy_show dummy (by decide))
      (by decide)
  exact ⟨header, block, pad, h1, h2, h6, h7, h8, h9⟩

/-! ### Frame dumps -/

set_option maxRecDepth 100000 in
/-- The field `{:2x}` of an 8-bit value has 2 characters and is never blank: one hex digit after
a space for values below 16, two hex digits otherwise. -/
theorem format_2x_byte : ∀ v : Fin 256,
    (format_2x v.val).length = 2 ∧ (format_2x v.val).all (fun c => c == ' ') = false ∧
    format_2x v.val = (if v.val < 16 then [' ', Nat.digitChar v.val]
      else [Nat.digitChar (v.val / 16), Nat.digitChar (v.val % 16)]) := by
  decide

/-- Whenever `channel_data(ch)` returns, it returns `channel_value`. -/
theorem channel_data_value (d : FSEQv2) (f : Frame) (ch : Nat) (b : Byte)
    (h : Frame.channel_data d f ch = .ok b) : b = channel_value d f ch := by
  rw [channel_data_ok_iff] at h
  unfold channel_value
  rw [List.getD_eq_getElem?_getD, ← List.get?_eq_getElem?, h]
  rfl

theorem channel_data_readable (d : FSEQv2) (f : Frame) (ch : Nat)
    (hinv : d.frame_data_.length = d.num_channels_ * d.num_frames_)
    (hnc : d.num_channels_ < 2 ^ 32) (hnf : d.num_frames_ < 2 ^ 32)
    (hi : f.idx_ < d.num_frames_) (hch : ch < d.num_channels_) :
    Frame.channel_data d f ch = .ok (channel_value d f ch) := by
  obtain ⟨b, hb, hcd⟩ := channel_data_in_range d f.idx_ ch hinv hnc hnf hi hch
  have hcd1 : Frame.channel_data d f ch = .ok b := hcd
  rw [hcd1, channel_data_value d f ch b hcd1]

theorem dump_slot_length (d : FSEQv2) (f : Frame) (previous : Option (FSEQv2 × Frame))
    (ch : Nat) : (dump_slot d f previous ch).length = 3 := by
  unfold dump_slot
  split
  · simp [(format_2x_byte (channel_value d f ch)).1]
  · split
    · rfl
    · simp [(format_2x_byte (channel_value d f ch)).1]

theorem dump_slot_blank (d : FSEQv2) (f : Frame) (previous : Option (FSEQv2 × Frame))
    (ch : Nat) :
    (dump_slot d f previous ch).all (fun c => c == ' ') = true ↔
      ∃ pd p, previous = some (pd, p) ∧ channel_value d f ch = channel_value pd p ch := by
  unfold dump_slot
  split
  · simp [(format_2x_byte (channel_value d f ch)).2.1]
  · rename_i pd p
    split
    · rename_i heq
      exact ⟨fun _ => ⟨pd, p, rfl, heq⟩, fun _ => rfl⟩
    · rename_i hne
      constructor
      · intro hall
        simp [(format_2x_byte (channel_value d f ch)).2.1] at hall
      · rintro ⟨pd1, p1, hpp, heq⟩
        cases hpp
        exact absurd heq hne

theorem all_flatten_map (l : List Nat) (g : Nat → List Char) (q : Char → Bool) :
    ((l.map g).flatten).all q = true ↔ ∀ x ∈ l, (g x).all q = true := by
  induction l with
  | nil => simp
  | cons a rest ih =>
    simp only [List.map_cons, List.flatten_cons, List.all_append, Bool.and_eq_true, ih,
      List.mem_cons, forall_eq_or_imp]

/-- The loop of `dump` on readable channels: it appends the slots of the channels from `ch` up
to the number of rendered channels, and reports truncation exactly when a limit is given that
is below the channel count. -/
theorem dump_loop_spec (d : FSEQv2) (f : Frame) (n : Nat) (previous : Option (FSEQv2 × Frame))
    (hread : ∀ c, c < d.num_channels_ → Frame.channel_data d f c = .ok (channel_value d f c))
    (hprev : ∀ pd p, previous = some (pd, p) → ∀ c, c < d.num_channels_ →
      Frame.channel_data pd p c = .ok (channel_value pd p c))
    (fuel ch : Nat) (acc : List Char) (hfuel : ch + fuel = d.num_channels_)
    (hch : n = 0 ∨ ch ≤ n) :
    dump_loop d f n previous fuel ch acc =
      .ok (acc ++ ((List.range' ch (rendered_channels n d.num_channels_ - ch)).map
              (dump_slot d f previous)).flatten,
           decide (n ≠ 0 ∧ n < d.num_channels_)) := by
  induction fuel generalizing ch acc with
  | zero =>
    have hr : rendered_channels n d.num_channels_ - ch = 0 := by
      unfold rendered_channels; split <;> omega
    have hd : decide (n ≠ 0 ∧ n < d.num_channels_) = false := by
      rw [decide_eq_false_iff_not]; omega
    simp [dump_loop, hr, hd]
  | succ k ih =>
    unfold dump_loop
    by_cases hbreak : n ≠ 0 ∧ ch ≥ n
    · rw [if_pos hbreak]
      have hr : rendered_channels n d.num_channels_ - ch = 0 := by
        unfold rendered_channels; split <;> omega
      have hd : decide (n ≠ 0 ∧ n < d.num_channels_) = true := by
        rw [decide_eq_true_iff]; omega
      simp [hr, hd]
    · rw [if_neg hbreak]
      have hcn : ch < d.num_channels_ := by omega
      have hr : rendered_channels n d.num_channels_ - ch =
          (rendered_channels n d.num_channels_ - (ch + 1)) + 1 := by
        unfold rendered_channels; split <;> omega
      have hslots : acc ++ ((List.range' ch (rendered_channels n d.num_channels_ - ch)).map
            (dump_slot d f previous)).flatten =
          (acc ++ dump_slot d f previous ch) ++
            ((List.range' (ch + 1) (rendered_channels n d.num_channels_ - (ch + 1))).map
              (dump_slot d f previous)).flatten := by
        rw [hr, List.range'_succ, List.map_cons, List.flatten_cons, List.append_assoc]
      rw [hslots, hread ch hcn]
      simp only
      have hnext := ih (ch + 1) (acc ++ dump_slot d f previous ch) (by omega) (by omega)
      cases hp : previous with
      | none =>
        simp only
        rw [hp] at hnext
        exact hnext
      | some pp =>
        obtain ⟨pd, p⟩ := pp
        simp only
        rw [hprev pd p hp ch hcn]
        simp only
        rw [hp] at hnext
        split
        · rename_i heq
          have : dump_slot d f (some (pd, p)) ch = [' ', ' ', ' '] := by
            simp [dump_slot, heq]
          rw [← this]
          exact hnext
        · rename_i hne
          have : dump_slot d f (some (pd, p)) ch =
              ' ' :: format_2x (channel_value d f ch).val := by
            simp [dump_slot, hne]
          rw [← this]
          exact hnext

/-- The text `dump` returns when every rendered channel is readable. -/
theorem dump_eq (d : FSEQv2) (f : Frame) (n : Nat) (previous : Option (FSEQv2 × Frame))
    (hread : ∀ c, c < d.num_channels_ → Frame.channel_data d f c = .ok (channel_value d f c))
    (hprev : ∀ pd p, previous = some (pd, p) → ∀ c, c < d.num_channels_ →
      Frame.channel_data pd p c = .ok (channel_value pd p c)) :
    Frame.dump d f n previous =
      if (dump_slots d f n previous).all (fun c => c == ' ') then .ok []
      else .ok (format_offset (Frame.offset d f) ++ [' ', '['] ++ dump_slots d f n previous
        ++ (if n ≠ 0 ∧ n < d.num_channels_ then [' ', '.', '.', '.'] else []) ++ [']', '\n']) := by
  unfold Frame.dump
  rw [dump_loop_spec d f n previous hread hprev d.num_channels_ 0 [] (by omega) (by omega)]
  simp only [List.nil_append, Nat.sub_zero, ← List.range_eq_range', decide_eq_true_eq]
  rfl

/-- Suppression on a document whose store holds `channel_count * frame_count` bytes: for views
`f` and `previous` of the document, `dump` raises no error; it returns the empty string exactly
when every rendered channel of `f` has the same value in `previous`; in particular a frame
dumped against itself gives the empty string. -/
theorem dump_suppressed_iff (d : FSEQv2) (i j : Nat) (f p : Frame) (n : Nat)
    (hinv : d.frame_data_.length = d.num_channels_ * d.num_frames_)
    (hnc : d.num_channels_ < 2 ^ 32) (hnf : d.num_frames_ < 2 ^ 32)
    (hf : d.frame i = some f) (hp : d.frame j = some p) :
    (∃ line, Frame.dump d f n (some (d, p)) = .ok line) ∧
    (Frame.dump d f n (some (d, p)) = .ok [] ↔
      ∀ ch, ch < rendered_channels n d.num_channels_ →
        channel_value d f ch = channel_value d p ch) ∧
    Frame.dump d f n (some (d, f)) = .ok [] := by
  have hfi := (frame_some_idx d i f hf).2
  have hpi := (frame_some_idx d j p hp).2
  have hread : ∀ c, c < d.num_channels_ →
      Frame.channel_data d f c = .ok (channel_value d f c) :=
    fun c hc => channel_data_readable d f c hinv hnc hnf hfi hc
  have hprev : ∀ q : Frame, q.idx_ < d.num_frames_ → ∀ pd p1, some (d, q) = some (pd, p1) →
      ∀ c, c < d.num_channels_ → Frame.channel_data pd p1 c = .ok (channel_value pd p1 c) := by
    intro q hq pd p1 hpp c hc
    cases hpp
    exact channel_data_readable d q c hinv hnc hnf hq hc
  have hall : ∀ q : Frame, (dump_slots d f n (some (d, q))).all (fun c => c == ' ') = true ↔
      ∀ ch, ch < rendered_channels n d.num_channels_ →
        channel_value d f ch = channel_value d q ch := by
    intro q
    unfold dump_slots
    rw [all_flatten_map]
    constructor
    · intro h ch hch
      obtain ⟨pd, p1, hpp, hv⟩ := (dump_slot_blank d f _ ch).mp (h ch (List.mem_range.mpr hch))
      cases hpp
      exact hv
    · intro h ch hch
      exact (dump_slot_blank d f _ ch).mpr ⟨d, q, rfl, h ch (List.mem_range.mp hch)⟩
  refine ⟨?_, ?_, ?_⟩
  · rw [dump_eq d f n _ hread (hprev p hpi)]
    split
    · exact ⟨_, rfl⟩
    · exact ⟨_, rfl⟩
  · rw [dump_eq d f n _ hread (hprev p hpi)]
    constructor
    · intro h
      split at h
      · rename_i hb
        exact (hall p).mp hb
      · exfalso
        have := congrArg (fun r => match r with | Except.ok l => l.length | Except.error _ => 0) h
        simp at this
    · intro h
      rw [if_pos ((hall p).mpr h)]
  · rw [dump_eq d f n _ hread (hprev f hfi), if_pos ((hall f).mpr (fun _ _ => rfl))]

/-! ### C15: suppression of a dump -/

/-- C15 (evaluation of the code). In the document parsed from `overflow_show` (65536 channels,
65536 frames, empty store), `frame(0)` is a view, and dumping it against itself as `previous`
does not return the empty string: `channel_data(0)` throws `OutOfRange`. -/
theorem dump_against_itself_throws :
    FSEQv2.parse_from_ overflow_show = .ok overflow_doc ∧
    overflow_doc.frame 0 = some ⟨0⟩ ∧
    Frame.dump overflow_doc ⟨0⟩ 0 (some (overflow_doc, ⟨0⟩)) = .error .OutOfRange ∧
    Frame.dump overflow_doc ⟨0⟩ 1 (some (overflow_doc, ⟨0⟩)) = .error .OutOfRange := by
  decide

/-! ### Frame iteration on reachable documents -/

/-- On every reachable document whose step time is at least `-(2 ^ 31)` ms (every parsed
document, and every constructed one with a step time that is not hugely negative), `k` calls of
`next()` from `frame(0)` yield the view of frame `k` with `offset() = step_time * k` when
`k < frame_count` and none when `k = frame_count`, and `frame(index)` is none for every
`index >= frame_count`. -/
theorem frame_iteration_reachable (d : FSEQv2) (hr : d.Reachable)
    (hstep : -(2 ^ 31) ≤ d.step_time_) (k : Nat) :
    (k < d.num_frames_ →
      d.nth_next k = some ⟨k⟩ ∧ Frame.offset d ⟨k⟩ = d.step_time_ * k) ∧
    (k = d.num_frames_ → d.nth_next k = none) ∧
    (d.num_frames_ ≤ k → d.frame k = none) := by
  obtain ⟨_, _, hnf, _, h255, _⟩ := reachable_invariant d hr
  obtain ⟨h1, h2, h3⟩ := frame_iteration d hnf k
  exact ⟨fun h => ⟨(h1 h).1, (h1 h).2.2 hstep h255⟩, h2, fun h => (h3 h).2⟩

/-- A parsed document has a step time between 0 and 255 ms. -/
theorem parse_from__step_time (b : List Byte) (d : FSEQv2)
    (h : FSEQv2.parse_from_ b = .ok d) : 0 ≤ d.step_time_ ∧ d.step_time_ ≤ 255 := by
  obtain ⟨_, _, _, _, hst, _⟩ := parse_from__decodes b d h
  have hb := byte_at_lt b 18
  rw [hst]
  constructor
  · positivity
  · exact_mod_cast (by omega : byte_at b 18 ≤ 255)

/-! ### Dumps of arbitrary documents -/

theorem rendered_channels_le (n nc : Nat) : rendered_channels n nc ≤ nc := by
  unfold rendered_channels; split <;> omega

/-- The loop of `dump` when every rendered channel is readable (the channels past the limit are
never read): it appends the slots of the channels from `ch` up to the number of rendered
channels, and reports truncation exactly when a limit is given that is below the channel
count. -/
theorem dump_loop_rendered (d : FSEQv2) (f : Frame) (n : Nat)
    (previous : Option (FSEQv2 × Frame))
    (hread : ∀ c, c < rendered_channels n d.num_channels_ →
      Frame.channel_data d f c = .ok (channel_value d f c))
    (hprev : ∀ pd p, previous = some (pd, p) → ∀ c, c < rendered_channels n d.num_channels_ →
      Frame.channel_data pd p c = .ok (channel_value pd p c))
    (fuel ch : Nat) (acc : List Char) (hfuel : ch + fuel = d.num_channels_)
    (hch : n = 0 ∨ ch ≤ n) :
    dump_loop d f n previous fuel ch acc =
      .ok (acc ++ ((List.range' ch (rendered_channels n d.num_channels_ - ch)).map
              (dump_slot d f previous)).flatten,
           decide (n ≠ 0 ∧ n < d.num_channels_)) := by
  induction fuel generalizing ch acc with
  | zero =>
    have hr : rendered_channels n d.num_channels_ - ch = 0 := by
      unfold rendered_channels; split <;> omega
    have hd : decide (n ≠ 0 ∧ n < d.num_channels_) = false := by
      rw [decide_eq_false_iff_not]; omega
    simp [dump_loop, hr, hd]
  | succ k ih =>
    unfold dump_loop
    by_cases hbreak : n ≠ 0 ∧ ch ≥ n
    · rw [if_pos hbreak]
      have hr : rendered_channels n d.num_channels_ - ch = 0 := by
        unfold rendered_channels; split <;> omega
      have hd : decide (n ≠ 0 ∧ n < d.num_channels_) = true := by
        rw [decide_eq_true_iff]; omega
      simp [hr, hd]
    · rw [if_neg hbreak]
      have hcn : ch < rendered_channels n d.num_channels_ := by
        unfold rendered_channels; split <;> omega
      have hr : rendered_channels n d.num_channels_ - ch =
          (rendered_channels n d.num_channels_ - (ch + 1)) + 1 := by omega
      have hslots : acc ++ ((List.range' ch (rendered_channels n d.num_channels_ - ch)).map
            (dump_slot d f previous)).flatten =
          (acc ++ dump_slot d f previous ch) ++
            ((List.range' (ch + 1) (rendered_channels n d.num_channels_ - (ch + 1))).map
              (dump_slot d f previous)).flatten := by
        rw [hr, List.range'_succ, List.map_cons, List.flatten_cons, List.append_assoc]
      rw [hslots, hread ch hcn]
      simp only
      have hnext := ih (ch + 1) (acc ++ dump_slot d f previous ch) (by omega) (by omega)
      cases hp : previous with
      | none =>
        simp only
        rw [hp] at hnext
        exact hnext
      | some pp =>
        obtain ⟨pd, p⟩ := pp
        simp only
        rw [hprev pd p hp ch hcn]
        simp only
        rw [hp] at hnext
        split
        · rename_i heq
          have : dump_slot d f (some (pd, p)) ch = [' ', ' ', ' '] := by
            simp [dump_slot, heq]
          rw [← this]
          exact hnext
        · rename_i hne
          have : dump_slot d f (some (pd, p)) ch =
              ' ' :: format_2x (channel_value d f ch).val := by
            simp [dump_slot, hne]
          rw [← this]
          exact hnext

/-- When the loop of `dump` ends without an exception, it has read every rendered channel from
`ch` on, in the view and in `previous`. -/
theorem dump_loop_reads (d : FSEQv2) (f : Frame) (n : Nat) (previous : Option (FSEQv2 × Frame))
    (fuel ch : Nat) (acc : List Char) (r : List Char × Bool)
    (hfuel : ch + fuel = d.num_channels_) (hch : n = 0 ∨ ch ≤ n)
    (h : dump_loop d f n previous fuel ch acc = .ok r) :
    ∀ c, ch ≤ c → c < rendered_channels n d.num_channels_ →
      Frame.channel_data d f c = .ok (channel_value d f c) ∧
      ∀ pd p, previous = some (pd, p) →
        Frame.channel_data pd p c = .ok (channel_value pd p c) := by
  induction fuel generalizing ch acc with
  | zero =>
    intro c hc1 hc2
    have := rendered_channels_le n d.num_channels_
    omega
  | succ k ih =>
    intro c hc1 hc2
    unfold dump_loop at h
    by_cases hbreak : n ≠ 0 ∧ ch ≥ n
    · exfalso
      unfold rendered_channels at hc2
      split at hc2 <;> omega
    · rw [if_neg hbreak] at h
      split at h
      · cases h
      · rename_i value hv
        have hv1 : Frame.channel_data d f ch = .ok (channel_value d f ch) := by
          rw [hv, channel_data_value d f ch value hv]
        split at h
        · by_cases hcc : c = ch
          · subst hcc
            exact ⟨hv1, fun pd p hp => by cases hp⟩
          · exact ih (ch + 1) _ (by omega) (by omega) h c (by omega) hc2
        · rename_i pd p
          split at h
          · cases h
          · rename_i old ho
            have ho1 : Frame.channel_data pd p ch = .ok (channel_value pd p ch) := by
              rw [ho, channel_data_value pd p ch old ho]
            by_cases hcc : c = ch
            · subst hcc
              refine ⟨hv1, fun pd1 p1 hp => ?_⟩
              cases hp
              exact ho1
            · split at h
              · exact ih (ch + 1) _ (by omega) (by omega) h c (by omega) hc2
              · exact ih (ch + 1) _ (by omega) (by omega) h c (by omega) hc2

/-- The only exception the loop of `dump` lets through is the `std::out_of_range` of
`channel_data`. -/
theorem dump_loop_error_kind (d : FSEQv2) (f : Frame) (n : Nat)
    (previous : Option (FSEQv2 × Frame)) (fuel ch : Nat) (acc : List Char) (e : Error)
    (h : dump_loop d f n previous fuel ch acc = .error e) : e = .OutOfRange := by
  induction fuel generalizing ch acc with
  | zero => unfold dump_loop at h; cases h
  | succ k ih =>
    unfold dump_loop at h
    split at h
    · cases h
    · split at h
      · rename_i e1 he
        cases h
        exact channel_data_error_kind d f ch _ he
      · split at h
        · exact ih _ _ h
        · rename_i pd p
          split at h
          · rename_i e1 he
            cases h
            exact channel_data_error_kind pd p ch _ he
          · split at h
            · exact ih _ _ h
            · exact ih _ _ h

/-- The text `dump` returns when every rendered channel is readable. -/
theorem dump_eq_rendered (d : FSEQv2) (f : Frame) (n : Nat)
    (previous : Option (FSEQv2 × Frame))
    (hread : ∀ c, c < rendered_channels n d.num_channels_ →
      Frame.channel_data d f c = .ok (channel_value d f c))
    (hprev : ∀ pd p, previous = some (pd, p) → ∀ c, c < rendered_channels n d.num_channels_ →
      Frame.channel_data pd p c = .ok (channel_value pd p c)) :
    Frame.dump d f n previous =
      if (dump_slots d f n previous).all (fun c => c == ' ') then .ok []
      else .ok (format_offset (Frame.offset d f) ++ [' ', '['] ++ dump_slots d f n previous
        ++ (if n ≠ 0 ∧ n < d.num_channels_ then [' ', '.', '.', '.'] else []) ++ [']', '\n']) := by
  unfold Frame.dump
  rw [dump_loop_rendered d f n previous hread hprev d.num_channels_ 0 [] (by omega) (by omega)]
  simp only [List.nil_append, Nat.sub_zero, ← List.range_eq_range', decide_eq_true_eq]
  rfl

/-- A dump that returns has read every rendered channel. -/
theorem dump_ok_reads (d : FSEQv2) (f : Frame) (n : Nat) (previous : Option (FSEQv2 × Frame))
    (line : List Char) (h : Frame.dump d f n previous = .ok line) :
    ∀ c, c < rendered_channels n d.num_channels_ →
      Frame.channel_data d f c = .ok (channel_value d f c) ∧
      ∀ pd p, previous = some (pd, p) →
        Frame.channel_data pd p c = .ok (channel_value pd p c) := by
  unfold Frame.dump at h
  split at h
  · cases h
  · rename_i ch_data truncated hloop
    intro c hc
    exact dump_loop_reads d f n previous d.num_channels_ 0 [] _ (by omega) (by omega) hloop c
      (by omega) hc

theorem dump_error_kind (d : FSEQv2) (f : Frame) (n : Nat) (previous : Option (FSEQv2 × Frame))
    (e : Error) (h : Frame.dump d f n previous = .error e) : e = .OutOfRange := by
  unfold Frame.dump at h
  split at h
  · rename_i e1 he
    cases h
    exact dump_loop_error_kind d f n previous _ _ _ _ he
  · split at h <;> cases h

/-- The slots of a dump are all blank exactly when every rendered channel is unchanged from a
given `previous`. -/
theorem dump_slots_blank (d : FSEQv2) (f : Frame) (n : Nat)
    (previous : Option (FSEQv2 × Frame)) :
    (dump_slots d f n previous).all (fun c => c == ' ') = true ↔
      ∀ c, c < rendered_channels n d.num_channels_ →
        ∃ pd p, previous = some (pd, p) ∧ channel_value d f c = channel_value pd p c := by
  unfold dump_slots
  rw [all_flatten_map]
  constructor
  · intro h c hc
    exact (dump_slot_blank d f _ c).mp (h c (List.mem_range.mpr hc))
  · intro h c hc
    exact (dump_slot_blank d f _ c).mpr (h c (List.mem_range.mp hc))

theorem dump_slots_length (d : FSEQv2) (f : Frame) (n : Nat)
    (previous : Option (FSEQv2 × Frame)) :
    (dump_slots d f n previous).length = 3 * rendered_channels n d.num_channels_ := by
  unfold dump_slots
  generalize rendered_channels n d.num_channels_ = k
  induction k with
  | zero => rfl
  | succ m ih =>
    rw [List.range_succ, List.map_append, List.flatten_append, List.length_append, ih]
    simp [dump_slot_length]
    omega

/-! ### C16: truncation of a dump -/

/-- C16 (counterexample). With `max_channels = 0` the test document's frame 0 is dumped with
all 4 channel slots and without truncation marker, although `channel_count = 4 > 0`; and each
slot shows a value below 16 as two spaces and one hex digit, not as two hex digits. -/
theorem dump_with_zero_limit :
    dummy.frame 0 = some ⟨0⟩ ∧ dummy.num_channels_ = 4 ∧
    Frame.dump dummy ⟨0⟩ 0 none = .ok "      0ms [  0  1  2  3]\n".toList ∧
    "      0ms [  0  1  2  3]\n".toList.length = 9 + 2 + 3 * 4 + 2 ∧
    '.' ∉ "      0ms [  0  1  2  3]\n".toList ∧
    Frame.dump dummy ⟨3⟩ 2 none = .ok "     60ms [  c  d ...]\n".toList := by
  decide

/-- C16 (amended). For every frame view of every document, every `max_channels` and every
optional `previous`: a dump that is not suppressed (a non-empty line) is the timestamp field,
` [`, the channel slots, the marker ` ...` when truncated, and `]` with a line feed, and `dump`
returns such a line whenever no rendered channel throws in the view or in `previous` and some
rendered channel is not unchanged from `previous`.  The slots are those of the first
`min(max_channels, channel_count)` channels when `max_channels >= 1` and those of all channels
when `max_channels = 0`; each slot has 3 characters, either 3 spaces (only when `previous` is
given and holds the same value) or a space followed by the value in lower-case hexadecimal in a
field of 2 characters (one digit after a space below 16, else two digits); and the marker is
present exactly when `max_channels >= 1` and `channel_count > max_channels`. -/
theorem dump_line (d : FSEQv2) (f : Frame) (n : Nat) (previous : Option (FSEQv2 × Frame)) :
    (∀ line, Frame.dump d f n previous = .ok line → line ≠ [] →
      line = format_offset (Frame.offset d f) ++ [' ', '[']
          ++ ((List.range (rendered_channels n d.num_channels_)).map
                (dump_slot d f previous)).flatten
          ++ (if n ≠ 0 ∧ n < d.num_channels_ then [' ', '.', '.', '.'] else [])
          ++ [']', '\n'] ∧
      (∀ c, c < rendered_channels n d.num_channels_ →
        Frame.channel_data d f c = .ok (channel_value d f c) ∧
        ∀ pd p, previous = some (pd, p) →
          Frame.channel_data pd p c = .ok (channel_value pd p c)) ∧
      ∃ c, c < rendered_channels n d.num_channels_ ∧
        ∀ pd p, previous = some (pd, p) → channel_value d f c ≠ channel_value pd p c) ∧
    ((∀ c, c < rendered_channels n d.num_channels_ →
        Frame.channel_data d f c ≠ .error .OutOfRange ∧
        ∀ pd p, previous = some (pd, p) → Frame.channel_data pd p c ≠ .error .OutOfRange) →
      (∃ c, c < rendered_channels n d.num_channels_ ∧
        ∀ pd p, previous = some (pd, p) → channel_value d f c ≠ channel_value pd p c) →
      Frame.dump d f n previous =
        .ok (format_offset (Frame.offset d f) ++ [' ', '[']
          ++ ((List.range (rendered_channels n d.num_channels_)).map
                (dump_slot d f previous)).flatten
          ++ (if n ≠ 0 ∧ n < d.num_channels_ then [' ', '.', '.', '.'] else [])
          ++ [']', '\n'])) ∧
    (((List.range (rendered_channels n d.num_channels_)).map
        (dump_slot d f previous)).flatten).length = 3 * rendered_channels n d.num_channels_ ∧
    (n ≠ 0 → rendered_channels n d.num_channels_ = min n d.num_channels_) ∧
    (n = 0 → rendered_channels n d.num_channels_ = d.num_channels_) ∧
    (∀ ch, (dump_slot d f previous ch).length = 3 ∧
      ((dump_slot d f previous ch = [' ', ' ', ' '] ∧
          ∃ pd p, previous = some (pd, p) ∧ channel_value d f ch = channel_value pd p ch) ∨
        dump_slot d f previous ch =
          ' ' :: (if (channel_value d f ch).val < 16 then
              [' ', Nat.digitChar (channel_value d f ch).val]
            else [Nat.digitChar ((channel_value d f ch).val / 16),
                  Nat.digitChar ((channel_value d f ch).val % 16)]))) := by
  have hblank : ((dump_slots d f n previous).all (fun c => c == ' ') = true) ↔
      ¬ ∃ c, c < rendered_channels n d.num_channels_ ∧
        ∀ pd p, previous = some (pd, p) → channel_value d f c ≠ channel_value pd p c := by
    rw [dump_slots_blank]
    constructor
    · rintro h ⟨c, hc, hne⟩
      obtain ⟨pd, p, hp, heq⟩ := h c hc
      exact hne pd p hp heq
    · intro h c hc
      by_contra hcon
      apply h
      refine ⟨c, hc, fun pd p hp heq => hcon ⟨pd, p, hp, heq⟩⟩
  refine ⟨?_, ?_, dump_slots_length d f n previous, ?_, ?_, ?_⟩
  · intro line hline hne
    have hreads := dump_ok_reads d f n previous line hline
    rw [dump_eq_rendered d f n previous (fun c hc => (hreads c hc).1)
      (fun pd p hp c hc => (hreads c hc).2 pd p hp)] at hline
    split at hline
    · cases hline
      exact absurd rfl hne
    · rename_i hnb
      cases hline
      refine ⟨rfl, hreads, ?_⟩
      by_contra hcon
      exact hnb (hblank.mpr hcon)
  · intro hread hsome
    have hok : ∀ (pd : FSEQv2) (p : Frame) (c : Nat),
        Frame.channel_data pd p c ≠ .error .OutOfRange →
        Frame.channel_data pd p c = .ok (channel_value pd p c) := by
      intro pd p c hne
      cases hcd : Frame.channel_data pd p c with
      | error e =>
        have := channel_data_error_kind pd p c e hcd
        subst this
        exact absurd hcd hne
      | ok b => rw [channel_data_value pd p c b hcd]
    rw [dump_eq_rendered d f n previous (fun c hc => hok d f c (hread c hc).1)
      (fun pd p hp c hc => hok pd p c ((hread c hc).2 pd p hp))]
    rw [if_neg]
    · rfl
    · intro hb
      exact (hblank.mp hb) hsome
  · intro hn
    simp [rendered_channels, hn]
  · intro hn
    simp [rendered_channels, hn]
  · intro ch
    refine ⟨dump_slot_length _ _ _ _, ?_⟩
    have h2x := (format_2x_byte (channel_value d f ch)).2.2
    cases hprevious : previous with
    | none =>
      right
      simp only [dump_slot]
      rw [h2x]
    | some q =>
      obtain ⟨pd, p⟩ := q
      simp only [dump_slot]
      split
      · rename_i heq
        exact Or.inl ⟨rfl, pd, p, rfl, heq⟩
      · right
        rw [h2x]

/-- The test document, frame 3 with a limit of 2 channels and no `previous`: both rendered
channels are readable, so the dump is the line with 2 slots and the marker; and frame 1 dumped
against frame 0 with no limit shows all 4 changed channels. -/
theorem dump_line_witness :
    Frame.dump dummy ⟨3⟩ 2 none = .ok "     60ms [  c  d ...]\n".toList ∧
    "     60ms [  c  d ...]\n".toList ≠ [] ∧
    Frame.dump dummy ⟨1⟩ 0 (some (dummy, ⟨0⟩)) = .ok "     20ms [  4  5  6  7]\n".toList :=
  ⟨((dump_line dummy ⟨3⟩ 2 none).2.1
      (fun c hc => ⟨(by decide : ∀ c, c < rendered_channels 2 dummy.num_channels_ →
          Frame.channel_data dummy ⟨3⟩ c ≠ .error .OutOfRange) c hc,
        fun _ _ h => by cases h⟩)
      ⟨0, by decide, fun _ _ h => by cases h⟩).trans (by decide),
   by decide,
   ((dump_line dummy ⟨1⟩ 0 (some (dummy, ⟨0⟩))).2.1
      (fun c hc => ⟨(by decide : ∀ c, c < rendered_channels 0 dummy.num_channels_ →
          Frame.channel_data dummy ⟨1⟩ c ≠ .error .OutOfRange) c hc,
        fun pd p h => by
          cases h
          exact (by decide : ∀ c, c < rendered_channels 0 dummy.num_channels_ →
            Frame.channel_data dummy ⟨0⟩ c ≠ .error .OutOfRange) c hc⟩)
      ⟨0, by decide, fun pd p h => by cases h; decide⟩).trans (by decide)⟩

/-! ### C21: termination of the variable loop -/

/-- A record `parse_fseq_variable` returns with a size other than 0 declares at least 4 bytes
and at most the bytes that remain (the buffer size being a `std::size_t`). -/
theorem parse_fseq_variable_bounds (raw : List Byte) (var : FSEQv2_Variable)
    (hsize : raw.length < 2 ^ 64) (h : parse_fseq_variable raw = .ok var) (hz : var.size ≠ 0) :
    4 ≤ var.size ∧ var.size ≤ raw.length ∧ var.size = read_le16 raw 0 ∧
      var.code = (raw.drop 2).take 2 ∧ var.data = (raw.drop 4).take (var.size - 4) := by
  by_cases h4 : raw.length < 4
  · rw [parse_fseq_variable_short raw h4] at h
    cases h
    exact absurd rfl hz
  · have h4 : 4 ≤ raw.length := by omega
    by_cases h0 : read_le16 raw 0 = 0
    · rw [parse_fseq_variable_zero raw h4 h0] at h
      cases h
      exact absurd rfl hz
    · rw [parse_fseq_variable_nonzero raw h4 h0] at h
      split at h
      · cases h
      · rename_i hlen
        cases h
        simp only at hz ⊢
        have hl : (raw.drop 4).length = raw.length - 4 := List.length_drop _ _
        rw [hl] at hlen
        by_cases hs : read_le16 raw 0 < 4
        · rw [to_size_t_small_negative _ hs] at hlen
          omega
        · have hs : 4 ≤ read_le16 raw 0 := by omega
          have h16 := read_le16_lt raw 0
          have hc : ((read_le16 raw 0 : Int) - 4) = ((read_le16 raw 0 - 4 : Nat) : Int) := by
            omega
          have hts : to_size_t ((read_le16 raw 0 : Int) - 4) = read_le16 raw 0 - 4 := by
            rw [hc]; exact to_size_t_of_nat _ (by norm_num at h16 ⊢; omega)
          rw [hts] at hlen ⊢
          exact ⟨hs, by omega, trivial, trivial, rfl⟩

/-- With the buffer size a `std::size_t`, `parse_fseq_variable` never violates a span
precondition: its only error is the "variable size overrun" exception. -/
theorem parse_fseq_variable_error_kind (raw : List Byte) (e : Error)
    (h : parse_fseq_variable raw = .error e) : e = .TruncatedRecord := by
  by_cases h4 : raw.length < 4
  · rw [parse_fseq_variable_short raw h4] at h
    cases h
  · have h4 : 4 ≤ raw.length := by omega
    by_cases h0 : read_le16 raw 0 = 0
    · rw [parse_fseq_variable_zero raw h4 h0] at h
      cases h
    · rw [parse_fseq_variable_nonzero raw h4 h0] at h
      split at h
      · cases h; rfl
      · cases h

/-- The variable loop run with more fuel than a quarter of the region length ends by itself:
it returns a mapping or throws "variable size overrun", and never runs out of fuel or violates
a span precondition. -/
theorem parse_variables_total (fuel : Nat) (vars : VarMap) (data : List Byte)
    (hsize : data.length < 2 ^ 64) (hfuel : data.length / 4 < fuel) :
    (∃ m, parse_variables fuel vars data = .ok m) ∨
      parse_variables fuel vars data = .error .TruncatedRecord := by
  induction fuel generalizing vars data with
  | zero => omega
  | succ n ih =>
    unfold parse_variables
    split
    · exact Or.inl ⟨_, rfl⟩
    · split
      · rename_i e he
        rw [parse_fseq_variable_error_kind _ _ he]
        exact Or.inr rfl
      · rename_i var hv
        split
        · exact Or.inl ⟨_, rfl⟩
        · rename_i hz
          obtain ⟨h4, hle, _⟩ := parse_fseq_variable_bounds data var hsize hv hz
          rw [span_subspan_rest _ _ hle]
          simp only
          apply ih
          · rw [List.length_drop]; omega
          · rw [List.length_drop]; omega

/-- The loop as `parse_from_` runs it (fuel = region length) ends by itself. -/
theorem parse_variables_total_length (vars : VarMap) (data : List Byte)
    (hsize : data.length < 2 ^ 64) :
    (∃ m, parse_variables data.length vars data = .ok m) ∨
      parse_variables data.length vars data = .error .TruncatedRecord := by
  by_cases h0 : data.length = 0
  · have : data = [] := List.length_eq_zero.mp h0
    subst this
    exact Or.inl ⟨vars, by simp [parse_variables]⟩
  · exact parse_variables_total _ vars data hsize (by omega)

/-- More fuel than a quarter of the region length does not change the result of the loop. -/
theorem parse_variables_fuel (fuel1 fuel2 : Nat) (vars : VarMap) (data : List Byte)
    (hsize : data.length < 2 ^ 64) (h1 : data.length / 4 < fuel1) (h2 : data.length / 4 < fuel2) :
    parse_variables fuel1 vars data = parse_variables fuel2 vars data := by
  induction fuel1 generalizing fuel2 vars data with
  | zero => omega
  | succ n ih =>
    cases fuel2 with
    | zero => omega
    | succ k =>
      unfold parse_variables
      split
      · rfl
      · split
        · rfl
        · rename_i var hv
          split
          · rfl
          · rename_i hz
            obtain ⟨h4, hle, _⟩ := parse_fseq_variable_bounds data var hsize hv hz
            rw [span_subspan_rest _ _ hle]
            simp only
            apply ih
            · rw [List.length_drop]; omega
            · rw [List.length_drop]; omega
            · rw [List.length_drop]; omega

theorem records_consumed_le (fuel : Nat) (data : List Byte) (hsize : data.length < 2 ^ 64) :
    records_consumed fuel data ≤ data.length / 4 := by
  induction fuel generalizing data with
  | zero => simp [records_consumed]
  | succ n ih =>
    unfold records_consumed
    split
    · omega
    · split
      · omega
      · rename_i var hv
        split
        · omega
        · rename_i hz
          obtain ⟨h4, hle, _⟩ := parse_fseq_variable_bounds data var hsize hv hz
          rw [span_subspan_rest _ _ hle]
          simp only
          have := ih (data.drop var.size) (by rw [List.length_drop]; omega)
          rw [List.length_drop] at this
          omega

theorem loop_iterations_le (fuel : Nat) (data : List Byte) (hsize : data.length < 2 ^ 64) :
    loop_iterations fuel data ≤ data.length / 4 + 1 := by
  induction fuel generalizing data with
  | zero => simp [loop_iterations]
  | succ n ih =>
    unfold loop_iterations
    split
    · omega
    · split
      · omega
      · rename_i var hv
        split
        · omega
        · rename_i hz
          obtain ⟨h4, hle, _⟩ := parse_fseq_variable_bounds data var hsize hv hz
          rw [span_subspan_rest _ _ hle]
          simp only
          have := ih (data.drop var.size) (by rw [List.length_drop]; omega)
          rw [List.length_drop] at this
          omega

theorem loop_iterations_fuel (fuel1 fuel2 : Nat) (data : List Byte)
    (hsize : data.length < 2 ^ 64) (h1 : data.length / 4 < fuel1) (h2 : data.length / 4 < fuel2) :
    loop_iterations fuel1 data = loop_iterations fuel2 data := by
  induction fuel1 generalizing fuel2 data with
  | zero => omega
  | succ n ih =>
    cases fuel2 with
    | zero => omega
    | succ k =>
      unfold loop_iterations
      split
      · rfl
      · split
        · rfl
        · rename_i var hv
          split
          · rfl
          · rename_i hz
            obtain ⟨h4, hle, _⟩ := parse_fseq_variable_bounds data var hsize hv hz
            rw [span_subspan_rest _ _ hle]
            simp only
            congr 1
            apply ih
            · rw [List.length_drop]; omega
            · rw [List.length_drop]; omega
            · rw [List.length_drop]; omega

theorem FSEQv2_Header.ofSpan_not_OutOfFuel (raw : List Byte) :
    FSEQv2_Header.ofSpan raw ≠ .error .OutOfFuel := by
  unfold FSEQv2_Header.ofSpan
  simp only
  repeat' split
  all_goals simp

/-- On every buffer (its size a `std::size_t`) the model of parse ends without running out of
fuel: the loop bound `len(region)` it uses is never reached. -/
theorem parse_from__terminates (b : List Byte) (hsize : b.length < 2 ^ 64) :
    FSEQv2.parse_from_ b ≠ .error .OutOfFuel := by
  intro h
  unfold FSEQv2.parse_from_ at h
  split at h
  · rename_i e1 h1
    have := span_first_error _ _ _ h1
    cases h; cases this
  · split at h
    · rename_i e2 h2
      cases h
      exact FSEQv2_Header.ofSpan_not_OutOfFuel _ h2
    · simp only at h
      split at h
      · rename_i e3 h3
        have := span_subspan_error _ _ _ _ h3
        cases h; cases this
      · rename_i variable_data h3
        have hvl : variable_data.length < 2 ^ 64 := by
          obtain ⟨_, hv | hv⟩ := span_subspan_ok _ _ _ _ h3
          · rw [hv.2, List.length_drop]; omega
          · rw [hv.2.2, List.length_take, List.length_drop]; omega
        split at h
        · rename_i e4 h4
          cases h
          rcases parse_variables_total_length [] variable_data hvl with ⟨m, hm⟩ | hm
          · rw [hm] at h4; cases h4
          · rw [hm] at h4; cases h4
        · split at h
          · rename_i e5 h5
            have := span_subspan_error _ _ _ _ h5
            cases h; cases this
          · split at h <;> cases h

/-- The buffer `short_region_show` (offsets 32 and 35, no channels, no frames, three zero bytes
after the header) parses to an empty document. -/
theorem short_region_show_parses :
    FSEQv2.parse_from_ short_region_show =
      .ok { version_minor_ := 0, num_channels_ := 0, num_frames_ := 0, step_time_ := 20,
            created_ := 0, variables_ := [], frame_data_ := [] } := by
  decide

/-- C21, counterexample. The buffer `short_region_show` has a variable region of 3 bytes; parse
succeeds on it, and its loop enters the body once (to stop at the sentinel), which is more than
`3 / 4 = 0` times. -/
theorem one_iteration_on_three_bytes :
    (∃ d, FSEQv2.parse_from_ short_region_show = .ok d) ∧
    variable_region short_region_show = [0, 0, 0] ∧
    loop_iterations (variable_region short_region_show).length
      (variable_region short_region_show) = 1 ∧
    ¬ (loop_iterations (variable_region short_region_show).length
      (variable_region short_region_show) ≤ (variable_region short_region_show).length / 4) := by
  exact ⟨⟨_, short_region_show_parses⟩, by decide, by decide, by decide⟩

/-- C21, amended. The variable loop of parse ends on every region (its length a
`std::size_t`): run as `parse_from_` runs it, it returns a mapping or throws "variable size
overrun", and any amount of fuel above `len(region) / 4` gives the same result.  Every pass that
does not stop at the sentinel or throw consumes a record whose declared size is at least 4 and at
most the remaining length, so what remains gets strictly shorter.  The passes that consume a
record are at most `len(region) / 4`, and the passes in all (the last one may stop at the sentinel
or throw without consuming anything) at most `len(region) / 4 + 1`. -/
theorem decode_loop_terminates (data : List Byte) (vars : VarMap)
    (hsize : data.length < 2 ^ 64) :
    ((∃ m, parse_variables data.length vars data = .ok m) ∨
      parse_variables data.length vars data = .error .TruncatedRecord) ∧
    (∀ fuel, data.length / 4 < fuel →
      parse_variables fuel vars data = parse_variables data.length vars data ∧
      loop_iterations fuel data = loop_iterations data.length data) ∧
    (∀ var, parse_fseq_variable data = .ok var → var.size ≠ 0 →
      4 ≤ var.size ∧ var.size ≤ data.length ∧
      span_subspan data var.size dynamic_extent = .ok (data.drop var.size) ∧
      (data.drop var.size).length = data.length - var.size ∧
      (data.drop var.size).length < data.length) ∧
    (∀ fuel, records_consumed fuel data ≤ data.length / 4) ∧
    (∀ fuel, loop_iterations fuel data ≤ data.length / 4 + 1) := by
  refine ⟨parse_variables_total_length vars data hsize, ?_, ?_,
    fun fuel => records_consumed_le fuel data hsize,
    fun fuel => loop_iterations_le fuel data hsize⟩
  · intro fuel hfuel
    by_cases h0 : data.length = 0
    · have : data = [] := List.length_eq_zero.mp h0
      subst this
      cases fuel with
      | zero => exact ⟨rfl, rfl⟩
      | succ k => exact ⟨by simp [parse_variables], by simp [loop_iterations]⟩
    · exact ⟨parse_variables_fuel _ _ vars data hsize hfuel (by omega),
        loop_iterations_fuel _ _ data hsize hfuel (by omega)⟩
  · intro var hv hz
    obtain ⟨h4, hle, _⟩ := parse_fseq_variable_bounds data var hsize hv hz
    refine ⟨h4, hle, span_subspan_rest _ _ hle, List.length_drop _ _, ?_⟩
    rw [List.length_drop]; omega

theorem decode_loop_terminates_witness :
    (variable_region dummy_show).length < 2 ^ 64 ∧
    records_consumed 44 (variable_region dummy_show) ≤ (variable_region dummy_show).length / 4 :=
  ⟨by decide,
   (decode_loop_terminates (variable_region dummy_show) [] (by decide)).2.2.2.1 44⟩

/-! ### C22: bounds safety under well-formed offsets -/

/-- The variable region of a buffer with `variable_data_offset <= channel_data_offset <= len(b)`
lies inside the buffer: the `subspan` call that takes it meets its precondition. -/
theorem span_subspan_variable_region (b : List Byte) (hvc : read_le16 b 8 ≤ read_le16 b 4)
    (hcl : read_le16 b 4 ≤ b.length) :
    span_subspan b (read_le16 b 8) (to_size_t ((read_le16 b 4 : Int) - (read_le16 b 8 : Nat)))
      = .ok (variable_region b) := by
  have h16 := read_le16_lt b 4
  have hcnt : to_size_t ((read_le16 b 4 : Int) - (read_le16 b 8 : Nat)) =
      read_le16 b 4 - read_le16 b 8 := by
    have : (read_le16 b 4 : Int) - (read_le16 b 8 : Nat) =
        ((read_le16 b 4 - read_le16 b 8 : Nat) : Int) := by omega
    rw [this]
    exact to_size_t_of_nat _ (by omega)
  rw [hcnt, span_subspan_count _ _ _ (by omega) (by omega) (by unfold dynamic_extent; omega)]
  rfl

theorem variable_region_length (b : List Byte) : (variable_region b).length < 2 ^ 16 := by
  have h16 := read_le16_lt b 4
  unfold variable_region
  rw [List.length_take]
  omega

/-- What `parse_from_` computes on a buffer of at least 32 bytes whose header passes the checks
and whose offsets satisfy `variable_data_offset <= channel_data_offset <= len(b)`: no span
precondition is in the way. -/
theorem parse_from__of_offsets (b : List Byte) (hd : FSEQv2_Header) (hlen : 32 ≤ b.length)
    (hh : FSEQv2_Header.ofSpan (b.take 32) = .ok hd)
    (hvc : read_le16 b 8 ≤ read_le16 b 4) (hcl : read_le16 b 4 ≤ b.length) :
    FSEQv2.parse_from_ b =
      match parse_variables (variable_region b).length [] (variable_region b) with
      | .error e => .error e
      | .ok vars =>
        if (b.drop (read_le16 b 4)).length ≠ (read_le32 b 10 * read_le32 b 14) % 2 ^ 32 then
          .error .FrameDataSizeMismatch
        else
          .ok { version_minor_ := byte_at b 6, num_channels_ := read_le32 b 10,
                num_frames_ := read_le32 b 14, step_time_ := (byte_at b 18 : Nat),
                created_ := to_int64 (read_le64 b 24),
                variables_ := vars, frame_data_ := b.drop (read_le16 b 4) } := by
  have hm := FSEQv2_Header.ofSpan_ok _ _ hh
  unfold FSEQv2.parse_from_
  rw [span_first_header b hlen]
  simp only
  rw [hh]
  simp only
  have hco : hd.ch_data_offset = read_le16 b 4 := by
    rw [hm]; exact read_le16_take b 32 4 (by decide)
  have hvo : hd.var_data_offset = read_le16 b 8 := by
    rw [hm]; exact read_le16_take b 32 8 (by decide)
  have h1 : hd.version_minor = byte_at b 6 := by
    rw [hm]; exact byte_at_take b 32 6 (by decide)
  have h2 : hd.channel_count = read_le32 b 10 := by
    rw [hm]; exact read_le32_take b 32 10 (by decide)
  have h3 : hd.frame_count = read_le32 b 14 := by
    rw [hm]; exact read_le32_take b 32 14 (by decide)
  have h4 : hd.step_time = byte_at b 18 := by
    rw [hm]; exact byte_at_take b 32 18 (by decide)
  have h5 : hd.timestamp_us = read_le64 b 24 := by
    rw [hm]; exact read_le64_take b 32 24 (by decide)
  rw [hco, hvo, h1, h2, h3, h4, h5, span_subspan_variable_region b hvc hcl]
  simp only
  rw [span_subspan_rest b _ hcl]

/-- C22. For every buffer `b` of at least 32 bytes whose header passes the checks of the
header constructor and whose offsets satisfy
`variable_data_offset <= channel_data_offset <= len(b)`, every span taken by parse meets its
precondition: the header is `b[0..32)`, the variable region is
`b[variable_data_offset .. channel_data_offset)`, every record read from what remains of that
region either makes the loop throw "variable size overrun" or declares at least 4 and at most
the remaining bytes, so that its size field, code and data and the advance by its size stay
inside the region, and the frame region is `b[channel_data_offset ..)`.  Hence parse returns a
document, or throws "variable size overrun" (`TruncatedRecord`) or "channel data block size
wrong" (`FrameDataSizeMismatch`), and nothing else. -/
theorem parse_bounds_safe (b : List Byte) (hd : FSEQv2_Header) (hlen : 32 ≤ b.length)
    (hh : FSEQv2_Header.ofSpan (b.take 32) = .ok hd)
    (hvc : hd.var_data_offset ≤ hd.ch_data_offset) (hcl : hd.ch_data_offset ≤ b.length) :
    span_first b HEADER_SIZE = .ok (b.take 32) ∧
    span_subspan b hd.var_data_offset
      (to_size_t ((hd.ch_data_offset : Int) - hd.var_data_offset)) =
        .ok ((b.drop hd.var_data_offset).take (hd.ch_data_offset - hd.var_data_offset)) ∧
    (∀ rest : List Byte,
      rest.length ≤ ((b.drop hd.var_data_offset).take
        (hd.ch_data_offset - hd.var_data_offset)).length →
      (∀ e, parse_fseq_variable rest = .error e → e = .TruncatedRecord) ∧
      ∀ var, parse_fseq_variable rest = .ok var → var.size ≠ 0 →
        4 ≤ var.size ∧ var.size ≤ rest.length ∧ var.code = (rest.drop 2).take 2 ∧
        var.data = (rest.drop 4).take (var.size - 4) ∧
        span_subspan rest var.size dynamic_extent = .ok (rest.drop var.size)) ∧
    span_subspan b hd.ch_data_offset dynamic_extent = .ok (b.drop hd.ch_data_offset) ∧
    ((∃ d, FSEQv2.parse_from_ b = .ok d) ∨
      FSEQv2.parse_from_ b = .error .TruncatedRecord ∨
      FSEQv2.parse_from_ b = .error .FrameDataSizeMismatch) := by
  have hm := FSEQv2_Header.ofSpan_ok _ _ hh
  have hco : hd.ch_data_offset = read_le16 b 4 := by
    rw [hm]; exact read_le16_take b 32 4 (by decide)
  have hvo : hd.var_data_offset = read_le16 b 8 := by
    rw [hm]; exact read_le16_take b 32 8 (by decide)
  rw [hco, hvo] at hvc
  rw [hco] at hcl
  have hreg := variable_region_length b
  rw [hco, hvo]
  refine ⟨span_first_header b hlen, span_subspan_variable_region b hvc hcl, ?_,
    span_subspan_rest b _ hcl, ?_⟩
  · intro rest hrest
    have hrl : rest.length < 2 ^ 64 := by
      have : rest.length ≤ (variable_region b).length := hrest
      omega
    refine ⟨fun e he => parse_fseq_variable_error_kind rest e he, ?_⟩
    intro var hv hz
    obtain ⟨h4, hle, _, hcode, hdata⟩ := parse_fseq_variable_bounds rest var hrl hv hz
    exact ⟨h4, hle, hcode, hdata, span_subspan_rest _ _ hle⟩
  · rw [parse_from__of_offsets b hd hlen hh hvc hcl]
    rcases parse_variables_total_length [] (variable_region b) (by omega) with ⟨m, hm1⟩ | hm1
    · rw [hm1]
      simp only
      split
      · exact Or.inr (Or.inr rfl)
      · exact Or.inl ⟨_, rfl⟩
    · rw [hm1]
      exact Or.inr (Or.inl rfl)

theorem parse_bounds_safe_witness :
    32 ≤ dummy_show.length ∧
    FSEQv2_Header.ofSpan (dummy_show.take 32) = .ok (FSEQv2_Header.memcpy (dummy_show.take 32)) ∧
    ((∃ d, FSEQv2.parse_from_ dummy_show = .ok d) ∨
      FSEQv2.parse_from_ dummy_show = .error .TruncatedRecord ∨
      FSEQv2.parse_from_ dummy_show = .error .FrameDataSizeMismatch) :=
  ⟨by decide, by decide,
   (parse_bounds_safe dummy_show (FSEQv2_Header.memcpy (dummy_show.take 32)) (by decide)
      (by decide) (by decide) (by decide)).2.2.2.2⟩

/-! ### C23: the variable-key invariant -/

/-- With 2-byte codes, the only exception the record loop of `serialize` can throw is the one
for an over-long value. -/
theorem serialize_variables_keys_error (m : VarMap) (block : List Byte) (e : Error)
    (hk : ∀ x ∈ m, x.1.length = 2) (h : serialize_variables m block = .error e) :
    e = .DataTooLarge := by
  induction m generalizing block with
  | nil => simp [serialize_variables] at h
  | cons x rest ih =>
    obtain ⟨code, data⟩ := x
    have hc : code.length = 2 := hk (code, data) (List.mem_cons_self _ _)
    unfold serialize_variables at h
    split at h
    · rename_i e1 h1
      cases h
      unfold serialize_fseq_variable at h1
      rw [if_neg (by simp [hc, CODE_LENGTH])] at h1
      split at h1
      · cases h1; rfl
      · cases h1
    · exact ih _ (fun x hx => hk x (List.mem_cons_of_mem _ hx)) h

/-- A document with 2-byte codes whose padded variable block fits after the header
serialises. -/
theorem serialize_ok_of_fits (d : FSEQv2) (hk : ∀ x ∈ d.variables_, x.1.length = 2)
    (hfit : 32 + padded_length (records_length d.variables_) ≤ 65535) :
    d.serialize = .ok ((serialize_header d (padded_length (records_length d.variables_))).bytes
      ++ pad_block 3 (encode_records d.variables_) ++ d.frame_data_) := by
  have hpad : records_length d.variables_ ≤ padded_length (records_length d.variables_) := by
    unfold padded_length; omega
  have hd : ∀ x ∈ d.variables_, x.2.length ≤ 65531 := by
    intro x hx
    have := records_length_mem d.variables_ x hx
    simp only [HEADER_LENGTH, CODE_LENGTH] at this
    omega
  have hblock := serialize_variables_ok d.variables_ [] hk hd
  rw [List.nil_append] at hblock
  rw [serialize_of_block d _ hblock, pad_block_length, encode_records_length _ hk]
  rw [if_neg (by simp only [HEADER_SIZE]; omega)]

/-- C23. For every document produced by a successful parse, or built by the empty constructor
and a sequence of successful `add_variable` and `add_frame` calls, every key of the variable
mapping is exactly 2 bytes long; consequently `serialize()` never throws the exception for a
code of the wrong length (`InvalidCodeLength`), and it succeeds whenever 32 plus the padded
length of the variable block (the sum of `4 + len(value)` over the entries, rounded up to a
multiple of 4) is at most 65535. -/
theorem variable_key_invariant (d : FSEQv2)
    (hdoc : (∃ b, FSEQv2.parse_from_ b = .ok d) ∨
      (∃ nc step now ms, FSEQv2.build nc step now ms = .ok d)) :
    (∀ x ∈ d.variables_, x.1.length = 2) ∧
    d.serialize ≠ .error .InvalidCodeLength ∧
    (32 + padded_length (records_length d.variables_) ≤ 65535 →
      ∃ out, d.serialize = .ok out ∧
        out.length = 32 + padded_length (records_length d.variables_) + d.frame_data_.length) := by
  have hk : ∀ x ∈ d.variables_, x.1.length = 2 := by
    rcases hdoc with ⟨b, hb⟩ | ⟨nc, step, now, ms, hb⟩
    · exact (parse_from__decodes b d hb).2.2.2.2.2.2.2.2.2.2.1
    · exact (build_invariant nc step now ms d hb).1.2.1
  refine ⟨hk, ?_, ?_⟩
  · intro h
    unfold FSEQv2.serialize at h
    split at h
    · rename_i e he
      cases h
      have := serialize_variables_keys_error _ _ _ hk he
      cases this
    · simp only at h
      split at h <;> cases h
  · intro hfit
    refine ⟨_, serialize_ok_of_fits d hk hfit, ?_⟩
    simp only [List.length_append, serialize_header_bytes_length, pad_block_length,
      encode_records_length _ hk]

theorem variable_key_invariant_witness :
    ((∃ b, FSEQv2.parse_from_ b = .ok dummy) ∨
      (∃ nc step now ms, FSEQv2.build nc step now ms = .ok dummy)) ∧
    dummy.serialize ≠ .error .InvalidCodeLength :=
  ⟨Or.inl ⟨dummy_show, by decide⟩,
   (variable_key_invariant dummy (Or.inl ⟨dummy_show, by decide⟩)).2.1⟩

end VLT
